import Mathlib

/-!
# libprolog: term marshalling and result collection

A shallow embedding of `src/src/prolog.c` (the result collectors, the exception
decoder, the tagged result envelope and the predicate invocation functions),
with the allocation helpers of `src/datalibs/factmap.c`.

Conventions of the embedding:

* C text is a list of characters, one character per byte, the terminating zero
  excluded; a `char` buffer is a list of `Byte`.
* A pointer-sized machine word is a `Word`; `NULL` is the integral word `0`.
* Engine terms are values of `Term`; the engine functions the code calls
  (`PL_get_list`, `PL_is_list`, `PL_term_type`, ...) are modelled on terms by
  structural inspection; what the engine prints for a float or writes for a
  term is a field of `Engine`.
* Heap allocation is taken to succeed.
-/

set_option autoImplicit false

namespace Prolog

/-! ## C text -/

/-- C text: one character per byte. -/
abbrev CString := List Char

/-- One byte of a `char` buffer: indeterminate content, the terminating
zero, or a character of text. -/
inductive Byte where
  | indet
  | nul
  | chr (c : Char)
  deriving DecidableEq, Repr

/-- A `char` buffer. -/
abbrev Buffer := List Byte

/-- The C string that starts at offset 0 of a buffer: the characters before the
first zero byte. `none` when an indeterminate byte or the end of the buffer
comes first. -/
def cstring : Buffer → Option CString
  | [] => none
  | .indet :: _ => none
  | .nul :: _ => some []
  | .chr c :: rest => (cstring rest).map (fun s => c :: s)

/-- Store `cells` at offset `p` of `buf`; `none` when the store leaves the buffer. -/
def store (buf : Buffer) (p : Nat) (cells : Buffer) : Option Buffer :=
  if p + cells.length ≤ buf.length then
    some (buf.take p ++ cells ++ buf.drop (p + cells.length))
  else none

/-- The effect of `snprintf(buf + p, size, ...)` for a format that expands to `text`:
with `size = 0` nothing is written, otherwise the first `size - 1` characters of
`text` and a zero byte are. The return value of `snprintf` is `text.length`. -/
def snprintf (buf : Buffer) (p size : Nat) (text : CString) : Option Buffer :=
  if size = 0 then some buf
  else store buf p ((text.take (size - 1)).map Byte.chr ++ [Byte.nul])

/-! ## Engine terms -/

/-- A C `double`, as its 64-bit pattern. -/
abbrev Double := Nat

/-- Engine terms. A list cell (functor `.` of arity 2) has its own constructor;
`compound` stands for every other compound term. The empty list is the atom `[]`. -/
inductive Term where
  | var (id : Nat)
  | int (n : Int)
  | float (d : Double)
  | atom (name : CString)
  | str (text : CString)
  | cons (head tail : Term)
  | compound (name : CString) (args : List Term)

namespace Term

/-- The empty list, the atom `[]`. -/
def nil : Term := atom "[]".toList

/-- The proper list of the given elements. -/
def ofList : List Term → Term
  | [] => nil
  | t :: ts => cons t (ofList ts)

end Term

/-- The term kinds reported by `PL_term_type`. -/
inductive TermType where
  | PL_VARIABLE | PL_ATOM | PL_INTEGER | PL_FLOAT | PL_STRING | PL_TERM
  deriving DecidableEq, Repr

open TermType

/-- The kind of a term (`PL_term_type`); `[]` is an atom. -/
def PL_term_type : Term → TermType
  | .var _ => PL_VARIABLE
  | .int _ => PL_INTEGER
  | .float _ => PL_FLOAT
  | .atom _ => PL_ATOM
  | .str _ => PL_STRING
  | .cons _ _ => PL_TERM
  | .compound _ _ => PL_TERM

/-- Head and tail of a list cell (`PL_get_list`); fails on anything else. -/
def PL_get_list : Term → Option (Term × Term)
  | .cons h t => some (h, t)
  | _ => none

/-- Head of a list cell (`PL_get_head`). -/
def PL_get_head : Term → Option Term
  | .cons h _ => some h
  | _ => none

/-- Holds for a list cell and for the atom `[]` (`PL_is_list`); the tail of a
cell is not inspected. -/
def PL_is_list : Term → Bool
  | .cons _ _ => true
  | .atom name => name == "[]".toList
  | _ => false

/-- Holds for list cells and other compound terms (`PL_is_compound`). -/
def PL_is_compound : Term → Bool
  | .cons _ _ => true
  | .compound _ _ => true
  | _ => false

/-- Holds for atoms, strings, integers and floats (`PL_is_atomic`). -/
def PL_is_atomic : Term → Bool
  | .int _ => true
  | .float _ => true
  | .atom _ => true
  | .str _ => true
  | _ => false

/-- Name and arity of an atom or compound term (`PL_get_name_arity`). -/
def PL_get_name_arity : Term → Option (CString × Nat)
  | .atom name => some (name, 0)
  | .cons _ _ => some (".".toList, 2)
  | .compound name args => some (name, args.length)
  | _ => none

/-- The `i`-th argument, counted from 1, of a compound term (`PL_get_arg`). -/
def PL_get_arg (i : Nat) : Term → Option Term
  | .cons h t => if i = 1 then some h else if i = 2 then some t else none
  | .compound _ args => if i = 0 then none else args.get? (i - 1)
  | _ => none

/-- Smallest value of a C `int`. -/
def INT_MIN : Int := -2147483648

/-- Largest value of a C `int`. -/
def INT_MAX : Int := 2147483647

/-- The value of an integer term that fits a C `int` (`PL_get_integer`). The
callers in this file apply it to integer terms only. -/
def PL_get_integer : Term → Option Int
  | .int n => if INT_MIN ≤ n ∧ n ≤ INT_MAX then some n else none
  | _ => none

/-- The value of a float term (`PL_get_float` on a term of type `PL_FLOAT`). -/
def PL_get_float : Term → Option Double
  | .float d => some d
  | _ => none

/-- The text of an atom (`PL_get_atom_chars`). -/
def PL_get_atom_chars : Term → Option CString
  | .atom name => some name
  | _ => none

/-- The text of a string term (`PL_get_string_chars`). -/
def PL_get_string_chars : Term → Option CString
  | .str text => some text
  | _ => none

/-- The length of a list term. The function sets `length = -1`, unifies the term
with the first argument of the engine's `length/2`, calls it, and on success
reads the second argument. `length/2` counts the cells of a proper list and of
a list whose tail is unbound (its first solution closes the tail with `[]`);
it has no solution for any other term, which leaves `-1`. -/
def prolog_list_length : Term → Int
  | .cons _ t => if prolog_list_length t < 0 then -1 else prolog_list_length t + 1
  | .atom name => if name = "[]".toList then 0 else -1
  | .var _ => 0
  | _ => -1

/-! ## The engine -/

/-- What the engine computes and the code only consumes: the text it prints for
a float, the text `write/1` produces for a term, and the outcome of the first
`PL_next_solution` of a query on a predicate handle and its input arguments. -/
inductive Solution where
  | solved (retval : Term)
  | failed
  | raised (exception : Term)

/-- The engine, as far as the code depends on it. -/
structure Engine where
  /-- Text of a float, as `PL_get_chars` converts it. -/
  format_float : Double → CString
  /-- Text of a term, as `PL_get_chars` with `CVT_WRITE` writes it. -/
  write : Term → CString
  /-- First solution of the query on a predicate handle with the given input
  arguments; `solved t` carries the term bound to the last argument. -/
  solve : Nat → List Term → Solution

/-- Text of a proper list of character codes (1..255). -/
def codes_text : Term → Option CString
  | .atom name => if name = "[]".toList then some [] else none
  | .cons (.int c) t =>
      if 1 ≤ c ∧ c ≤ 255 then (codes_text t).map (fun s => Char.ofNat c.toNat :: s) else none
  | _ => none

/-- Text of a proper list of one-character atoms. -/
def chars_text : Term → Option CString
  | .atom name => if name = "[]".toList then some [] else none
  | .cons (.atom [c]) t => (chars_text t).map (fun s => c :: s)
  | _ => none

/-- The conversion flags the code passes to `PL_get_chars`. `CVT_ALL` converts
atoms, strings, integers, floats and lists of character codes or characters;
`CVT_WRITE` alone writes any term. -/
inductive Flags where
  | CVT_ALL
  | CVT_WRITE
  deriving DecidableEq, Repr

/-- Text of a term (`PL_get_chars`). -/
def PL_get_chars (e : Engine) (t : Term) : Flags → Option CString
  | .CVT_WRITE => some (e.write t)
  | .CVT_ALL =>
    match t with
    | .atom name => some name
    | .str text => some text
    | .int n => some (toString n).toList
    | .float d => some (e.format_float d)
    | .cons h tl =>
      match codes_text (.cons h tl) with
      | some s => some s
      | none => chars_text (.cons h tl)
    | _ => none

/-! ## Memory words -/

/-- A pointer-sized word of the result structures: an integral value (`0` is
`NULL`), a `double` stored in place, the address of an allocated C string, of an
allocated `double`, of an allocated array, or of slot 1 of an allocated array
(a result envelope, whose slot 0 is the tag). -/
inductive Word where
  | int (n : Int)
  | flt (d : Double)
  | str (s : CString)
  | dbl (d : Double)
  | arr (ws : List Word)
  | env (block : List Word)

/-- The null pointer. -/
def NULL : Word := Word.int 0

/-- A character constant cast to a pointer, as in `(char *)(quote s quote)`. -/
def tag (c : Char) : Word := Word.int c.toNat

/-- `ALLOC_ARR(type, n)`: `n` zero-filled slots (`malloc` and `memset`). -/
def ALLOC_ARRAY (n : Nat) : List Word := List.replicate n NULL

/-- Test of a word against `NULL`. -/
def Word.isNull : Word → Bool
  | .int n => n == 0
  | _ => false

def EIO : Int := 5
def ENOMEM : Int := 12
def EINVAL : Int := 22

def RESULT_UNKNOWN : Int := 0
def RESULT_ACTIONS : Int := 1
def RESULT_OBJECTS : Int := 2
def RESULT_EXCEPTION : Int := 3

def OBJECT_NAME : CString := "name".toList

/-! ## List walking and the collectors -/

/-- The loop of `prolog_walk_list`, started at index `i`: while no error is
pending and the list term is a cell, call the callback on the head, then move
to the tail. `data` is the array the callback fills. -/
def prolog_walk_from {σ : Type} (callback : Term → Nat → σ → Int × σ) :
    Term → Nat → σ → Int × σ
  | .cons h t, i, data =>
      let r := callback h i data
      if r.1 ≠ 0 then r else prolog_walk_from callback t (i + 1) r.2
  | _, _, data => (0, data)

/-- Walk a list term, calling `callback(item, i, data)` on every element. -/
def prolog_walk_list {σ : Type} (list : Term) (callback : Term → Nat → σ → Int × σ)
    (data : σ) : Int × σ :=
  prolog_walk_from callback list 0 data

/-- Is the list an action list: the second element of its first element is not
a list. -/
def is_action_list (list : Term) : Bool :=
  match PL_get_head list with
  | none => false
  | some pl_action =>
    match PL_get_list pl_action with
    | none => false
    | some (_, pl_list) =>
      match PL_get_head pl_list with
      | none => false
      | some pl_head => !PL_is_list pl_head

/-- Store the text of one parameter in slot `i` of an action. -/
def collect_action (e : Engine) (pl_param : Term) (i : Nat) (action : List Word) :
    Int × List Word :=
  match PL_get_chars e pl_param .CVT_ALL with
  | none => (EINVAL, action)
  | some param => (0, action.set i (.str param))

/-- Collect row `i` of an action list into slot `i` of `actions`. -/
def collect_actions (e : Engine) (item : Term) (i : Nat) (actions : List Word) :
    Int × List Word :=
  let length := prolog_list_length item
  if length < 0 then (EINVAL, actions)
  else if length > 0 then
    let r := prolog_walk_list item (collect_action e) (ALLOC_ARRAY (length.toNat + 1))
    if r.1 ≠ 0 then (r.1, actions)
    else (0, actions.set i (.arr r.2))
  else (0, actions.set i NULL)

/-- Store element `i` of an object row: the name at index 0, a
`[field, value]` pair as the triple at slots `3i`, `3i+1`, `3i+2` otherwise. -/
def collect_object (e : Engine) (item : Term) (i : Nat) (object : List Word) :
    Int × List Word :=
  if i = 0 then
    match PL_get_chars e item .CVT_ALL with
    | none => (EINVAL, object)
    | some field =>
      (0, ((object.set 0 (.str OBJECT_NAME)).set 2 (.str field)).set 1 (tag 's'))
  else
    match PL_get_list item with
    | none => (EINVAL, object)
    | some (pl_field, pl_value) =>
      match PL_get_head pl_value with
      | none => (EINVAL, object)
      | some pl_value =>
        match PL_get_chars e pl_field .CVT_ALL with
        | none => (EINVAL, object)
        | some field =>
          let put (type value : Word) : Int × List Word :=
            (0, ((object.set (3 * i) (.str field)).set (3 * i + 1) type).set (3 * i + 2) value)
          match PL_term_type pl_value with
          | PL_ATOM =>
            match PL_get_atom_chars pl_value with
            | none => (EINVAL, object)
            | some value => put (tag 's') (.str value)
          | PL_STRING =>
            match PL_get_string_chars pl_value with
            | none => (EINVAL, object)
            | some value => put (tag 's') (.str value)
          | PL_INTEGER =>
            match PL_get_integer pl_value with
            | none => (EINVAL, object)
            | some value => put (tag 'i') (.int value)
          | PL_FLOAT =>
            match PL_get_float pl_value with
            | none => (EINVAL, object)
            | some d => put (tag 'd') (.dbl d)
          | _ => (EINVAL, object)

/-- Collect row `i` of an object list into slot `i` of `objects`. -/
def collect_objects (e : Engine) (item : Term) (i : Nat) (objects : List Word) :
    Int × List Word :=
  let length := prolog_list_length item
  if length < 0 then (EINVAL, objects)
  else if length > 0 then
    let r := prolog_walk_list item (collect_object e) (ALLOC_ARRAY (3 * length.toNat + 1))
    if r.1 ≠ 0 then (r.1, objects)
    else (0, objects.set i (.arr r.2))
  else (0, objects.set i NULL)

/-! ## The exception decoder -/

/-- The write position of `parse_exception`: the `exception` array, the offset
of `ep` in it, and the `int` counter `left`. -/
structure Fmt where
  buf : Buffer
  ep : Nat
  left : Int

/-- An `int` converted to `size_t`, as `snprintf` receives `left`. -/
def size_t (n : Int) : Nat := (n % 4294967296).toNat

/-- The macro `APPEND` for a format that expands to `text`:
`n = snprintf(ep, left, ...); ep += n; left -= n`. `none` when `snprintf`
writes outside the array. -/
def APPEND (st : Fmt) (text : CString) : Option Fmt :=
  (snprintf st.buf st.ep (size_t st.left) text).map fun buf =>
    { buf := buf, ep := st.ep + text.length, left := st.left - text.length }

/-- Render the term `error(Formal, Context)` as a diagnostic string. The array
`exception[1024]` starts with indeterminate content; a term reference that
`PL_get_arg` does not set stays an unbound variable. `none` when a write leaves
the array. -/
def parse_exception (e : Engine) (pl_exception : Term) : Option CString :=
  let pl_formal := (PL_get_arg 1 pl_exception).getD (.var 0)
  let st : Fmt := { buf := List.replicate 1024 Byte.indet, ep := 0, left := 1024 - 1 }
  let out : Option Fmt :=
    if PL_is_compound pl_formal then
      match PL_get_name_arity pl_formal with
      | none => none
      | some (pl_type, arity) => do
        let st ← APPEND st pl_type
        if arity ≠ 2 then APPEND st " (unknown details)".toList
        else
          let pl_kind := (PL_get_arg 1 pl_formal).getD (.var 0)
          match PL_get_chars e pl_kind .CVT_WRITE with
          | none => APPEND st " (details in unknown format)".toList
          | some s =>
            let st ← APPEND st (": ".toList ++ s)
            let pl_what := (PL_get_arg 2 pl_formal).getD (.var 0)
            if PL_is_atomic pl_what then
              APPEND st (", ".toList ++ (PL_get_chars e pl_what .CVT_ALL).getD s)
            else if PL_is_compound pl_what then
              APPEND st (", ".toList ++ (PL_get_chars e pl_what .CVT_WRITE).getD s)
            else APPEND st " (details in unknown format)".toList
    else APPEND st "unknown prolog exception".toList
  out.bind fun st => cstring st.buf

/-- Build the exception envelope for the pending exception of a query.
`pl_error` is `PL_exception(qid)`, `none` for 0. The result is the return value
and the new content of the caller's result slot. The text of an atom handle
(`PL_atom_chars`) is never `NULL`, so that test has no branch here; the line
printed on standard output is left out. -/
def collect_exception (e : Engine) (pl_error : Option Term) (retval : Word) :
    Option (Int × Word) :=
  match pl_error with
  | none => some (0, NULL)
  | some pl_error =>
    if !PL_is_compound pl_error then some (EINVAL, retval)
    else
      match PL_get_name_arity pl_error with
      | none => some (EINVAL, retval)
      | some (name, arity) =>
        let error :=
          if arity = 2 ∧ name = "error".toList then parse_exception e pl_error
          else some "unknown prolog exception".toList
        error.map fun s => (0, Word.env [.int RESULT_EXCEPTION, .str s, NULL])

/-! ## The result decoder -/

/-- The code at the label `list:` of `collect_result`: classify the list, then
collect its rows into a fresh envelope of `1 + n + 1` slots. -/
def collect_list (e : Engine) (pl_retval : Term) (retval : Word) : Int × Word :=
  let n := prolog_list_length pl_retval
  if n < 0 then ( EIO, retval)
  else if is_action_list pl_retval then
    let r := prolog_walk_list pl_retval (collect_actions e) (ALLOC_ARRAY (n.toNat + 1))
    if r.1 ≠ 0 then ( EIO, retval)
    else (0, Word.env (.int RESULT_ACTIONS :: r.2))
  else
    let r := prolog_walk_list pl_retval (collect_objects e) (ALLOC_ARRAY (n.toNat + 1))
    if r.1 ≠ 0 then ( EIO, retval)
    else (0, Word.env (.int RESULT_OBJECTS :: r.2))

/-- Decode the return value of a query. `pl_exception` is `PL_exception(qid)`,
`pl_retval` the term in the return slot, `retval` the content of the caller's
result slot. The result is the return value and the new content of the slot;
`none` when the exception decoder writes outside its array. The envelope that
the failure path releases before it returns ` EIO` is not part of the result. -/
def collect_result (e : Engine) (pl_exception : Option Term) (pl_retval : Term)
    (retval : Word) : Option (Int × Word) :=
  if pl_exception.isSome then collect_exception e pl_exception retval
  else
    match PL_term_type pl_retval with
    | PL_INTEGER =>
      match PL_get_integer pl_retval with
      | some n => some (0, .int n)
      | none => some (1, retval)
    | PL_FLOAT =>
      match PL_get_float pl_retval with
      | some d => some (0, .flt d)
      | none => some (1, retval)
    | PL_ATOM =>
      if PL_is_list pl_retval then some (collect_list e pl_retval retval)
      else
        match PL_get_atom_chars pl_retval with
        | none => some ( EIO, retval)
        | some s => some (0, .str s)
    | PL_STRING =>
      match PL_get_string_chars pl_retval with
      | none => some ( EIO, retval)
      | some s => some (0, .str s)
    | PL_VARIABLE => some (0, NULL)
    | PL_TERM =>
      if !PL_is_list pl_retval then some (EINVAL, retval)
      else some (collect_list e pl_retval retval)

/-! ## Observable effects -/

/-- What a function does besides returning: calls into the engine, calls of
`free`, diagnostics and output. `printf` records the format and its arguments. -/
inductive Event where
  | PL_open_foreign_frame
  | PL_discard_foreign_frame
  | PL_new_term_refs (n : Int)
  | PL_put_atom_chars (i : Nat) (chars : CString)
  | PL_put_integer (i : Nat) (n : Int)
  | PL_put_float (i : Nat) (d : Double)
  | PL_open_query (predicate : Nat) (args : List Term)
  | PL_next_solution
  | PL_close_query
  | prolog_tracing (state : Bool)
  | free (w : Word)
  | PROLOG_WARNING (function : String)
  | PROLOG_ERROR (function : String)
  | printf (format : String) (args : List Word)

/-- The macro `FREE(obj)`: `free` unless the pointer is null. -/
def FREE (w : Word) : List Event :=
  if w.isNull then [] else [.free w]

/-- The slots of a C array read up to the first `NULL`; `none` when the array
ends before a `NULL` is found. -/
def until_null : List Word → Option (List Word)
  | [] => none
  | w :: ws => if w.isNull then some [] else (until_null ws).map (fun r => w :: r)

/-- The integral value of a word read through an `(int)` cast; an address is
none of the values the code compares it with. -/
def Word.toInt? : Word → Option Int
  | .int n => some n
  | _ => none

/-! ## Release and rendering of results -/

/-- Release an actions envelope. `none` when the argument is not a null pointer
or an envelope, or when a row is not an array. -/
def prolog_free_actions (actions : Word) : Option (List Event) :=
  match actions with
  | .int n => if n = 0 then some [] else none
  | .env (t :: slots) =>
    if t.toInt? ≠ some RESULT_ACTIONS then some [.PROLOG_WARNING "prolog_free_actions"]
    else do
      let rows ← until_null slots
      let freed ← rows.mapM fun row =>
        match row with
        | .arr cells => (until_null cells).map fun ps => ps.map Event.free ++ [Event.free row]
        | _ => none
      pure (freed.flatten ++ [.free (.arr (t :: slots))])
  | _ => none

/-- Print an actions envelope, one line per action. -/
def prolog_dump_actions (actions : Word) : Option (List Event) :=
  match actions with
  | .int n => if n = 0 then some [] else none
  | .env (t :: slots) =>
    if t.toInt? ≠ some RESULT_ACTIONS then some [.PROLOG_WARNING "prolog_dump_actions"]
    else do
      let rows ← until_null slots
      let lines ← rows.mapM fun row =>
        match row with
        | .arr (first :: rest) =>
          (until_null rest).map fun ps =>
            [Event.printf "(%s" [first]] ++ ps.map (fun w => Event.printf ", %s" [w])
              ++ [Event.printf ")\n" []]
        | _ => none
      pure lines.flatten
  | _ => none

/-- The inner loop of `prolog_free_objects` over the slots of one object, three
at a time, up to a `NULL` field name. -/
def free_object_fields : List Word → Option (List Event)
  | [] => none
  | [f] => if f.isNull then some [] else none
  | [f, _] => if f.isNull then some [] else none
  | f :: type :: value :: rest =>
    if f.isNull then some []
    else
      (free_object_fields rest).map fun evs =>
        FREE f ++ (if type.toInt? = some (Int.ofNat 's'.toNat) ∨ type.toInt? = some (Int.ofNat 'd'.toNat)
                   then FREE value else []) ++ evs

/-- Release an objects envelope. -/
def prolog_free_objects (objects : Word) : Option (List Event) :=
  match objects with
  | .int n => if n = 0 then some [] else none
  | .env (t :: slots) =>
    if t.toInt? ≠ some RESULT_OBJECTS then some [.PROLOG_WARNING "prolog_free_objects"]
    else do
      let rows ← until_null slots
      let freed ← rows.mapM fun row =>
        match row with
        | .arr cells => (free_object_fields cells).map fun evs => evs ++ FREE row
        | _ => none
      pure (freed.flatten ++ FREE (.arr (t :: slots)))
  | _ => none

/-- The field loop of `prolog_dump_objects`, with the separator `t`. -/
def dump_object_fields (t : String) : List Word → Option (List Event)
  | [] => none
  | [f] => if f.isNull then some [] else none
  | [f, _] => if f.isNull then some [] else none
  | field :: type :: value :: rest =>
    if field.isNull then some []
    else
      (dump_object_fields ", " rest).map fun evs =>
        [Event.printf "%s%s: " [.str t.toList, field],
         if type.toInt? = some (Int.ofNat 's'.toNat) then Event.printf "'%s'" [value]
         else if type.toInt? = some (Int.ofNat 'i'.toNat) then Event.printf "%d" [value]
         else if type.toInt? = some (Int.ofNat 'd'.toNat) then Event.printf "%f" [value]
         else Event.printf "<unknown>" []] ++ evs

/-- Print an objects envelope, one line per object. -/
def prolog_dump_objects (objects : Word) : Option (List Event) :=
  match objects with
  | .int n => if n = 0 then some [] else none
  | .env (t :: slots) =>
    if t.toInt? ≠ some RESULT_OBJECTS then some [.PROLOG_WARNING "prolog_dump_objects"]
    else do
      let rows ← until_null slots
      let lines ← rows.mapM fun row =>
        match row with
        | .arr (.str name :: type :: value :: rest) =>
          if name = "name".toList ∧ !value.isNull then
            (dump_object_fields "" rest).map fun evs =>
              [Event.printf "%s: " [value], Event.printf "\x7b " []] ++ evs
                ++ [Event.printf " \x7d\n" []]
          else
            (dump_object_fields "" (.str name :: type :: value :: rest)).map fun evs =>
              [Event.printf "\x7b " []] ++ evs ++ [Event.printf " \x7d\n" []]
        | .arr cells =>
          (dump_object_fields "" cells).map fun evs =>
            [Event.printf "\x7b " []] ++ evs ++ [Event.printf " \x7d\n" []]
        | _ => none
      pure lines.flatten
  | _ => none

/-- Print an exception envelope. -/
def prolog_dump_exception (exception : Word) : Option (List Event) :=
  match exception with
  | .int n => if n = 0 then some [] else none
  | .env (t :: slots) =>
    if t.toInt? ≠ some RESULT_EXCEPTION then some [.PROLOG_WARNING "prolog_dump_exception"]
    else
      match slots with
      | error :: _ => some [.printf "prolog exception '%s'\n" [error]]
      | [] => none
  | _ => none

/-- Release an exception envelope. -/
def prolog_free_exception (exception : Word) : Option (List Event) :=
  match exception with
  | .int n => if n = 0 then some [] else none
  | .env (t :: slots) =>
    if t.toInt? ≠ some RESULT_EXCEPTION then some [.PROLOG_WARNING "prolog_free_exception"]
    else
      match slots with
      | error :: _ => some (FREE error ++ FREE (.arr (t :: slots)))
      | [] => none
  | _ => none

/-- Release the result of a call, whatever its kind: the operation is chosen by
the tag stored in the slot before the first visible one. -/
def prolog_free_results (results : Word) : Option (List Event) :=
  match results with
  | .int n => if n = 0 then some [] else none
  | .env (t :: _) =>
    if t.toInt? = some RESULT_ACTIONS then prolog_free_actions results
    else if t.toInt? = some RESULT_OBJECTS then prolog_free_objects results
    else if t.toInt? = some RESULT_EXCEPTION then prolog_free_exception results
    else some [.PROLOG_WARNING "prolog_free_results"]
  | _ => none

/-- Print the result of a call, whatever its kind. -/
def prolog_dump_results (results : Word) : Option (List Event) :=
  match results with
  | .int n => if n = 0 then some [] else none
  | .env (t :: _) =>
    if t.toInt? = some RESULT_ACTIONS then prolog_dump_actions results
    else if t.toInt? = some RESULT_OBJECTS then prolog_dump_objects results
    else if t.toInt? = some RESULT_EXCEPTION then prolog_dump_exception results
    else some [.PROLOG_WARNING "prolog_dump_results"]
  | _ => none

/-! ## Flattening of actions -/

/-- The write position of `prolog_flatten_actions`: the buffer `flattened`
(`size` is its length), the offset of `p` in it, and the `unsigned int`
counter `left`. -/
structure Flat where
  buf : Buffer
  p : Nat
  left : Nat

/-- Growth step of the flattening buffer. -/
def CHUNK : Nat := 128

/-- Arithmetic of `unsigned int`. -/
def unsigned (n : Int) : Nat := (n % 4294967296).toNat

/-- The macro `NEED_SPACE(n)`: when `left < n` the buffer grows by one `CHUNK`
(`REALLOC_ARR` zero-fills the new part), whatever `n` is. -/
def NEED_SPACE (st : Flat) (n : Nat) : Flat :=
  if st.left < n then
    { buf := st.buf ++ List.replicate CHUNK Byte.nul, p := st.p,
      left := unsigned (st.left + CHUNK) }
  else st

/-- The statement `*p++ = c`; `none` when `p` is outside the buffer. -/
def put_char (st : Flat) (c : Char) : Option Flat :=
  (store st.buf st.p [Byte.chr c]).map fun buf => { st with buf := buf, p := st.p + 1 }

/-- The statement `left--`. -/
def dec_left (st : Flat) : Flat :=
  { st with left := unsigned (st.left - 1) }

/-- The inner loop of `prolog_flatten_actions` over the parameters of one
action, `t` being the text put before the next parameter. -/
def flatten_action (st : Flat) (t : CString) : List Word → Option Flat
  | [] => none
  | .str a :: rest =>
    let st := NEED_SPACE st (a.length + t.length)
    match snprintf st.buf st.p st.left (t ++ a) with
    | none => none
    | some buf =>
      let n := (t ++ a).length
      flatten_action { buf := buf, p := st.p + n, left := unsigned (st.left - n) }
        " ".toList rest
  | w :: _ => if w.isNull then some st else none

/-- The outer loop of `prolog_flatten_actions` over the actions. -/
def flatten_actions_loop (st : Flat) : List Word → Option Flat
  | [] => none
  | .arr action :: rest => do
    let st ← flatten_action st "[".toList action
    let st ← put_char (NEED_SPACE st 1) (Char.ofNat 93)
    flatten_actions_loop (dec_left st) rest
  | w :: _ => if w.isNull then some st else none

/-- Flatten an actions envelope into one string. The result is the returned
pointer (`NULL` or the string); `none` when a read or a write leaves its
array, or when the returned buffer holds no terminated string. -/
def prolog_flatten_actions (actions : Word) : Option Word :=
  match actions with
  | .int n => if n = 0 then some NULL else none
  | .env (t :: slots) =>
    if t.toInt? ≠ some RESULT_ACTIONS then some NULL
    else do
      let st : Flat := { buf := [], p := 0, left := 0 }
      let st ← put_char (NEED_SPACE st 1) (Char.ofNat 91)
      let st ← flatten_actions_loop (dec_left st) slots
      let st ← put_char (NEED_SPACE st 2) (Char.ofNat 93)
      let buf ← store st.buf st.p [Byte.nul]
      let text ← cstring buf
      pure (.str text)
  | _ => none

/-! ## Predicate invocation -/

/-- A predicate descriptor. -/
structure prolog_predicate_t where
  module : Option CString
  name : CString
  arity : Int
  predicate : Nat

/-- The outcome of an invocation: the return value, the content of the caller's
result slot, and what was done on the way. -/
structure Call where
  success : Int
  retval : Word
  log : List Event

def TRUE : Int := 1
def FALSE : Int := 0

/-- The common tail of the three invocation functions:
`success = PL_next_solution(qid); if (collect_result(qid, pl_retval, retval) != 0)
success = FALSE`. After a query that fails or raises, the return slot is still
an unbound variable. -/
def next_solution (e : Engine) (predicate : Nat) (pl_args : List Term) (retval : Word) :
    Option (Int × Word) :=
  let r : Int × Option Term × Term :=
    match e.solve predicate pl_args with
    | .solved t => (TRUE, none, t)
    | .failed => (FALSE, none, .var 0)
    | .raised x => (FALSE, some x, .var 0)
  (collect_result e r.2.1 r.2.2 retval).map fun c =>
    (if c.1 ≠ 0 then FALSE else r.1, c.2)

/-- The strings the argument loop of `prolog_call` and `prolog_vcall` takes from
the variable arguments, one per input argument of the predicate (`arity - 1`
of them). The caller supplies that many; a missing one is read as empty text. -/
def va_args (arity : Int) (ap : List CString) : List CString :=
  (List.range (arity - 1).toNat).map fun i => ap.getD i []

/-- Invoke a predicate on `arity - 1` strings, taken from the variable
arguments. -/
def prolog_call (e : Engine) (p : prolog_predicate_t) (retval : Word)
    (ap : List CString) : Option Call :=
  let args := va_args p.arity ap
  (next_solution e p.predicate (args.map Term.atom) retval).map fun r =>
    { success := r.1, retval := r.2,
      log := [.PL_open_foreign_frame, .PL_new_term_refs p.arity]
        ++ args.enum.map (fun a => Event.PL_put_atom_chars a.1 a.2)
        ++ [.PL_open_query p.predicate (args.map Term.atom), .PL_next_solution,
            .PL_close_query, .PL_discard_foreign_frame] }

/-- The same as `prolog_call`, the strings coming from a `va_list`. -/
def prolog_vcall (e : Engine) (p : prolog_predicate_t) (retval : Word)
    (ap : List CString) : Option Call :=
  let args := va_args p.arity ap
  (next_solution e p.predicate (args.map Term.atom) retval).map fun r =>
    { success := r.1, retval := r.2,
      log := [.PL_open_foreign_frame, .PL_new_term_refs p.arity]
        ++ args.enum.map (fun a => Event.PL_put_atom_chars a.1 a.2)
        ++ [.PL_open_query p.predicate (args.map Term.atom), .PL_next_solution,
            .PL_close_query, .PL_discard_foreign_frame] }

/-- The argument loop of `prolog_acall`, from index `i` on, for `count` more
arguments: slot `2i` of `args` is the type, slot `2i+1` the value. The result
is what was put, the terms made, and whether every type was valid. A value
word that does not match its type is read as empty text or zero. -/
def put_args (args : List Word) : Nat → Nat → List Event × List Term × Bool
  | 0, _ => ([], [], true)
  | count + 1, i =>
    let type := (args.getD (2 * i) NULL).toInt?
    let value := args.getD (2 * i + 1) NULL
    let next (ev : Event) (t : Term) : List Event × List Term × Bool :=
      let r := put_args args count (i + 1)
      (ev :: r.1, t :: r.2.1, r.2.2)
    if type = some (Int.ofNat 's'.toNat) then
      match value with
      | .str chars => next (.PL_put_atom_chars i chars) (.atom chars)
      | _ => next (.PL_put_atom_chars i []) (.atom [])
    else if type = some (Int.ofNat 'i'.toNat) then
      match value with
      | .int n => next (.PL_put_integer i n) (.int n)
      | _ => next (.PL_put_integer i 0) (.int 0)
    else if type = some (Int.ofNat 'd'.toNat) then
      match value with
      | .dbl d => next (.PL_put_float i d) (.float d)
      | _ => next (.PL_put_float i 0) (.float 0)
    else ([.PROLOG_ERROR "prolog_acall"], [], false)

/-- Invoke a predicate on typed arguments. `trace_enabled` is the global flag
of that name; the line printed when `trace_transitive` is not 0 on return is
left out. -/
def prolog_acall (e : Engine) (trace_enabled : Bool) (p : prolog_predicate_t)
    (retval : Word) (args : List Word) (narg : Int) : Option Call :=
  if narg < p.arity - 1 then some { success := FALSE, retval := retval, log := [] }
  else
    let warned : List Event :=
      if narg > p.arity - 1 then [.PROLOG_WARNING "prolog_acall"] else []
    let opened : List Event := [.PL_open_foreign_frame, .PL_new_term_refs p.arity]
    let out : List Event :=
      (if trace_enabled then [.prolog_tracing false] else []) ++ [.PL_discard_foreign_frame]
    let put := put_args args (p.arity - 1).toNat 0
    if !put.2.2 then
      some { success := FALSE, retval := retval, log := warned ++ opened ++ put.1 ++ out }
    else
      (next_solution e p.predicate put.2.1 retval).map fun r =>
        { success := r.1, retval := r.2,
          log := warned ++ opened ++ put.1
            ++ (if trace_enabled then [.prolog_tracing true] else [])
            ++ [.PL_open_query p.predicate put.2.1, .PL_next_solution, .PL_close_query]
            ++ out }

/-! ## A reference engine and sample terms -/

/-- An engine for the worked examples: an atom is written as its name, any
other term as `_`; every float prints as `0.0`; every query fails. -/
def sample_engine : Engine where
  format_float := fun _ => "0.0".toList
  write := fun t =>
    match t with
    | .atom name => name
    | _ => "_".toList
  solve := fun _ _ => .failed

/-- The atom with the given name. -/
def atom (s : String) : Term := .atom s.toList

/-- The text of an atom or of a string term. -/
def Term.text : Term → CString
  | .atom name => name
  | .str text => text
  | _ => []

/-- Holds for atoms and string terms. -/
def Term.is_text : Term → Bool
  | .atom _ => true
  | .str _ => true
  | _ => false

/-- The type word the object collector stores for a field value: `s` for atoms
and strings, `i` for integers, `d` for floats. -/
def field_type : Term → Word
  | .int _ => tag 'i'
  | .float _ => tag 'd'
  | _ => tag 's'

/-- The value word the object collector stores for a field value: the integer
itself, the address of a copy of the float, or the address of a copy of the
text. -/
def field_value : Term → Word
  | .int n => .int n
  | .float d => .dbl d
  | t => .str t.text

/-- The field values the object collector accepts: atoms, strings, floats, and
integers that fit a C `int`. -/
def is_field_value : Term → Bool
  | .atom _ => true
  | .str _ => true
  | .float _ => true
  | .int n => decide (INT_MIN ≤ n ∧ n ≤ INT_MAX)
  | _ => false

/-- The row `[Name, [F1, V1], ..., [Fk, Vk]]` that defines an object. -/
def object_row (name : Term) (fields : List (Term × Term)) : Term :=
  Term.ofList (name :: fields.map (fun fv => Term.ofList [fv.1, fv.2]))

/-- The text `parse_exception` appends for the second argument of the formal
term: the `CVT_ALL` text of an atomic term, the written form of any other. -/
def what_text (e : Engine) (what : Term) : CString :=
  if PL_is_atomic what then (PL_get_chars e what .CVT_ALL).getD [] else e.write what

/-- The diagnostic `<F>: <K>, <W>`. -/
def diagnostic (e : Engine) (name : CString) (kind what : Term) : CString :=
  name ++ ": ".toList ++ e.write kind ++ ", ".toList ++ what_text e what

/-- The state of `parse_exception` after it has appended `s` without
truncation: the array starts with `s` and `ep`, `left` account for it. -/
def Fmt.holds (st : Fmt) (s : CString) : Prop :=
  (∃ rest, st.buf = s.map Byte.chr ++ rest) ∧ st.ep = s.length
    ∧ st.left = 1023 - (s.length : Int) ∧ st.buf.length = 1024

/-- The term `error(type_error(integer, foo), context(bar/2, _))`. -/
def type_error_term : Term :=
  .compound "error".toList
    [.compound "type_error".toList [atom "integer", atom "foo"],
     .compound "context".toList [.compound "/".toList [atom "bar", .int 2], .var 1]]

/-- The sample engine with every query raising the given term. -/
def raising_engine (exception : Term) : Engine :=
  { sample_engine with solve := fun _ _ => .raised exception }

/-- The sample engine with every query binding its return slot to the given
term. -/
def solving_engine (retval : Term) : Engine :=
  { sample_engine with solve := fun _ _ => .solved retval }

/-- What the caller of an invocation function sees: the return value and the
content of the result slot. -/
def Call.outcome (c : Call) : Int × Word := (c.success, c.retval)

/-- How an envelope was built: by the exception decoder, by walking the list
with `collect_actions`, or by walking it with `collect_objects`. -/
def built_by (e : Engine) (pl_exception : Option Term) (pl_retval : Term)
    (block : List Word) : Prop :=
  (pl_exception.isSome = true ∧ ∃ s, block = [.int RESULT_EXCEPTION, .str s, NULL])
  ∨ (pl_exception = none ∧ is_action_list pl_retval = true
      ∧ block = .int RESULT_ACTIONS :: (prolog_walk_list pl_retval (collect_actions e)
          (ALLOC_ARRAY ((prolog_list_length pl_retval).toNat + 1))).2)
  ∨ (pl_exception = none ∧ is_action_list pl_retval = false
      ∧ block = .int RESULT_OBJECTS :: (prolog_walk_list pl_retval (collect_objects e)
          (ALLOC_ARRAY ((prolog_list_length pl_retval).toNat + 1))).2)

/-- The action list `[[com.nokia.policy.actions.audio, test, mute]]`. -/
def audio_actions : Term :=
  Term.ofList [Term.ofList [atom "com.nokia.policy.actions.audio", atom "test", atom "mute"]]

/-- The envelope `collect_result` builds for `audio_actions`. -/
def audio_envelope : List Word :=
  [.int RESULT_ACTIONS,
   .arr [.str "com.nokia.policy.actions.audio".toList, .str "test".toList, .str "mute".toList,
         NULL],
   NULL]

/-- The descriptor of `set_routes/1`, as the test program looks it up. -/
def set_routes : prolog_predicate_t :=
  { module := none, name := "set_routes".toList, arity := 1, predicate := 7 }

/-- The action list `[[a, b], [], [c, d]]`: its second row is empty. -/
def actions_with_empty_row : Term :=
  Term.ofList [Term.ofList [atom "a", atom "b"], Term.ofList [],
    Term.ofList [atom "c", atom "d"]]

/-- The envelope `collect_result` builds for `actions_with_empty_row`: the slot
of the empty row holds `NULL`. -/
def envelope_with_empty_row : List Word :=
  [.int RESULT_ACTIONS, .arr [.str "a".toList, .str "b".toList, NULL], NULL,
   .arr [.str "c".toList, .str "d".toList, NULL], NULL]

/-- The term made of the given list cells, in order, followed by `tail`. -/
def Term.ofCells : List Term → Term → Term
  | [], tail => tail
  | t :: ts, tail => .cons t (Term.ofCells ts tail)

/-- A callback together with a record of its invocations: every call appends
the element and the index it was given to the record kept beside the data. -/
def traced {σ : Type} (callback : Term → Nat → σ → Int × σ) :
    Term → Nat → σ × List (Term × Nat) → Int × (σ × List (Term × Nat)) :=
  fun item i data =>
    let r := callback item i data.1
    (r.1, (r.2, data.2 ++ [(item, i)]))

/-- The callback returns 0 on each of `items`, called in order with the indices
from `i` on and the data left by the call before. -/
def all_zero {σ : Type} (callback : Term → Nat → σ → Int × σ) : List Term → Nat → σ → Prop
  | [], _, _ => True
  | t :: ts, i, data =>
    (callback t i data).1 = 0 ∧ all_zero callback ts (i + 1) (callback t i data).2

/-- The data after the callback was called on each of `items` in order. -/
def final_data {σ : Type} (callback : Term → Nat → σ → Int × σ) : List Term → Nat → σ → σ
  | [], _, data => data
  | t :: ts, i, data => final_data callback ts (i + 1) (callback t i data).2

/-- The elements paired with their indices, counted from `i`. -/
def indexed : List Term → Nat → List (Term × Nat)
  | [], _ => []
  | t :: ts, i => (t, i) :: indexed ts (i + 1)

/-- The state of `parse_exception` after at least one `APPEND`: the array holds
a terminated string, which ends at `ep` as long as nothing was cut (`left`
still positive), and `ep`, `left` add up to 1023. -/
def Fmt.readable (st : Fmt) : Prop :=
  st.buf.length = 1024 ∧ (st.ep : Int) = 1023 - st.left
    ∧ ∃ (s : CString) (rest : Buffer), st.buf = s.map Byte.chr ++ Byte.nul :: rest
        ∧ s.length ≤ st.ep ∧ (0 < st.left → s.length = st.ep)

/-- The texts of `parse_exception` leave `left` non-negative before every
`APPEND`: the name of a compound formal part is at most 1023 characters long,
and so is the name followed by `: ` and the written first argument when two
more texts follow. -/
def rendering_fits (e : Engine) (pl_exception : Term) : Prop :=
  PL_is_compound ((PL_get_arg 1 pl_exception).getD (.var 0)) = true →
    ∀ (name : CString) (arity : Nat),
      PL_get_name_arity ((PL_get_arg 1 pl_exception).getD (.var 0)) = some (name, arity) →
      name.length ≤ 1023
      ∧ (arity = 2 → name.length + 2 + (e.write ((PL_get_arg 1
            ((PL_get_arg 1 pl_exception).getD (.var 0))).getD (.var 0))).length ≤ 1023)

/-- A descriptor of arity 2: one input argument and the return slot. -/
def set_routes2 : prolog_predicate_t :=
  { module := none, name := "set_routes".toList, arity := 2, predicate := 8 }

/-- Where a function stands with respect to its foreign frame and query: no
frame opened yet, frame open, frame and query open, frame discarded. -/
inductive FrameState where
  | outside
  | frame
  | query
  | discarded
  deriving DecidableEq, Repr

/-- One step of the frame discipline. Opening a frame is allowed outside only,
opening a query inside the frame only, closing a query when one is open only,
discarding the frame when it is open and no query is; `none` is a violation.
Every other event leaves the state as it is. -/
def FrameState.step : FrameState → Event → Option FrameState
  | .outside, .PL_open_foreign_frame => some .frame
  | _, .PL_open_foreign_frame => none
  | .frame, .PL_open_query _ _ => some .query
  | _, .PL_open_query _ _ => none
  | .query, .PL_close_query => some .frame
  | _, .PL_close_query => none
  | .frame, .PL_discard_foreign_frame => some .discarded
  | _, .PL_discard_foreign_frame => none
  | s, _ => some s

/-- The state after a sequence of events, `none` after a violation. -/
def FrameState.run : FrameState → List Event → Option FrameState
  | s, [] => some s
  | s, ev :: evs =>
    match s.step ev with
    | none => none
    | some s1 => FrameState.run s1 evs

/-- The list `[[a, b], [c, _]]`: an action list whose second row holds an
unbound variable, which `collect_action` cannot convert to text. -/
def actions_with_variable : Term :=
  Term.ofList [Term.ofList [atom "a", atom "b"], Term.ofList [atom "c", .var 0]]

/-- The counting loop of `prolog_list_new`, `while (items[n]) n++`: the number
of slots before the first `NULL`; `none` when the array ends before a `NULL` is
found. -/
def count_items : List Word → Option Nat
  | [] => none
  | w :: ws => if w.isNull then some 0 else (count_items ws).map (fun n => n + 1)

/-- The building loop of `prolog_list_new`, `while (n-- > 0)`: the atom made of
`items[n]` is put in front of the list, from the last item to the first.
`none` when `items` is a null pointer, the slot is outside the array, or the
slot is not the address of a string. -/
def list_new_loop (items : Option (List Word)) : Nat → Term → Option Term
  | 0, list => some list
  | n + 1, list =>
    match items.bind (fun ws => ws.get? n) with
    | some (.str chars) => list_new_loop items n (.cons (.atom chars) list)
    | _ => none

/-- Build the list of the atoms named by `items`: the first `n` of them, or
those before the first `NULL` when `n` is negative. `items` is `none` for a
null pointer, `result` is `none` for the term handle 0. The value is the list
and what `result` holds afterwards. -/
def prolog_list_new (items : Option (List Word)) (n : Int) (result : Option Term) :
    Option (Term × Option Term) :=
  let count : Option Nat :=
    if n < 0 then
      match items with
      | none => some 0
      | some ws => count_items ws
    else some n.toNat
  count.bind fun n =>
    (list_new_loop items n Term.nil).map fun list =>
      (list,
        match result with
        | some (.var _) => some list
        | r => r)

/-! ## Loading of rule files -/

def ENOENT : Int := 2
def ENOMEDIUM : Int := 123

def NATIVE : Int := 0
def FOREIGN : Int := 1

/-- Load a file with `consult/1`, or with `load_foreign_library/1` when `foreign`
is not 0. `initialized` is the global flag of that name, `PL_predicate` the
engine's table of predicate handles, and `marked` the number of times the
engine ran `MARK_ERROR` while it answered the loader query, which is what
`libprolog_errors` holds after the `CLEAR_ERRORS` at the start. The result is
the return value; `none` when the exception decoder writes outside its array.
The envelope built for a pending exception is dropped by the code, and the
calls on the frame and the query are those of `prolog_call`. -/
def load_file (e : Engine) (initialized : Bool)
    (PL_predicate : CString → Int → Option CString → Nat) (marked : Nat)
    (path : CString) (foreign : Int) : Option Int :=
  let loader : String := if foreign ≠ 0 then "load_foreign_library" else "consult"
  if !initialized then some ENOMEDIUM
  else
    let libprolog_errors : Nat := 0 + marked
    let pr_load := PL_predicate loader.toList 1 none
    let success : Option Int :=
      match e.solve pr_load [.atom path] with
      | .solved _ => some TRUE
      | .failed => some FALSE
      | .raised x => (collect_exception e (some x) NULL).map fun _ => FALSE
    success.map fun success => if libprolog_errors > 0 then FALSE else success

/-- Load a file of rules. -/
def prolog_load_file (e : Engine) (initialized : Bool)
    (PL_predicate : CString → Int → Option CString → Nat) (marked : Nat)
    (path : CString) : Option Int :=
  load_file e initialized PL_predicate marked path NATIVE

/-- The loop of the test program over its files: it stops with exit code 2 at
the first file for which `prolog_load_file` returns a non-zero value. The
result is the number of files it went past and whether it stopped; `none`
when a call has no defined result. -/
def test_load_files (e : Engine) (PL_predicate : CString → Int → Option CString → Nat)
    (marked : Nat) : List CString → Option (Nat × Bool)
  | [] => some (0, false)
  | file :: files =>
    match prolog_load_file e true PL_predicate marked file with
    | none => none
    | some r =>
      if r ≠ 0 then some (0, true)
      else (test_load_files e PL_predicate marked files).map fun n => (n.1 + 1, n.2)

/-! ## Discovery of predicates -/

/-- A `prolog_predicate_t` as it lies in an array that is being filled: the
array is zero-filled, so `name` is a null pointer until the slot is written. -/
structure prolog_predicate_slot where
  module : Option CString
  name : Option CString
  arity : Int
  predicate : Nat
  deriving DecidableEq, Repr

/-- A zero-filled slot. -/
def prolog_predicate_slot.zero : prolog_predicate_slot :=
  { module := none, name := none, arity := 0, predicate := 0 }

/-- Store the descriptor `Name/Arity` or `Module:Name/Arity` in slot `i` of
`data`. `PL_predicate` is the engine's table of predicate handles. A functor
with an empty name is rejected: its second byte either differs from zero, or
its first byte is neither `:` nor `/`. The value `PL_get_integer` returns is
not looked at, so `arity` keeps the 2 it holds when the call stores nothing;
a float in the place of the arity is read as not an integer. -/
def collect_exported (e : Engine) (PL_predicate : CString → Int → Option CString → Nat)
    (pl_descriptor : Term) (i : Nat) (data : List prolog_predicate_slot) :
    Int × List prolog_predicate_slot :=
  let predicate := data.getD i prolog_predicate_slot.zero
  match PL_get_name_arity pl_descriptor with
  | none => (EINVAL, data)
  | some (name, arity) =>
    if name.length ≠ 1 then (EINVAL, data)
    else
      let rest (predicate : prolog_predicate_slot) (data : List prolog_predicate_slot)
          (pl_descriptor : Term) (name : CString) (arity : Nat) :
          Int × List prolog_predicate_slot :=
        if name ≠ "/".toList ∨ arity ≠ 2 then (EINVAL, data)
        else
          match PL_get_arg 1 pl_descriptor, PL_get_arg 2 pl_descriptor with
          | some pl_name, some pl_arity =>
            match PL_get_chars e pl_name .CVT_ALL with
            | none => (EINVAL, data)
            | some name =>
              let arity : Int := (PL_get_integer pl_arity).getD arity
              let pr_predicate := PL_predicate name arity predicate.module
              (0, data.set i { predicate with
                name := some name, arity := arity, predicate := pr_predicate })
          | _, _ => (EINVAL, data)
      if name = ":".toList then
        match PL_get_arg 1 pl_descriptor, PL_get_arg 2 pl_descriptor with
        | some pl_module, some pl_descr =>
          match PL_get_chars e pl_module .CVT_ALL with
          | none => (EINVAL, data)
          | some module =>
            let predicate := { predicate with module := some module }
            let data := data.set i predicate
            match PL_get_name_arity pl_descr with
            | none => (EINVAL, data)
            | some (name, arity) => rest predicate data pl_descr name arity
        | _, _ => (EINVAL, data)
      else rest predicate data pl_descriptor name arity

/-- What `prolog_rules` leaves: its return value, the two arrays it hands back
(`none` for `NULL`), and the calls it made on its foreign frame. -/
structure Rules where
  status : Int
  rules : Option (List prolog_predicate_slot)
  undef : Option (List prolog_predicate_slot)
  log : List Event

/-- Collect the predicates the rule set exports and those it leaves
undefined. `initialized` is the global flag, `rules` and `undef` tell whether
the two result pointers are given, `PL_call_predicate` is the engine's answer
to a call of the predicate with that handle on two fresh terms: `none` when
the call fails, the terms the two arguments are bound to otherwise. The memory
released on the failure path is not part of the log. -/
def prolog_rules (e : Engine) (initialized : Bool)
    (PL_predicate : CString → Int → Option CString → Nat)
    (PL_call_predicate : Nat → Option (Term × Term)) (rules undef : Bool) : Rules :=
  let pr_rules := PL_predicate "rules".toList 2 none
  if !initialized then { status := ENOMEDIUM, rules := none, undef := none, log := [] }
  else if !rules || !undef then { status := EINVAL, rules := none, undef := none, log := [] }
  else
    let opened : List Event := [.PL_open_foreign_frame, .PL_new_term_refs 2]
    match PL_call_predicate pr_rules with
    | none => { status := ENOENT, rules := none, undef := none, log := opened }
    | some (pl_rules, pl_undef) =>
      let nrule := prolog_list_length pl_rules
      if nrule ≤ 0 then { status := ENOENT, rules := none, undef := none, log := opened }
      else
        let nundef := prolog_list_length pl_undef
        if nundef < 0 then { status := EINVAL, rules := none, undef := none, log := opened }
        else
          let fail (err : Int) : Rules :=
            { status := err, rules := none, undef := none,
              log := opened ++ [.PL_discard_foreign_frame] }
          let r := prolog_walk_list pl_rules (collect_exported e PL_predicate)
            (List.replicate (nrule.toNat + 1) prolog_predicate_slot.zero)
          if r.1 ≠ 0 then fail r.1
          else if nundef > 0 then
            let u := prolog_walk_list pl_undef (collect_exported e PL_predicate)
              (List.replicate (nundef.toNat + 1) prolog_predicate_slot.zero)
            if u.1 ≠ 0 then fail u.1
            else
              { status := 0, rules := some r.2, undef := some u.2,
                log := opened ++ [.PL_discard_foreign_frame] }
          else
            { status := 0, rules := some r.2, undef := none,
              log := opened ++ [.PL_discard_foreign_frame] }

/-- The descriptor term `Name/Arity`. -/
def descriptor (name : CString) (arity : Term) : Term :=
  .compound "/".toList [.atom name, arity]

/-- The descriptor term `Module:Name/Arity`. -/
def qualified (module name : CString) (arity : Term) : Term :=
  .compound ":".toList [.atom module, descriptor name arity]

/-! ## Allocation accounting of the collectors -/

/-- The data of a collector together with the blocks allocated so far. A block
is named by the word that points to it, with the content it has when its
collector is done. -/
abbrev Heaped := List Word × List Word

/-- The callback `collect_action` with its allocation recorded: the `strdup` of
the text. -/
def collect_action_alloc (e : Engine) (pl_param : Term) (i : Nat) (data : Heaped) :
    Int × Heaped :=
  match PL_get_chars e pl_param .CVT_ALL with
  | none => (EINVAL, data)
  | some param => (0, (data.1.set i (.str param), data.2 ++ [.str param]))

/-- The callback `collect_actions` with its allocations recorded: the array of the row, then
what the walk over the row allocates. When the walk fails, the array and the
strings stored so far stay allocated and are not stored. -/
def collect_actions_alloc (e : Engine) (item : Term) (i : Nat) (data : Heaped) :
    Int × Heaped :=
  let length := prolog_list_length item
  if length < 0 then (EINVAL, data)
  else if length > 0 then
    let r := prolog_walk_list item (collect_action_alloc e)
      (ALLOC_ARRAY (length.toNat + 1), [])
    if r.1 ≠ 0 then (r.1, (data.1, data.2 ++ [.arr r.2.1] ++ r.2.2))
    else (0, (data.1.set i (.arr r.2.1), data.2 ++ [.arr r.2.1] ++ r.2.2))
  else (0, (data.1.set i NULL, data.2))

/-- The callback `collect_object` with its allocations recorded: the copies of `name` and of
the text at index 0; the copy of the field name, then the copy of a text value
or the `double` of a float value, at the other indices. -/
def collect_object_alloc (e : Engine) (item : Term) (i : Nat) (data : Heaped) :
    Int × Heaped :=
  if i = 0 then
    match PL_get_chars e item .CVT_ALL with
    | none => (EINVAL, data)
    | some field =>
      (0, (((data.1.set 0 (.str OBJECT_NAME)).set 2 (.str field)).set 1 (tag 's'),
        data.2 ++ [.str OBJECT_NAME, .str field]))
  else
    match PL_get_list item with
    | none => (EINVAL, data)
    | some (pl_field, pl_value) =>
      match PL_get_head pl_value with
      | none => (EINVAL, data)
      | some pl_value =>
        match PL_get_chars e pl_field .CVT_ALL with
        | none => (EINVAL, data)
        | some field =>
          let heap := data.2 ++ [.str field]
          let put (type value : Word) (heap : List Word) : Int × Heaped :=
            (0, (((data.1.set (3 * i) (.str field)).set (3 * i + 1) type).set (3 * i + 2) value,
              heap))
          match PL_term_type pl_value with
          | PL_ATOM =>
            match PL_get_atom_chars pl_value with
            | none => (EINVAL, (data.1, heap))
            | some value => put (tag 's') (.str value) (heap ++ [.str value])
          | PL_STRING =>
            match PL_get_string_chars pl_value with
            | none => (EINVAL, (data.1, heap))
            | some value => put (tag 's') (.str value) (heap ++ [.str value])
          | PL_INTEGER =>
            match PL_get_integer pl_value with
            | none => (EINVAL, (data.1, heap))
            | some value => put (tag 'i') (.int value) heap
          | PL_FLOAT =>
            match PL_get_float pl_value with
            | none => (EINVAL, (data.1, heap ++ [.dbl 0]))
            | some d => put (tag 'd') (.dbl d) (heap ++ [.dbl d])
          | _ => (EINVAL, (data.1, heap))

/-- The callback `collect_objects` with its allocations recorded. -/
def collect_objects_alloc (e : Engine) (item : Term) (i : Nat) (data : Heaped) :
    Int × Heaped :=
  let length := prolog_list_length item
  if length < 0 then (EINVAL, data)
  else if length > 0 then
    let r := prolog_walk_list item (collect_object_alloc e)
      (ALLOC_ARRAY (3 * length.toNat + 1), [])
    if r.1 ≠ 0 then (r.1, (data.1, data.2 ++ [.arr r.2.1] ++ r.2.2))
    else (0, (data.1.set i (.arr r.2.1), data.2 ++ [.arr r.2.1] ++ r.2.2))
  else (0, (data.1.set i NULL, data.2))

/-- What the code at `list:` leaves: the return value, the content of the
result slot, the blocks it allocated, and what it released before it
returned (`none` when the release has no defined result). -/
structure Collected where
  status : Int
  retval : Word
  allocated : List Word
  freed : Option (List Event)

/-- The code at the label `list:` of `collect_result` with its allocations
recorded: the envelope, then what the walk over the rows allocates; on the
failure path the envelope is released with `prolog_free_actions` or
`prolog_free_objects`. -/
def collect_list_alloc (e : Engine) (pl_retval : Term) (retval : Word) : Collected :=
  let n := prolog_list_length pl_retval
  if n < 0 then { status := EIO, retval := retval, allocated := [], freed := some [] }
  else if is_action_list pl_retval then
    let r := prolog_walk_list pl_retval (collect_actions_alloc e)
      (ALLOC_ARRAY (n.toNat + 1), [])
    let block := Word.int RESULT_ACTIONS :: r.2.1
    if r.1 ≠ 0 then
      { status := EIO, retval := retval, allocated := .arr block :: r.2.2,
        freed := prolog_free_actions (.env block) }
    else { status := 0, retval := .env block, allocated := .arr block :: r.2.2, freed := some [] }
  else
    let r := prolog_walk_list pl_retval (collect_objects_alloc e)
      (ALLOC_ARRAY (n.toNat + 1), [])
    let block := Word.int RESULT_OBJECTS :: r.2.1
    if r.1 ≠ 0 then
      { status := EIO, retval := retval, allocated := .arr block :: r.2.2,
        freed := prolog_free_objects (.env block) }
    else { status := 0, retval := .env block, allocated := .arr block :: r.2.2, freed := some [] }

/-- The array `collect_actions` builds for a row of atoms and strings. -/
def action_row (r : List Term) : Word :=
  .arr (r.map (fun t => Word.str t.text) ++ [NULL])

/-- The block `collect_result` builds for rows of atoms and strings: the tag,
one array per row, `NULL`. -/
def actions_block (rows : List (List Term)) : List Word :=
  .int RESULT_ACTIONS :: (rows.map action_row ++ [NULL])

/-! ## Tracing commands -/

def MAX_SIZE : Nat := 1024

def PRED_TRACE_NONE : Int := 0
def PRED_TRACE_SHALLOW : Int := 1
def PRED_TRACE_TRANSITIVE : Int := 2
def PRED_TRACE_SUPPRESS : Int := 3

def PRED_PORT_SUPPRESS : Int := 0
def PRED_PORT_SHORT : Int := 1
def PRED_PORT_DETAILED : Int := 2

/-- The trace flags of one predicate. -/
structure pred_trace_t where
  trace : Int
  call : Int
  redo : Int
  proven : Int
  failed : Int
  deriving DecidableEq, Repr

/-- The global state of predicate tracing. `trace_flags` is the hash table,
`none` for a null pointer, kept as the list of its entries in the order they
were inserted. -/
structure Tracing where
  trace_enabled : Bool
  trace_all : Bool
  trace_transitive : Int
  trace_indent : Int
  trace_flags : Option (List (CString × pred_trace_t))

/-- The state `predicate_trace_init` sets up. -/
def predicate_trace_init : Tracing :=
  { trace_enabled := false, trace_all := false, trace_transitive := 0, trace_indent := 2,
    trace_flags := some [] }

/-- Forget all flags and switch tracing off. -/
def predicate_trace_reset (st : Tracing) : Tracing :=
  { st with
    trace_flags := st.trace_flags.map (fun _ => []),
    trace_enabled := false, trace_all := false, trace_transitive := 0 }

/-- Apply one command to the flags of one predicate. `cmd` is the offset of the
command text in `buf`, the array the text lies in, which the function writes
to when it splits a port command at its blank. The result is the new state,
the new content of the array and what was printed; `none` when there is no
text at `cmd`. -/
def predicate_trace_set (st : Tracing) (pred : CString) (buf : Buffer) (cmd : Nat) :
    Option (Tracing × Buffer × List Event) :=
  match st.trace_flags with
  | none => some (st, buf, [])
  | some flags =>
    (cstring (buf.drop cmd)).bind fun c =>
      let is_off := c = "off".toList
      let is_suppress := c = "suppress".toList
      let is_on := c = "on".toList
      let is_transitive := c = "transitive".toList
      if pred = "*".toList ∧ ¬ (is_off ∨ is_suppress ∨ is_on ∨ is_transitive) then
        some (st, buf, [.printf "Invalid command \"%s %s\".\n" [.str pred, .str c]])
      else
        let st : Tracing :=
          if pred = "*".toList then { st with trace_all := decide (is_on ∨ is_transitive) } else st
        if c = "clear".toList then
          some ({ st with trace_flags := some (flags.filter (fun kv => kv.1 ≠ pred)) }, buf, [])
        else
          let found := flags.find? (fun kv => kv.1 = pred)
          let pt : pred_trace_t :=
            match found with
            | some kv => kv.2
            | none =>
              { trace := 0, call := PRED_PORT_DETAILED, redo := PRED_PORT_DETAILED,
                proven := PRED_PORT_SHORT, failed := PRED_PORT_SHORT }
          let flags := if found.isSome then flags else flags ++ [(pred, pt)]
          let put (pt : pred_trace_t) (buf : Buffer) : Option (Tracing × Buffer × List Event) :=
            some ({ st with
              trace_flags := some (flags.map fun kv => if kv.1 = pred then (kv.1, pt) else kv) },
              buf, [])
          if is_off then put { pt with trace := PRED_TRACE_NONE } buf
          else if is_suppress then put { pt with trace := PRED_TRACE_SUPPRESS } buf
          else if is_on then put { pt with trace := PRED_TRACE_SHALLOW } buf
          else if is_transitive then put { pt with trace := PRED_TRACE_TRANSITIVE } buf
          else if c = "defaults".toList then
            put { trace := PRED_TRACE_SHALLOW, call := PRED_PORT_DETAILED,
                  redo := PRED_PORT_DETAILED, proven := PRED_PORT_SHORT,
                  failed := PRED_PORT_SHORT } buf
          else
            let port := c.takeWhile (fun x => x ≠ ' ')
            if port.length = c.length then
              some ({ st with trace_flags := some flags }, buf,
                [.printf "Invalid command \"%s\".\n" [.str c]])
            else
              (store buf (cmd + port.length) [.nul]).bind fun buf =>
                let c := c.drop (port.length + 1)
                let invalid : Option (Tracing × Buffer × List Event) :=
                  some ({ st with trace_flags := some flags }, buf,
                    [.printf "Invalid command \"%s %s\".\n" [.str port, .str c]])
                let type : Option Int :=
                  if c = "detailed".toList then some PRED_PORT_DETAILED
                  else if c = "short".toList then some PRED_PORT_SHORT
                  else if c = "suppress".toList then some PRED_PORT_SUPPRESS
                  else none
                match type with
                | none => invalid
                | some type =>
                  if port = "call".toList then put { pt with call := type } buf
                  else if port = "redo".toList then put { pt with redo := type } buf
                  else if port = "proven".toList ∨ port = "exit".toList then
                    put { pt with proven := type } buf
                  else if port = "failed".toList ∨ port = "fail".toList then
                    put { pt with failed := type } buf
                  else if port = "all".toList then
                    put { pt with call := type, redo := type, proven := type, failed := type }
                      buf
                  else invalid

/-- What `show_flags_for` prints for one entry of the table. -/
def show_flags_for (key : CString) (pt : pred_trace_t) : List Event :=
  let port (flags : Int) : Word :=
    .str (if flags = PRED_PORT_SUPPRESS then "suppress"
      else if flags = PRED_PORT_SHORT then "short" else "detailed").toList
  [.printf "  %s: " [.str key], .printf "    tracing: " [],
   if pt.trace = PRED_TRACE_NONE then .printf "off\n" []
   else if pt.trace = PRED_TRACE_SHALLOW then .printf "on (non-transitive)\n" []
   else if pt.trace = PRED_TRACE_TRANSITIVE then .printf "on (transitive)\n" []
   else if pt.trace = PRED_TRACE_SUPPRESS then .printf "suppressed\n" []
   else .printf "unknown (%d)\n" [.int pt.trace],
   .printf "    call port: %s\n" [port pt.call],
   .printf "    redo port: %s\n" [port pt.redo],
   .printf "    proven port: %s\n" [port pt.proven],
   .printf "    failed port: %s\n" [port pt.failed]]

/-- What `prolog_trace_show` prints; the entries of the table come in the order
of the list that stands for it. -/
def prolog_trace_show (st : Tracing) : List Event :=
  [.printf "Rule/predicate trace settings:\n" [],
   .printf "  tracing currently %s\n"
     [.str (if st.trace_enabled then "enabled" else "disabled").toList],
   .printf "  tracing of all predicates %s\n"
     [.str (if st.trace_all then "on" else "off").toList],
   .printf "  trace indentation %d / level\n" [.int st.trace_indent]]
  ++ (st.trace_flags.getD []).flatMap fun kv => show_flags_for kv.1 kv.2

/-- The library function `strtoul` in base 10 for an `unsigned long` of 32
bits, converted to `int` as the assignment to `indent` does. -/
def strtoul (s : CString) : Int :=
  let s := s.dropWhile fun c => c = ' ' ∨ c = '\t' ∨ c = '\n' ∨ c = '\r' ∨ c.toNat = 11
    ∨ c.toNat = 12
  let negative := s.head? = some '-'
  let s := if s.head? = some '-' ∨ s.head? = some '+' then s.drop 1 else s
  let digits := s.takeWhile Char.isDigit
  let v : Nat := digits.foldl (fun n c => 10 * n + (c.toNat - '0'.toNat)) 0
  let u : Nat :=
    if v > 4294967295 then 4294967295
    else if negative then (4294967296 - v) % 4294967296 else v
  if u ≥ 2147483648 then (u : Int) - 4294967296 else u

/-- How a run came to its end: the function returned, a store or a read left
what the program owns, or the steps allowed for the run were used up. -/
inductive Ending where
  | returned (value : Int)
  | undefined
  | unfinished
  deriving DecidableEq, Repr

/-- The loop of `prolog_trace_set` over the actions of one predicate command:
`for (a = actions, next = strchr(a, ','); a; a = next)`. `a` and `next` are
offsets in `command`, `none` for null pointers; the name of the predicate is
the text at offset 0. The first argument bounds the number of iterations.
`returned 0` stands for the end of the loop. -/
def trace_actions : Nat → Tracing → Buffer → Option Nat → Option Nat → List Event →
    Ending × Tracing × Buffer × List Event
  | 0, st, command, _, _, log => (.unfinished, st, command, log)
  | _ + 1, st, command, none, _, log => (.returned 0, st, command, log)
  | steps + 1, st, command, some a, next, log =>
    let stored : Option (Buffer × Option Nat) :=
      match next with
      | none => some (command, none)
      | some n => (store command n [.nul]).map fun b => (b, some (n + 1))
    match stored with
    | none => (.undefined, st, command, log)
    | some (command, next) =>
      match cstring (command.drop a), cstring command with
      | some action, some predicate =>
        let log := log ++ [.printf "action %s for predicate %s\n" [.str action, .str predicate]]
        match predicate_trace_set st predicate command a with
        | none => (.undefined, st, command, log)
        | some (st, command, printed) =>
          trace_actions steps st command next next (log ++ printed)
      | _, _ => (.undefined, st, command, log)

/-- What a run of `prolog_trace_set` leaves. -/
structure Traced where
  ending : Ending
  tracing : Tracing
  log : List Event

/-- The loop of `prolog_trace_set` over the commands: `p` is what is left of
the text, `command` the local array. The first argument bounds the number of
iterations of this loop and of each run of the loop over the actions. The
zero bytes the function writes over the semicolons of the caller's text are
not part of the result. -/
def trace_commands : Nat → Tracing → Buffer → List Char → List Event → Traced
  | 0, st, _, _, log => { ending := .unfinished, tracing := st, log := log }
  | steps + 1, st, command, p, log =>
    if p = [] then { ending := .returned 0, tracing := st, log := log }
    else
      let p := p.dropWhile fun c => c = ' ' ∨ c = '\t'
      let text := (p.takeWhile fun c => c ≠ ';').take MAX_SIZE
      let l := text.length
      if l ≥ MAX_SIZE then { ending := .returned EINVAL, tracing := st, log := log }
      else
        let p := p.drop l
        let p := if p.head? = some ';' then p.drop 1 else p
        let trimmed := (text.reverse.dropWhile fun c => c = ' ' ∨ c = '\t').reverse
        let command : Buffer :=
          trimmed.map Byte.chr ++ List.replicate (l - trimmed.length + 1) Byte.nul
            ++ command.drop (l + 1)
        if trimmed = "enable".toList then
          trace_commands steps { st with trace_enabled := true } command p
            (log ++ [.printf "rule/predicate tracing enabled\n" []])
        else if trimmed = "disable".toList then
          trace_commands steps { st with trace_enabled := false } command p
            (log ++ [.printf "rule/predicate tracing disabled\n" []])
        else if trimmed = "reset".toList then
          trace_commands steps (predicate_trace_reset st) command p
            (log ++ [.printf "rule/predicate tracing reset\n" []])
        else if trimmed = "show".toList then
          trace_commands steps st command p (log ++ prolog_trace_show st)
        else if trimmed.take 6 = "indent".toList then
          let indent := strtoul (trimmed.drop 6)
          trace_commands steps
            { st with trace_indent := if indent ≥ 0 ∧ indent < 8 then indent else 0 }
            command p log
        else
          let predicate := trimmed.takeWhile fun c => c ≠ ' '
          if predicate.length = trimmed.length then
            { ending := .returned EINVAL, tracing := st, log := log }
          else
            match store command predicate.length [.nul] with
            | none => { ending := .undefined, tracing := st, log := log }
            | some command =>
              let actions := predicate.length + 1
              let rest := trimmed.drop actions
              let upto := rest.takeWhile fun c => c ≠ ','
              let next : Option Nat :=
                if upto.length = rest.length then none else some (actions + upto.length)
              match trace_actions steps st command (some actions) next log with
              | (.returned _, st, command, log) => trace_commands steps st command p log
              | (ending, st, _, log) => { ending := ending, tracing := st, log := log }

/-- Apply a text of tracing commands, separated by semicolons. `commands` is
`none` for a null pointer; `command` starts with indeterminate content. -/
def prolog_trace_set (steps : Nat) (st : Tracing) (commands : Option CString) : Traced :=
  match commands with
  | none => { ending := .returned 0, tracing := st, log := [] }
  | some p => trace_commands steps st (List.replicate (MAX_SIZE + 1) Byte.indet) p []

/-- The texts `predicate_trace_set` was applied to, read off the line printed
before each application: the predicate and the action. -/
def applied (log : List Event) : List (CString × CString) :=
  log.filterMap fun ev =>
    match ev with
    | .printf "action %s for predicate %s\n" [.str action, .str predicate] =>
      some (predicate, action)
    | _ => none

/-- The array `command` when the loop over the actions of `foo on,off` starts:
the blank after the name is overwritten, the rest of the array is as it was. -/
def command_foo : Buffer :=
  "foo".toList.map Byte.chr ++ [Byte.nul] ++ "on,off".toList.map Byte.chr ++ [Byte.nul]
    ++ List.replicate 1014 Byte.indet

/-- The array `command` after the first iteration of that loop: the comma is
overwritten. -/
def command_foo_on : Buffer :=
  "foo".toList.map Byte.chr ++ [Byte.nul] ++ "on".toList.map Byte.chr ++ [Byte.nul]
    ++ "off".toList.map Byte.chr ++ [Byte.nul] ++ List.replicate 1014 Byte.indet

/-- A typed argument of `prolog_acall` as its caller passes it: a string, an
`int`, or a `double` behind a pointer. -/
inductive Typed where
  | string (chars : CString)
  | integer (n : Int)
  | double (d : Double)

/-- The two slots of `args` a typed argument takes: the character that names
its type, then the value. -/
def Typed.slots : Typed → List Word
  | .string chars => [tag 's', .str chars]
  | .integer n => [tag 'i', .int n]
  | .double d => [tag 'd', .dbl d]

/-- The engine term that stands for a typed argument: an atom, an integer, a
float. -/
def Typed.term : Typed → Term
  | .string chars => .atom chars
  | .integer n => .int n
  | .double d => .float d

/-- The call that puts a typed argument into the term reference `i`. -/
def Typed.put (i : Nat) : Typed → Event
  | .string chars => .PL_put_atom_chars i chars
  | .integer n => .PL_put_integer i n
  | .double d => .PL_put_float i d

/-! ## Lemmas and claims -/

theorem prolog_list_length_ofList (l : List Term) :
    prolog_list_length (Term.ofList l) = l.length := by
  induction l with
  | nil => simp [Term.ofList, Term.nil, prolog_list_length]
  | cons h t ih =>
    simp only [Term.ofList, prolog_list_length, ih, List.length_cons]
    have : ¬ ((t.length : Int) < 0) := by omega
    simp [this]

theorem set_at_length (pre : List Word) (a x : Word) (post : List Word) :
    (pre ++ a :: post).set pre.length x = pre ++ x :: post := by
  induction pre with
  | nil => rfl
  | cons h t ih => simp [List.set, ih]

theorem set_at_length_of_eq (pre : List Word) (a x : Word) (post : List Word) (i : Nat)
    (h : i = pre.length) : (pre ++ a :: post).set i x = pre ++ x :: post := by
  subst h; exact set_at_length pre a x post

/-- Walking a proper list with a callback that stores one word per element in
slot `i` fills the slots after `filled` in order and leaves the rest alone. -/
theorem walk_fills (f : Term → Word) (callback : Term → Nat → List Word → Int × List Word)
    (items : List Term)
    (hcb : ∀ h ∈ items, ∀ i arr, callback h i arr = (0, arr.set i (f h)))
    (filled : List Word) (c : Nat) :
    prolog_walk_from callback (Term.ofList items) filled.length
        (filled ++ List.replicate (items.length + c) NULL)
      = (0, filled ++ items.map f ++ List.replicate c NULL) := by
  induction items generalizing filled with
  | nil => simp [Term.ofList, Term.nil, prolog_walk_from]
  | cons h t ih =>
    have hh := hcb h (List.mem_cons_self h t)
    have ht : ∀ x ∈ t, ∀ i arr, callback x i arr = (0, arr.set i (f x)) :=
      fun x hx => hcb x (List.mem_cons_of_mem h hx)
    have hrep : List.replicate (t.length + 1 + c) NULL
        = NULL :: List.replicate (t.length + c) NULL := by
      rw [show t.length + 1 + c = (t.length + c) + 1 by omega, List.replicate_succ]
    simp only [Term.ofList, prolog_walk_from, List.length_cons, hh, hrep, set_at_length]
    have := ih ht (filled ++ [f h])
    simp only [List.length_append, List.length_singleton, List.append_assoc,
      List.singleton_append] at this
    simpa using this

theorem collect_action_text (e : Engine) (t : Term) (ht : t.is_text = true) (i : Nat)
    (action : List Word) :
    collect_action e t i action = (0, action.set i (.str t.text)) := by
  cases t <;> simp_all [Term.is_text, collect_action, PL_get_chars, Term.text]

/-- A non-empty row of atoms and strings is collected as the array of its texts
followed by `NULL`. -/
theorem collect_actions_row (e : Engine) (r : List Term) (hne : r ≠ [])
    (htext : ∀ t ∈ r, t.is_text = true) (i : Nat) (actions : List Word) :
    collect_actions e (Term.ofList r) i actions
      = (0, actions.set i (.arr (r.map (fun t => Word.str t.text) ++ [NULL]))) := by
  have hlen : 0 < r.length := List.length_pos.mpr hne
  have hwalk := walk_fills (fun t => Word.str t.text) (collect_action e) r
    (fun h hh i arr => collect_action_text e h (htext h hh) i arr) [] 1
  simp only [List.length_nil, List.nil_append] at hwalk
  have h1 : ¬ ((r.length : Int) < 0) := by omega
  have h2 : (0 : Int) < (r.length : Int) := by omega
  simp only [collect_actions, prolog_list_length_ofList, h1, h2, if_false, if_true,
    gt_iff_lt, prolog_walk_list, ALLOC_ARRAY, Int.toNat_ofNat, hwalk]
  simp

theorem is_action_list_ofList_ne_nil (l : List Term)
    (h : is_action_list (Term.ofList l) = true) : l ≠ [] := by
  intro hl
  subst hl
  simp [Term.ofList, Term.nil, is_action_list, PL_get_head] at h

/-- C4: for every list classified as an Action List whose rows are non-empty
lists of atoms and strings, `collect_result` succeeds and stores an envelope
tagged `RESULT_ACTIONS` with one array per row, in row order, each holding the
texts of the elements of its row in element order, then `NULL`. -/
theorem collect_result_actions (e : Engine) (rows : List (List Term)) (retval : Word)
    (hrows : ∀ r ∈ rows, r ≠ [] ∧ ∀ t ∈ r, t.is_text = true)
    (hact : is_action_list (Term.ofList (rows.map Term.ofList)) = true) :
    collect_result e none (Term.ofList (rows.map Term.ofList)) retval
      = some (0, .env (.int RESULT_ACTIONS ::
          (rows.map (fun r => Word.arr (r.map (fun t => Word.str t.text) ++ [NULL]))
            ++ [NULL]))) := by
  have hne : rows.map Term.ofList ≠ [] := is_action_list_ofList_ne_nil _ hact
  obtain ⟨r0, rs, hrs⟩ : ∃ r0 rs, rows = r0 :: rs := by
    cases rows with
    | nil => simp at hne
    | cons a b => exact ⟨a, b, rfl⟩
  have hwalk := walk_fills
    (fun item => Word.arr (((prolog_walk_list item (collect_action e)
      (ALLOC_ARRAY ((prolog_list_length item).toNat + 1))).2)))
    (collect_actions e) (rows.map Term.ofList)
    (by
      intro h hh i arr
      obtain ⟨r, hr, rfl⟩ := List.mem_map.mp hh
      have := collect_actions_row e r (hrows r hr).1 (hrows r hr).2 i arr
      rw [this]
      have hw := walk_fills (fun t => Word.str t.text) (collect_action e) r
        (fun h hh i arr => collect_action_text e h ((hrows r hr).2 h hh) i arr) [] 1
      simp only [List.length_nil, List.nil_append] at hw
      simp [prolog_walk_list, prolog_list_length_ofList, ALLOC_ARRAY, hw])
    [] 1
  simp only [List.length_nil, List.nil_append, List.length_map] at hwalk
  have hmap : (rows.map Term.ofList).map (fun item => Word.arr (((prolog_walk_list item
      (collect_action e) (ALLOC_ARRAY ((prolog_list_length item).toNat + 1))).2)))
      = rows.map (fun r => Word.arr (r.map (fun t => Word.str t.text) ++ [NULL])) := by
    rw [List.map_map]
    apply List.map_congr_left
    intro r hr
    have hw := walk_fills (fun t => Word.str t.text) (collect_action e) r
      (fun h hh i arr => collect_action_text e h ((hrows r hr).2 h hh) i arr) [] 1
    simp only [List.length_nil, List.nil_append] at hw
    simp [prolog_walk_list, prolog_list_length_ofList, ALLOC_ARRAY, hw]
  rw [hmap] at hwalk
  have hty : PL_term_type (Term.ofList (rows.map Term.ofList)) = PL_TERM := by
    rw [hrs]; rfl
  have hlist : PL_is_list (Term.ofList (rows.map Term.ofList)) = true := by
    rw [hrs]; rfl
  have h1 : ¬ ((rows.length : Int) < 0) := by omega
  simp only [collect_result, collect_list, Option.isSome_none, hty, hlist,
    prolog_list_length_ofList, List.length_map, h1, hact, prolog_walk_list, ALLOC_ARRAY,
    Int.toNat_ofNat, hwalk]
  simp

/-- Witness for C4: the single action row of the audio example. -/
theorem collect_result_actions_witness :
    collect_result sample_engine none
        (Term.ofList ([[atom "com.nokia.policy.actions.audio", atom "test", atom "mute"]].map
          Term.ofList)) NULL
      = some (0, .env (.int RESULT_ACTIONS ::
          ([[atom "com.nokia.policy.actions.audio", atom "test", atom "mute"]].map
            (fun r => Word.arr (r.map (fun t => Word.str t.text) ++ [NULL])) ++ [NULL]))) :=
  collect_result_actions sample_engine
    [[atom "com.nokia.policy.actions.audio", atom "test", atom "mute"]] NULL
    (by simp [atom, Term.is_text]) (by rfl)

/-- C1: when the first element of a list term is a row with at least two
elements, `is_action_list` answers true (Action List) exactly when the second
element of that row is not a list, and false (Object List) when it is;
`[[a,b],[c,d]]` is an Action List and `[[n1,[f,1]],[n2,[f,2]]]` an Object List. -/
theorem is_action_list_second_element :
    (∀ first second rest tail : Term,
      is_action_list (.cons (.cons first (.cons second rest)) tail) = !PL_is_list second)
    ∧ is_action_list (Term.ofList [Term.ofList [atom "a", atom "b"],
        Term.ofList [atom "c", atom "d"]]) = true
    ∧ is_action_list (Term.ofList [Term.ofList [atom "n1", Term.ofList [atom "f", .int 1]],
        Term.ofList [atom "n2", Term.ofList [atom "f", .int 2]]]) = false := by
  refine ⟨fun _ _ _ _ => rfl, by rfl, by rfl⟩

theorem set3_at_length (pre : List Word) (a b c x y z : Word) (post : List Word) (n : Nat)
    (hn : n = pre.length) :
    (((pre ++ a :: b :: c :: post).set n x).set (n + 1) y).set (n + 2) z
      = pre ++ x :: y :: z :: post := by
  subst hn
  rw [set_at_length]
  have h1 := set_at_length (pre ++ [x]) b y (c :: post)
  simp only [List.length_append, List.length_singleton, List.append_assoc,
    List.singleton_append] at h1
  rw [h1]
  have h2 := set_at_length (pre ++ [x, y]) c z post
  simp only [List.length_append, List.length_cons, List.length_singleton, List.length_nil,
    List.append_assoc, List.cons_append, List.nil_append] at h2
  exact h2

/-- Walking a proper list with a callback that stores three words per element
in slots `3i`, `3i+1`, `3i+2` fills the slots after `filled` in order. -/
theorem walk_fills3 (g : Term → List Word)
    (callback : Term → Nat → List Word → Int × List Word) (items : List Term)
    (hcb : ∀ h ∈ items, ∀ i pre a b c post, pre.length = 3 * i → 0 < i →
      callback h i (pre ++ a :: b :: c :: post) = (0, pre ++ g h ++ post))
    (hg : ∀ h ∈ items, (g h).length = 3)
    (filled : List Word) (k : Nat) (hk : filled.length = 3 * k) (hpos : 0 < k) (c : Nat) :
    prolog_walk_from callback (Term.ofList items) k
        (filled ++ List.replicate (3 * items.length + c) NULL)
      = (0, filled ++ items.flatMap g ++ List.replicate c NULL) := by
  induction items generalizing filled k with
  | nil => simp [Term.ofList, Term.nil, prolog_walk_from]
  | cons h t ih =>
    have hh := hcb h (List.mem_cons_self h t)
    have hrep : List.replicate (3 * (h :: t).length + c) NULL
        = NULL :: NULL :: NULL :: List.replicate (3 * t.length + c) NULL := by
      rw [show 3 * (h :: t).length + c = (3 * t.length + c) + 1 + 1 + 1 by
        simp only [List.length_cons]; omega]
      simp [List.replicate_succ]
    rw [hrep]
    simp only [Term.ofList, prolog_walk_from, hh _ _ _ _ _ _ hk hpos]
    have := ih (fun x hx => hcb x (List.mem_cons_of_mem h hx))
      (fun x hx => hg x (List.mem_cons_of_mem h hx)) (filled ++ g h) (k + 1)
      (by simp [hk, hg h (List.mem_cons_self h t)]; omega) (by omega)
    simp at this
    simp [this]

theorem collect_object_name (e : Engine) (name : Term) (text : CString)
    (h : PL_get_chars e name .CVT_ALL = some text) (a b c : Word) (post : List Word) :
    collect_object e name 0 (a :: b :: c :: post)
      = (0, .str OBJECT_NAME :: tag 's' :: .str text :: post) := by
  simp [collect_object, h, List.set]

theorem collect_object_field (e : Engine) (f v : Term) (text : CString)
    (hf : PL_get_chars e f .CVT_ALL = some text) (hv : is_field_value v = true)
    (i : Nat) (pre : List Word) (a b c : Word) (post : List Word)
    (hpre : pre.length = 3 * i) (hi : 0 < i) :
    collect_object e (Term.ofList [f, v]) i (pre ++ a :: b :: c :: post)
      = (0, pre ++ [.str text, field_type v, field_value v] ++ post) := by
  have hi0 : i ≠ 0 := by omega
  cases v <;>
    simp_all [is_field_value, collect_object, Term.ofList, PL_get_list, PL_get_head,
      PL_term_type, PL_get_atom_chars, PL_get_string_chars, PL_get_integer, PL_get_float,
      field_type, field_value, Term.text, set3_at_length]

/-- C3 as amended: for every row `[Name, [F1,V1], ..., [Fk,Vk]]` whose `Name`
and field names `Fi` have a text under `PL_get_chars` with `CVT_ALL`, and whose
values `Vi` are atoms, strings, floats or integers that fit a C `int`,
`collect_objects` succeeds and stores in slot `i` the array of the triple
(`name`, `s`, text of `Name`) followed, in order, by the triples
(text of `Fi`, type word of `Vi`, value of `Vi`) and a closing `NULL`. -/
theorem collect_objects_row (e : Engine) (name : Term) (fields : List (Term × Term))
    (i : Nat) (objects : List Word) (text : CString)
    (hname : PL_get_chars e name .CVT_ALL = some text)
    (hfields : ∀ fv ∈ fields,
      (PL_get_chars e fv.1 .CVT_ALL).isSome = true ∧ is_field_value fv.2 = true) :
    collect_objects e (object_row name fields) i objects
      = (0, objects.set i (.arr ([.str OBJECT_NAME, tag 's', .str text]
          ++ fields.flatMap (fun fv =>
              [.str ((PL_get_chars e fv.1 .CVT_ALL).getD []), field_type fv.2,
               field_value fv.2])
          ++ [NULL]))) := by
  let g : Term → List Word := fun item =>
    match item with
    | .cons f (.cons v _) =>
      [.str ((PL_get_chars e f .CVT_ALL).getD []), field_type v, field_value v]
    | _ => [NULL, NULL, NULL]
  have hg : ∀ h ∈ fields.map (fun fv => Term.ofList [fv.1, fv.2]), (g h).length = 3 := by
    intro h hh
    obtain ⟨fv, _, rfl⟩ := List.mem_map.mp hh
    rfl
  have hcb : ∀ h ∈ fields.map (fun fv => Term.ofList [fv.1, fv.2]),
      ∀ i pre a b c post, pre.length = 3 * i → 0 < i →
      collect_object e h i (pre ++ a :: b :: c :: post) = (0, pre ++ g h ++ post) := by
    intro h hh i pre a b c post hpre hi
    obtain ⟨fv, hfv, rfl⟩ := List.mem_map.mp hh
    obtain ⟨hf, hv⟩ := hfields fv hfv
    obtain ⟨ft, hft⟩ := Option.isSome_iff_exists.mp hf
    rw [collect_object_field e fv.1 fv.2 ft hft hv i pre a b c post hpre hi]
    simp [g, Term.ofList, hft]
  have hwalk := walk_fills3 g (collect_object e)
    (fields.map (fun fv => Term.ofList [fv.1, fv.2])) hcb hg
    [.str OBJECT_NAME, tag 's', .str text] 1 rfl (by omega) 1
  have hflat : (fields.map (fun fv => Term.ofList [fv.1, fv.2])).flatMap g
      = fields.flatMap (fun fv =>
          [.str ((PL_get_chars e fv.1 .CVT_ALL).getD []), field_type fv.2,
           field_value fv.2]) := by
    rw [List.flatMap_map]
    rfl
  rw [hflat, List.length_map] at hwalk
  have hlen : prolog_list_length (object_row name fields) = ((fields.length + 1 : Nat) : Int) := by
    simp [object_row, prolog_list_length_ofList]
  have h1 : ¬ (((fields.length + 1 : Nat) : Int) < 0) := by omega
  have h2 : (0 : Int) < ((fields.length + 1 : Nat) : Int) := by omega
  have halloc : ALLOC_ARRAY (3 * (fields.length + 1) + 1)
      = NULL :: NULL :: NULL :: List.replicate (3 * fields.length + 1) NULL := by
    rw [ALLOC_ARRAY, show 3 * (fields.length + 1) + 1 = (3 * fields.length + 1) + 1 + 1 + 1 by
      omega]
    simp [List.replicate_succ]
  simp only [collect_objects, hlen, h1, h2, if_false, if_true, gt_iff_lt, Int.toNat_ofNat,
    halloc, prolog_walk_list]
  simp only [object_row, Term.ofList, prolog_walk_from,
    collect_object_name e name text hname]
  have hw2 : prolog_walk_from (collect_object e)
      (Term.ofList (fields.map (fun fv => Term.ofList [fv.1, fv.2]))) (0 + 1)
      (.str OBJECT_NAME :: tag 's' :: .str text :: List.replicate (3 * fields.length + 1) NULL)
      = (0, [.str OBJECT_NAME, tag 's', .str text] ++ fields.flatMap (fun fv =>
          [.str ((PL_get_chars e fv.1 .CVT_ALL).getD []), field_type fv.2,
           field_value fv.2]) ++ List.replicate 1 NULL) := by
    simpa using hwalk
  simp only [Term.ofList] at hw2
  simp [hw2]

/-- Witness for C3: the object `shared.audio` of the example. -/
theorem collect_objects_row_witness :
    PL_get_chars sample_engine (atom "shared.audio") .CVT_ALL = some "shared.audio".toList
    ∧ collect_objects sample_engine
        (object_row (atom "shared.audio")
          [(atom "group", atom "default"), (atom "disabled", .int 0)]) 0 [NULL, NULL]
      = (0, [.arr [.str "name".toList, tag 's', .str "shared.audio".toList,
                   .str "group".toList, tag 's', .str "default".toList,
                   .str "disabled".toList, tag 'i', .int 0, NULL], NULL]) :=
  ⟨rfl, collect_objects_row sample_engine (atom "shared.audio")
    [(atom "group", atom "default"), (atom "disabled", .int 0)] 0 [NULL, NULL]
    "shared.audio".toList rfl (by decide)⟩

/-- Counterexample to C3 as stated: a name that is not a list but a compound
term, and an integer value that does not fit a C `int`, each make
`collect_objects` return `EINVAL` and leave the slot empty. -/
theorem collect_objects_row_rejected :
    PL_is_list (.compound "foo".toList [atom "bar"]) = false
    ∧ collect_objects sample_engine
        (object_row (.compound "foo".toList [atom "bar"]) [(atom "group", atom "default")])
        0 [NULL, NULL] = (EINVAL, [NULL, NULL])
    ∧ collect_objects sample_engine
        (object_row (atom "shared.audio") [(atom "disabled", .int 2147483648)])
        0 [NULL, NULL] = (EINVAL, [NULL, NULL]) :=
  ⟨rfl, rfl, rfl⟩

/-- C10: for every compound term that is not a list (neither a list cell nor
`[]`), with no exception pending, `collect_result` returns `EINVAL` and leaves
the caller's result slot as it was. -/
theorem collect_result_compound (e : Engine) (t : Term) (retval : Word)
    (hterm : PL_term_type t = PL_TERM) (hlist : PL_is_list t = false) :
    collect_result e none t retval = some (EINVAL, retval) := by
  simp [collect_result, hterm, hlist]

/-- Witness for C10: the term `point(1, 2)`. -/
theorem collect_result_compound_witness :
    PL_term_type (.compound "point".toList [.int 1, .int 2]) = PL_TERM
    ∧ PL_is_list (.compound "point".toList [.int 1, .int 2]) = false
    ∧ collect_result sample_engine none (.compound "point".toList [.int 1, .int 2])
        (.str "old".toList) = some (EINVAL, .str "old".toList) :=
  ⟨rfl, rfl, collect_result_compound sample_engine (.compound "point".toList [.int 1, .int 2])
    (.str "old".toList) rfl rfl⟩

/-- C9 as amended: with no exception pending, `collect_result` returns 0 and
stores the integer for an integer term that fits a C `int`, the float for a
float term, a copy of the text for an atom other than `[]`, and `NULL` for an
unbound variable. -/
theorem collect_result_scalar (e : Engine) (retval : Word) (n : Int) (d : Double)
    (name : CString) (id : Nat) (hmin : INT_MIN ≤ n) (hmax : n ≤ INT_MAX)
    (hname : name ≠ "[]".toList) :
    collect_result e none (.int n) retval = some (0, .int n)
    ∧ collect_result e none (.float d) retval = some (0, .flt d)
    ∧ collect_result e none (.atom name) retval = some (0, .str name)
    ∧ collect_result e none (.var id) retval = some (0, NULL) := by
  refine ⟨?_, ?_, ?_, ?_⟩
  · simp [collect_result, PL_term_type, PL_get_integer, hmin, hmax]
  · simp [collect_result, PL_term_type, PL_get_float]
  · have hl : PL_is_list (.atom name) = false := by
      simpa [PL_is_list] using hname
    simp [collect_result, PL_term_type, hl, PL_get_atom_chars]
  · simp [collect_result, PL_term_type]

/-- Witness for C9: the integer 42, a float, the atom `mute` and an unbound
variable. -/
theorem collect_result_scalar_witness :
    collect_result sample_engine none (.int 42) (.str "old".toList) = some (0, .int 42)
    ∧ collect_result sample_engine none (.float 4609434218613702656) (.str "old".toList)
      = some (0, .flt 4609434218613702656)
    ∧ collect_result sample_engine none (.atom "mute".toList) (.str "old".toList)
      = some (0, .str "mute".toList)
    ∧ collect_result sample_engine none (.var 3) (.str "old".toList) = some (0, NULL) :=
  collect_result_scalar sample_engine (.str "old".toList) 42 4609434218613702656
    "mute".toList 3 (by decide) (by decide) (by decide)

/-- Counterexample to C9 as stated: the integer term `2147483648` does not fit
a C `int`; `collect_result` returns 1 and stores nothing. -/
theorem collect_result_integer_out_of_range :
    collect_result sample_engine none (.int 2147483648) (.str "old".toList)
      = some (1, .str "old".toList) := by
  rfl

/-- C7: with `narg < arity - 1`, `prolog_acall` returns `FALSE`, performs no
engine call at all (no frame, no argument, no query) and leaves the caller's
result slot as it was. -/
theorem prolog_acall_too_few_arguments (e : Engine) (trace_enabled : Bool)
    (p : prolog_predicate_t) (retval : Word) (args : List Word) (narg : Int)
    (h : narg < p.arity - 1) :
    prolog_acall e trace_enabled p retval args narg
      = some { success := FALSE, retval := retval, log := [] } := by
  simp [prolog_acall, h]

/-- Witness for C7: one argument given to a predicate of arity 3. -/
theorem prolog_acall_too_few_arguments_witness :
    prolog_acall sample_engine false
        { module := none, name := "set_routes".toList, arity := 3, predicate := 7 }
        (.str "old".toList) [tag 's', .str "a".toList] 1
      = some { success := FALSE, retval := .str "old".toList, log := [] } :=
  prolog_acall_too_few_arguments sample_engine false
    { module := none, name := "set_routes".toList, arity := 3, predicate := 7 }
    (.str "old".toList) [tag 's', .str "a".toList] 1 (by decide)

set_option maxRecDepth 100000 in
/-- C2, the code at the failing input: for the envelope of the audio example
`prolog_flatten_actions` returns the expected text, but for a single action
whose only parameter is 126 characters long it returns `[[` and the first 125
characters only: the last character and both closing brackets are cut off. -/
theorem prolog_flatten_actions_cuts_text :
    prolog_flatten_actions (.env [.int RESULT_ACTIONS,
        .arr [.str "com.nokia.policy.actions.audio".toList, .str "test".toList,
              .str "mute".toList, NULL], NULL])
      = some (.str "[[com.nokia.policy.actions.audio test mute]]".toList)
    ∧ prolog_flatten_actions (.env [.int RESULT_ACTIONS,
        .arr [.str (List.replicate 126 'a'), NULL], NULL])
      = some (.str ("[[".toList ++ List.replicate 125 'a')) := by
  constructor <;> rfl

theorem cstring_text (s : CString) (rest : Buffer) :
    cstring (s.map Byte.chr ++ Byte.nul :: rest) = some s := by
  induction s with
  | nil => rfl
  | cons c t ih => simp [cstring, ih]

theorem APPEND_holds (st : Fmt) (s text : CString) (h : st.holds s)
    (hfit : (s ++ text).length ≤ 1022) :
    ∃ st', APPEND st text = some st' ∧ st'.holds (s ++ text)
      ∧ cstring st'.buf = some (s ++ text) := by
  obtain ⟨⟨rest, hbuf⟩, hep, hleft, hlen⟩ := h
  rw [List.length_append] at hfit
  have hsize : size_t st.left = 1023 - s.length := by
    rw [size_t, hleft]
    omega
  have hrest : rest.length = 1024 - s.length := by
    have := hlen
    rw [hbuf, List.length_append, List.length_map] at this
    omega
  have htake : text.take (1023 - s.length - 1) = text :=
    List.take_of_length_le (by omega)
  have hstore : store st.buf st.ep (text.map Byte.chr ++ [Byte.nul])
      = some ((s ++ text).map Byte.chr ++ Byte.nul :: rest.drop (text.length + 1)) := by
    have hle : st.ep + (text.map Byte.chr ++ [Byte.nul]).length ≤ st.buf.length := by
      simp [hep, hlen]; omega
    rw [store, if_pos hle, hbuf, hep]
    have h1 : (s.map Byte.chr ++ rest).take s.length = s.map Byte.chr := by
      rw [List.take_append_eq_append_take]
      simp
    have h2 : (s.map Byte.chr ++ rest).drop
        (s.length + (text.map Byte.chr ++ [Byte.nul]).length) = rest.drop (text.length + 1) := by
      rw [List.drop_append_eq_append_drop]
      simp
    rw [h1, h2]
    simp
  refine ⟨{ buf := (s ++ text).map Byte.chr ++ Byte.nul :: rest.drop (text.length + 1),
            ep := st.ep + text.length, left := st.left - text.length }, ?_, ?_, ?_⟩
  · have hne : ¬ (1023 - s.length = 0) := by omega
    simp [APPEND, snprintf, hsize, hne, htake, hstore]
  · refine ⟨⟨_, rfl⟩, ?_, ?_, ?_⟩
    · simp [hep]
    · simp [hleft]; omega
    · simp [hrest]; omega
  · exact cstring_text _ _

theorem Fmt.holds_start :
    Fmt.holds { buf := List.replicate 1024 Byte.indet, ep := 0, left := 1024 - 1 } [] :=
  ⟨⟨_, rfl⟩, rfl, rfl, List.length_replicate _ _⟩

theorem what_text_atomic (e : Engine) (what : Term) (s : CString)
    (h : PL_is_atomic what = true) :
    (PL_get_chars e what .CVT_ALL).getD s = what_text e what := by
  cases what <;> simp_all [PL_is_atomic, what_text, PL_get_chars]

/-- The general rendering of `error(F(K, W), Context)` when the text is at most
1022 characters long. -/
theorem parse_exception_renders (e : Engine) (formal context kind what : Term)
    (name : CString) (hcompound : PL_is_compound formal = true)
    (hname : PL_get_name_arity formal = some (name, 2))
    (hkind : PL_get_arg 1 formal = some kind) (hwhat : PL_get_arg 2 formal = some what)
    (hshape : PL_is_atomic what = true ∨ PL_is_compound what = true)
    (hfit : (diagnostic e name kind what).length ≤ 1022) :
    parse_exception e (.compound "error".toList [formal, context])
      = some (diagnostic e name kind what) := by
  have hlen := hfit
  simp only [diagnostic, List.length_append] at hlen
  have hc : ": ".toList.length = 2 := rfl
  have hs : ", ".toList.length = 2 := rfl
  obtain ⟨st1, h1, hh1, -⟩ := APPEND_holds _ [] name Fmt.holds_start
    (by simp only [List.length_append, List.length_nil]; omega)
  obtain ⟨st2, h2, hh2, -⟩ := APPEND_holds st1 ([] ++ name) (": ".toList ++ e.write kind) hh1
    (by simp only [List.length_append, List.length_nil]; omega)
  obtain ⟨st3, h3, -, hc3⟩ := APPEND_holds st2 ([] ++ name ++ (": ".toList ++ e.write kind))
    (", ".toList ++ what_text e what) hh2
    (by simp only [List.length_append, List.length_nil]; omega)
  have hres : [] ++ name ++ (": ".toList ++ e.write kind) ++ (", ".toList ++ what_text e what)
      = diagnostic e name kind what := by
    simp only [diagnostic, List.nil_append, List.append_assoc]
  rw [hres] at hc3
  have hformal : PL_get_arg 1 (.compound "error".toList [formal, context]) = some formal := rfl
  have hwrite : ∀ t, PL_get_chars e t .CVT_WRITE = some (e.write t) := fun _ => rfl
  unfold parse_exception
  simp only [hformal, hwrite, if_true, Option.getD_some, hcompound, hname, hkind, hwhat]
  rcases Bool.eq_false_or_eq_true (PL_is_atomic what) with ha | ha
  · rw [what_text_atomic e what _ ha]
    simp only [ha, if_true, h1, h2, h3, hc3, Option.bind_eq_bind, Option.some_bind,
      ne_eq, not_true_eq_false, if_false]
  · have hcw : PL_is_compound what = true := by
      rcases hshape with h | h
      · simp [h] at ha
      · exact h
    have hwt : what_text e what = e.write what := by simp [what_text, ha]
    rw [hwt] at h3
    simp only [ha, hcw, if_true, h1, h2, h3, hc3, Option.bind_eq_bind, Option.some_bind,
      ne_eq, not_true_eq_false, if_false, Bool.false_eq_true]

theorem collect_exception_shape (e : Engine) (x : Term) (retval w : Word)
    (h : collect_exception e (some x) retval = some (0, w)) :
    ∃ s, w = .env [.int RESULT_EXCEPTION, .str s, NULL] := by
  unfold collect_exception at h
  simp only at h
  split at h
  · simp [EINVAL] at h
  · split at h
    · simp [EINVAL] at h
    · rename_i name arity _
      obtain ⟨s, -, hs⟩ := Option.map_eq_some'.mp h
      simp only [Prod.mk.injEq, true_and] at hs
      exact ⟨s, hs.symm⟩

theorem collect_result_pending (e : Engine) (x t : Term) (retval : Word) :
    collect_result e (some x) t retval = collect_exception e (some x) retval := by
  simp [collect_result]

theorem next_solution_raised (e : Engine) (predicate : Nat) (args : List Term)
    (retval w : Word) (x : Term) (hsolve : e.solve predicate args = .raised x)
    (hrender : collect_exception e (some x) retval = some (0, w)) :
    next_solution e predicate args retval = some (FALSE, w) := by
  simp [next_solution, hsolve, collect_result_pending, hrender]

/-- C5 as amended: for a raised term `error(Formal, Context)` whose formal part
is a compound of arity 2 with name `F` and arguments `K`, `W`, where `W` is
atomic or compound and the text `<F>: <K>, <W>` is at most 1022 characters
long, `parse_exception` returns exactly that text and `collect_exception`
returns 0 with the envelope tagged `RESULT_EXCEPTION` that carries it. -/
theorem exception_decoder_renders (e : Engine) (formal context kind what : Term)
    (name : CString) (retval : Word) (hcompound : PL_is_compound formal = true)
    (hname : PL_get_name_arity formal = some (name, 2))
    (hkind : PL_get_arg 1 formal = some kind) (hwhat : PL_get_arg 2 formal = some what)
    (hshape : PL_is_atomic what = true ∨ PL_is_compound what = true)
    (hfit : (diagnostic e name kind what).length ≤ 1022) :
    parse_exception e (.compound "error".toList [formal, context])
      = some (diagnostic e name kind what)
    ∧ collect_exception e (some (.compound "error".toList [formal, context])) retval
      = some (0, .env [.int RESULT_EXCEPTION, .str (diagnostic e name kind what), NULL]) := by
  have h := parse_exception_renders e formal context kind what name hcompound hname hkind
    hwhat hshape hfit
  refine ⟨h, ?_⟩
  simp only [collect_exception, PL_is_compound, PL_get_name_arity, List.length_cons,
    List.length_nil, Bool.not_true, and_self, if_true, h, Option.map_some']
  rfl

/-- Witness for C5: `error(type_error(integer, foo), context(bar/2, _))` is
rendered as `type_error: integer, foo`. -/
theorem exception_decoder_renders_witness :
    parse_exception sample_engine type_error_term = some "type_error: integer, foo".toList
    ∧ collect_exception sample_engine (some type_error_term) NULL
      = some (0, .env [.int RESULT_EXCEPTION, .str "type_error: integer, foo".toList, NULL]) :=
  exception_decoder_renders sample_engine
    (.compound "type_error".toList [atom "integer", atom "foo"])
    (.compound "context".toList [.compound "/".toList [atom "bar", .int 2], .var 1])
    (atom "integer") (atom "foo") "type_error".toList NULL rfl rfl rfl rfl (Or.inl rfl)
    (by decide)

set_option maxRecDepth 100000 in
/-- Counterexample to C5 as stated: a formal term whose rendering `<F>: b, c`
is exactly 1023 characters long (`F` a name of 1017 characters) fits 1023
bytes, yet `parse_exception` returns its first 1022 characters only, without
the final `c`. -/
theorem parse_exception_cuts_text :
    (diagnostic sample_engine (List.replicate 1017 'a') (atom "b") (atom "c")).length = 1023
    ∧ parse_exception sample_engine
        (.compound "error".toList
          [.compound (List.replicate 1017 'a') [atom "b", atom "c"], .var 1])
      = some (List.replicate 1017 'a' ++ ": b, ".toList)
    ∧ List.replicate 1017 'a' ++ ": b, ".toList
      ≠ diagnostic sample_engine (List.replicate 1017 'a') (atom "b") (atom "c") := by
  refine ⟨by rfl, by rfl, by decide⟩

/-- C6 as amended: when the query raises an exception that `collect_exception`
renders (it returns 0 with the word `w`), `w` is an envelope tagged
`RESULT_EXCEPTION` that carries the diagnostic string, the caller's result slot
receives `w`, and `prolog_call`, `prolog_vcall` and `prolog_acall` return
`FALSE`, the value `PL_next_solution` reported. -/
theorem invoke_exception_outcome (e : Engine) (p : prolog_predicate_t) (retval w : Word)
    (x : Term) (hrender : collect_exception e (some x) retval = some (0, w)) :
    (∃ s, w = .env [.int RESULT_EXCEPTION, .str s, NULL])
    ∧ (∀ ap, e.solve p.predicate ((va_args p.arity ap).map Term.atom) = .raised x →
        (prolog_call e p retval ap).map Call.outcome = some (FALSE, w)
        ∧ (prolog_vcall e p retval ap).map Call.outcome = some (FALSE, w))
    ∧ (∀ trace_enabled args narg, ¬ narg < p.arity - 1 →
        (put_args args (p.arity - 1).toNat 0).2.2 = true →
        e.solve p.predicate (put_args args (p.arity - 1).toNat 0).2.1 = .raised x →
        (prolog_acall e trace_enabled p retval args narg).map Call.outcome
          = some (FALSE, w)) := by
  refine ⟨collect_exception_shape e x retval w hrender, ?_, ?_⟩
  · intro ap hsolve
    have h := next_solution_raised e _ _ retval w x hsolve hrender
    simp [prolog_call, prolog_vcall, h, Call.outcome]
  · intro trace_enabled args narg hnarg hvalid hsolve
    have h := next_solution_raised e _ _ retval w x hsolve hrender
    unfold prolog_acall
    simp only [if_neg hnarg, hvalid, h, Bool.not_true, if_false, Option.map_some',
      Call.outcome, Bool.false_eq_true]

set_option maxRecDepth 100000 in
/-- Witness for C6: a query of `set_routes/1` that raises
`error(type_error(integer, foo), context(bar/2, _))`. -/
theorem invoke_exception_outcome_witness :
    (∃ s, Word.env [.int RESULT_EXCEPTION, .str "type_error: integer, foo".toList, NULL]
        = .env [.int RESULT_EXCEPTION, .str s, NULL])
    ∧ (∀ ap, (raising_engine type_error_term).solve 7 ((va_args 1 ap).map Term.atom)
          = .raised type_error_term →
        (prolog_call (raising_engine type_error_term)
            { module := none, name := "set_routes".toList, arity := 1, predicate := 7 }
            NULL ap).map Call.outcome
          = some (FALSE, .env [.int RESULT_EXCEPTION,
              .str "type_error: integer, foo".toList, NULL])
        ∧ (prolog_vcall (raising_engine type_error_term)
            { module := none, name := "set_routes".toList, arity := 1, predicate := 7 }
            NULL ap).map Call.outcome
          = some (FALSE, .env [.int RESULT_EXCEPTION,
              .str "type_error: integer, foo".toList, NULL]))
    ∧ (∀ trace_enabled args narg, ¬ narg < (1 : Int) - 1 →
        (put_args args ((1 : Int) - 1).toNat 0).2.2 = true →
        (raising_engine type_error_term).solve 7 (put_args args ((1 : Int) - 1).toNat 0).2.1
          = .raised type_error_term →
        (prolog_acall (raising_engine type_error_term) trace_enabled
            { module := none, name := "set_routes".toList, arity := 1, predicate := 7 }
            NULL args narg).map Call.outcome
          = some (FALSE, .env [.int RESULT_EXCEPTION,
              .str "type_error: integer, foo".toList, NULL])) :=
  invoke_exception_outcome (raising_engine type_error_term)
    { module := none, name := "set_routes".toList, arity := 1, predicate := 7 } NULL
    (.env [.int RESULT_EXCEPTION, .str "type_error: integer, foo".toList, NULL])
    type_error_term (by rfl)

set_option maxRecDepth 100000 in
/-- Counterexample to C6 as stated: the query of `set_routes/1` raises
`error(type_error(integer, foo), context(bar/2, _))`; the result slot receives
the exception envelope, but `prolog_call`, `prolog_vcall` and `prolog_acall`
all return `FALSE`, which is not the success value `TRUE`. -/
theorem invoke_exception_returns_FALSE :
    (prolog_call (raising_engine type_error_term)
        { module := none, name := "set_routes".toList, arity := 1, predicate := 7 }
        NULL []).map Call.outcome
      = some (FALSE, .env [.int RESULT_EXCEPTION,
          .str "type_error: integer, foo".toList, NULL])
    ∧ (prolog_vcall (raising_engine type_error_term)
        { module := none, name := "set_routes".toList, arity := 1, predicate := 7 }
        NULL []).map Call.outcome
      = some (FALSE, .env [.int RESULT_EXCEPTION,
          .str "type_error: integer, foo".toList, NULL])
    ∧ (prolog_acall (raising_engine type_error_term) false
        { module := none, name := "set_routes".toList, arity := 1, predicate := 7 }
        NULL [] 0).map Call.outcome
      = some (FALSE, .env [.int RESULT_EXCEPTION,
          .str "type_error: integer, foo".toList, NULL])
    ∧ FALSE ≠ TRUE := by
  refine ⟨by rfl, by rfl, by rfl, by decide⟩

theorem collect_list_envelope (e : Engine) (t : Term) (retval : Word) (block : List Word)
    (h : collect_list e t retval = (0, .env block)) : built_by e none t block := by
  unfold collect_list at h
  simp only at h
  split at h
  · simp [ EIO] at h
  · split at h
    · rename_i hact
      split at h
      · simp [ EIO] at h
      · simp only [Prod.mk.injEq, Word.env.injEq, true_and] at h
        exact Or.inr (Or.inl ⟨rfl, hact, h.symm⟩)
    · rename_i hact
      split at h
      · simp [ EIO] at h
      · simp only [Prod.mk.injEq, Word.env.injEq, true_and] at h
        exact Or.inr (Or.inr ⟨rfl, by simpa using hact, h.symm⟩)

/-- Every envelope `collect_result` hands out with return value 0 carries the
tag of the collector that built it. -/
theorem collect_result_envelope (e : Engine) (exc : Option Term) (t : Term)
    (retval : Word) (block : List Word)
    (h : collect_result e exc t retval = some (0, .env block)) : built_by e exc t block := by
  cases exc with
  | some x =>
    rw [collect_result_pending] at h
    obtain ⟨s, hs⟩ := collect_exception_shape e x retval _ h
    simp only [Word.env.injEq] at hs
    exact Or.inl ⟨rfl, s, hs⟩
  | none =>
    unfold collect_result at h
    simp only [Option.isSome_none, Bool.false_eq_true, if_false] at h
    split at h
    · split at h <;> simp at h
    · split at h <;> simp at h
    · split at h
      · simp only [Option.some.injEq] at h
        exact collect_list_envelope e t retval block h
      · split at h <;> simp [ EIO] at h
    · split at h <;> simp [ EIO] at h
    · simp [NULL] at h
    · split at h
      · simp [EINVAL] at h
      · simp only [Option.some.injEq] at h
        exact collect_list_envelope e t retval block h

theorem next_solution_solved (e : Engine) (predicate : Nat) (args : List Term)
    (retval w : Word) (t : Term) (hsolve : e.solve predicate args = .solved t)
    (h : next_solution e predicate args retval = some (TRUE, w)) :
    collect_result e none t retval = some (0, w) := by
  simp only [next_solution, hsolve] at h
  obtain ⟨c, hc, hout⟩ := Option.map_eq_some'.mp h
  simp only [Prod.mk.injEq] at hout
  have hzero : c.1 = 0 := by
    by_contra hne
    simp [hne, FALSE, TRUE] at hout
  rw [hc, ← hout.2, ← hzero]

/-- C8: every envelope that `collect_result` or `collect_exception` hands out
stores in slot 0, right before the first visible slot, the tag of the collector
that built it; `prolog_free_results` and `prolog_dump_results` pick the
operation by that tag whatever the other slots hold; so the list result of a
successful `prolog_call` goes to the action operations when it was built by
`collect_actions` and to the object operations when it was built by
`collect_objects`. -/
theorem results_dispatch_on_stored_tag (e : Engine) (p : prolog_predicate_t)
    (retval : Word) (ap : List CString) (t : Term) (block : List Word)
    (hsolve : e.solve p.predicate ((va_args p.arity ap).map Term.atom) = .solved t)
    (hcall : (prolog_call e p retval ap).map Call.outcome = some (TRUE, .env block)) :
    (∀ slots,
      prolog_free_results (.env (.int RESULT_ACTIONS :: slots))
        = prolog_free_actions (.env (.int RESULT_ACTIONS :: slots))
      ∧ prolog_dump_results (.env (.int RESULT_ACTIONS :: slots))
        = prolog_dump_actions (.env (.int RESULT_ACTIONS :: slots))
      ∧ prolog_free_results (.env (.int RESULT_OBJECTS :: slots))
        = prolog_free_objects (.env (.int RESULT_OBJECTS :: slots))
      ∧ prolog_dump_results (.env (.int RESULT_OBJECTS :: slots))
        = prolog_dump_objects (.env (.int RESULT_OBJECTS :: slots))
      ∧ prolog_free_results (.env (.int RESULT_EXCEPTION :: slots))
        = prolog_free_exception (.env (.int RESULT_EXCEPTION :: slots))
      ∧ prolog_dump_results (.env (.int RESULT_EXCEPTION :: slots))
        = prolog_dump_exception (.env (.int RESULT_EXCEPTION :: slots)))
    ∧ (∀ exc t1 retval1 block1,
        collect_result e exc t1 retval1 = some (0, .env block1) → built_by e exc t1 block1)
    ∧ (∀ x retval1 w, collect_exception e (some x) retval1 = some (0, w) →
        ∃ s, w = .env [.int RESULT_EXCEPTION, .str s, NULL])
    ∧ (is_action_list t = true →
        block = .int RESULT_ACTIONS :: (prolog_walk_list t (collect_actions e)
          (ALLOC_ARRAY ((prolog_list_length t).toNat + 1))).2
        ∧ prolog_free_results (.env block) = prolog_free_actions (.env block)
        ∧ prolog_dump_results (.env block) = prolog_dump_actions (.env block))
    ∧ (is_action_list t = false →
        block = .int RESULT_OBJECTS :: (prolog_walk_list t (collect_objects e)
          (ALLOC_ARRAY ((prolog_list_length t).toNat + 1))).2
        ∧ prolog_free_results (.env block) = prolog_free_objects (.env block)
        ∧ prolog_dump_results (.env block) = prolog_dump_objects (.env block)) := by
  have hdispatch : ∀ slots,
      prolog_free_results (.env (.int RESULT_ACTIONS :: slots))
        = prolog_free_actions (.env (.int RESULT_ACTIONS :: slots))
      ∧ prolog_dump_results (.env (.int RESULT_ACTIONS :: slots))
        = prolog_dump_actions (.env (.int RESULT_ACTIONS :: slots))
      ∧ prolog_free_results (.env (.int RESULT_OBJECTS :: slots))
        = prolog_free_objects (.env (.int RESULT_OBJECTS :: slots))
      ∧ prolog_dump_results (.env (.int RESULT_OBJECTS :: slots))
        = prolog_dump_objects (.env (.int RESULT_OBJECTS :: slots))
      ∧ prolog_free_results (.env (.int RESULT_EXCEPTION :: slots))
        = prolog_free_exception (.env (.int RESULT_EXCEPTION :: slots))
      ∧ prolog_dump_results (.env (.int RESULT_EXCEPTION :: slots))
        = prolog_dump_exception (.env (.int RESULT_EXCEPTION :: slots)) := by
    intro slots
    simp [prolog_free_results, prolog_dump_results, Word.toInt?, RESULT_ACTIONS,
      RESULT_OBJECTS, RESULT_EXCEPTION]
  have hcollect : collect_result e none t retval = some (0, .env block) := by
    apply next_solution_solved e p.predicate _ retval (.env block) t hsolve
    simp only [prolog_call, Option.map_map] at hcall
    obtain ⟨c, hc, hout⟩ := Option.map_eq_some'.mp hcall
    simp only [Function.comp, Call.outcome] at hout
    rw [hc, ← hout]
  have hbuilt := collect_result_envelope e none t retval block hcollect
  refine ⟨hdispatch, fun exc t1 retval1 block1 h => collect_result_envelope e exc t1 retval1
    block1 h, fun x retval1 w h => collect_exception_shape e x retval1 w h, ?_, ?_⟩
  · intro hact
    rcases hbuilt with h | h | h
    · simp at h
    · rw [h.2.2]
      exact ⟨rfl, (hdispatch _).1, (hdispatch _).2.1⟩
    · rw [hact] at h
      simp at h
  · intro hobj
    rcases hbuilt with h | h | h
    · simp at h
    · rw [hobj] at h
      simp at h
    · rw [h.2.2]
      exact ⟨rfl, (hdispatch _).2.2.1, (hdispatch _).2.2.2.1⟩

set_option maxRecDepth 100000 in
/-- Witness for C8: `set_routes/1` answers with the audio action list; the
envelope is tagged `RESULT_ACTIONS` and goes to the action operations. -/
theorem results_dispatch_on_stored_tag_witness :
    (solving_engine audio_actions).solve set_routes.predicate
        ((va_args set_routes.arity []).map Term.atom) = .solved audio_actions
    ∧ (prolog_call (solving_engine audio_actions) set_routes NULL []).map Call.outcome
        = some (TRUE, .env audio_envelope)
    ∧ is_action_list audio_actions = true
    ∧ audio_envelope = .int RESULT_ACTIONS :: (prolog_walk_list audio_actions
          (collect_actions (solving_engine audio_actions))
          (ALLOC_ARRAY ((prolog_list_length audio_actions).toNat + 1))).2
    ∧ prolog_free_results (.env audio_envelope) = prolog_free_actions (.env audio_envelope)
    ∧ prolog_dump_results (.env audio_envelope) = prolog_dump_actions (.env audio_envelope) :=
  ⟨rfl, by rfl, rfl,
    (results_dispatch_on_stored_tag (solving_engine audio_actions) set_routes NULL []
      audio_actions audio_envelope rfl (by rfl)).2.2.2.1 rfl⟩

/-- C20: the empty list `[]` as return value makes `collect_result` return 0 and
store a list envelope (tagged `RESULT_OBJECTS`) whose only slot is the closing
`NULL`: an envelope with zero rows, not the string `[]` and not an error. -/
theorem collect_result_empty_list (e : Engine) (retval : Word) :
    collect_result e none Term.nil retval = some (0, .env [.int RESULT_OBJECTS, NULL])
    ∧ until_null [NULL] = some [] := by
  constructor <;> rfl

/-- C18: `prolog_flatten_actions` returns `NULL` for a null pointer and for
every envelope whose tag is not `RESULT_ACTIONS` (so for `RESULT_OBJECTS` and
`RESULT_EXCEPTION`), whatever the slots after the tag hold: they are not read. -/
theorem prolog_flatten_actions_other_variant (t : Word) (slots : List Word)
    (htag : t.toInt? ≠ some RESULT_ACTIONS) :
    prolog_flatten_actions NULL = some NULL
    ∧ prolog_flatten_actions (.env (t :: slots)) = some NULL
    ∧ prolog_flatten_actions (.env (.int RESULT_OBJECTS :: slots)) = some NULL
    ∧ prolog_flatten_actions (.env (.int RESULT_EXCEPTION :: slots)) = some NULL := by
  refine ⟨rfl, ?_, ?_, ?_⟩
  · simp [prolog_flatten_actions, htag]
  · simp [prolog_flatten_actions, Word.toInt?, RESULT_OBJECTS, RESULT_ACTIONS]
  · simp [prolog_flatten_actions, Word.toInt?, RESULT_EXCEPTION, RESULT_ACTIONS]

/-- Witness for C18: an objects envelope and an exception envelope. -/
theorem prolog_flatten_actions_other_variant_witness :
    prolog_flatten_actions NULL = some NULL
    ∧ prolog_flatten_actions (.env (.int RESULT_OBJECTS :: [.arr [NULL], NULL])) = some NULL
    ∧ prolog_flatten_actions (.env (.int RESULT_OBJECTS :: [.arr [NULL], NULL])) = some NULL
    ∧ prolog_flatten_actions (.env (.int RESULT_EXCEPTION :: [.arr [NULL], NULL]))
      = some NULL :=
  prolog_flatten_actions_other_variant (.int RESULT_OBJECTS) [.arr [NULL], NULL] (by decide)

set_option maxRecDepth 100000 in
/-- C17, the code at the failing input: the action list `[[a, b], [], [c, d]]`
is decoded with return value 0, but the slot of the empty row holds `NULL`, the
mark that ends the envelope for its readers: `prolog_flatten_actions` returns
`[[a b]]`, `prolog_dump_actions` prints the first action only, and
`prolog_free_actions` frees the first row and the envelope and never the row
`[c, d]` that follows the empty one. -/
theorem empty_row_ends_envelope :
    is_action_list actions_with_empty_row = true
    ∧ collect_result sample_engine none actions_with_empty_row NULL
      = some (0, .env envelope_with_empty_row)
    ∧ prolog_flatten_actions (.env envelope_with_empty_row) = some (.str "[[a b]]".toList)
    ∧ prolog_dump_actions (.env envelope_with_empty_row)
      = some [.printf "(%s" [.str "a".toList], .printf ", %s" [.str "b".toList],
              .printf ")\n" []]
    ∧ prolog_free_actions (.env envelope_with_empty_row)
      = some [.free (.str "a".toList), .free (.str "b".toList),
              .free (.arr [.str "a".toList, .str "b".toList, NULL]),
              .free (.arr envelope_with_empty_row)] := by
  refine ⟨by rfl, by rfl, by rfl, by rfl, by rfl⟩

theorem prolog_list_length_not_list (first : Term) (hlist : PL_is_list first = false)
    (hvar : PL_term_type first ≠ PL_VARIABLE) : prolog_list_length first = -1 := by
  cases first <;> simp_all [PL_is_list, PL_term_type, prolog_list_length]

theorem PL_get_list_not_list (first : Term) (hlist : PL_is_list first = false) :
    PL_get_list first = none := by
  cases first <;> simp_all [PL_is_list, PL_get_list]

/-- C11 as amended: for every list whose first element is neither a list nor an
unbound variable, `is_action_list` answers `FALSE`, which sends the list to the
object collector; `collect_objects` rejects the first element with `EINVAL`,
and `collect_result` returns ` EIO` and leaves the result slot as it was. The
empty list does not fail: it is decoded as an objects envelope without rows. -/
theorem collect_result_first_not_list (e : Engine) (first tail : Term) (retval : Word)
    (objects : List Word) (hlist : PL_is_list first = false)
    (hvar : PL_term_type first ≠ PL_VARIABLE) :
    is_action_list (.cons first tail) = false
    ∧ collect_objects e first 0 objects = (EINVAL, objects)
    ∧ (prolog_walk_list (.cons first tail) (collect_objects e) objects).1 = EINVAL
    ∧ collect_result e none (.cons first tail) retval = some ( EIO, retval)
    ∧ collect_result e none Term.nil retval = some (0, .env [.int RESULT_OBJECTS, NULL]) := by
  have hlen := prolog_list_length_not_list first hlist hvar
  have hget := PL_get_list_not_list first hlist
  have hact : is_action_list (.cons first tail) = false := by
    simp [is_action_list, PL_get_head, hget]
  have hobj : ∀ objects : List Word, collect_objects e first 0 objects = (EINVAL, objects) := by
    intro objects
    simp [collect_objects, hlen]
  have hwalk : ∀ objects : List Word,
      (prolog_walk_list (.cons first tail) (collect_objects e) objects).1 = EINVAL := by
    intro objects
    simp [prolog_walk_list, prolog_walk_from, hobj, EINVAL]
  refine ⟨hact, hobj objects, hwalk objects, ?_, rfl⟩
  have hty : PL_term_type (.cons first tail) = PL_TERM := rfl
  have hl : PL_is_list (.cons first tail) = true := rfl
  simp only [collect_result, Option.isSome_none, Bool.false_eq_true, if_false, hty, hl,
    Bool.not_true, collect_list, hact, hwalk]
  by_cases hn : prolog_list_length (.cons first tail) < 0
  · simp [hn]
  · simp [hn, EINVAL]

/-- Witness for C11: the list `[a, b]`, whose first element is an atom. -/
theorem collect_result_first_not_list_witness :
    is_action_list (.cons (atom "a") (Term.ofList [atom "b"])) = false
    ∧ collect_objects sample_engine (atom "a") 0 [NULL, NULL, NULL]
      = (EINVAL, [NULL, NULL, NULL])
    ∧ (prolog_walk_list (.cons (atom "a") (Term.ofList [atom "b"]))
        (collect_objects sample_engine) [NULL, NULL, NULL]).1 = EINVAL
    ∧ collect_result sample_engine none (.cons (atom "a") (Term.ofList [atom "b"])) NULL
      = some ( EIO, NULL)
    ∧ collect_result sample_engine none Term.nil NULL
      = some (0, .env [.int RESULT_OBJECTS, NULL]) :=
  collect_result_first_not_list sample_engine (atom "a") (Term.ofList [atom "b"]) NULL
    [NULL, NULL, NULL] rfl (by decide)

/-- Counterexample to C11 as stated: the empty list, and the list `[_]` whose
first element is an unbound variable and no list, are both decoded with return
value 0 into an envelope tagged `RESULT_OBJECTS`; and on `[a, b]`, whose first
element is an atom, the object collector is run (and returns `EINVAL`). -/
theorem collect_result_malformed_not_rejected :
    collect_result sample_engine none Term.nil (.str "old".toList)
      = some (0, .env [.int RESULT_OBJECTS, NULL])
    ∧ PL_is_list (.var 0) = false
    ∧ collect_result sample_engine none (Term.ofList [.var 0]) (.str "old".toList)
      = some (0, .env [.int RESULT_OBJECTS, NULL, NULL])
    ∧ prolog_walk_list (Term.ofList [atom "a", atom "b"]) (collect_objects sample_engine)
        [NULL, NULL, NULL] = (EINVAL, [NULL, NULL, NULL]) := by
  refine ⟨by rfl, by rfl, by rfl, by rfl⟩

/-- While the callback returns 0 the traced walk moves on, one call per cell. -/
theorem walk_traced_cells {σ : Type} (callback : Term → Nat → σ → Int × σ)
    (cells : List Term) (rest : Term) (i : Nat) (data : σ) (log : List (Term × Nat))
    (hzero : all_zero callback cells i data) :
    prolog_walk_from (traced callback) (Term.ofCells cells rest) i (data, log)
      = prolog_walk_from (traced callback) rest (i + cells.length)
          (final_data callback cells i data, log ++ indexed cells i) := by
  induction cells generalizing i data log with
  | nil => simp [Term.ofCells, final_data, indexed]
  | cons t ts ih =>
    obtain ⟨h0, hrest⟩ := hzero
    simp only [Term.ofCells, prolog_walk_from, traced, h0, ne_eq, not_true_eq_false,
      if_false]
    rw [ih (i + 1) _ _ hrest]
    simp only [final_data, indexed, List.length_cons, List.append_assoc, List.singleton_append]
    rw [show i + 1 + ts.length = i + (ts.length + 1) by omega]

/-- The same walk without the record. -/
theorem walk_cells {σ : Type} (callback : Term → Nat → σ → Int × σ)
    (cells : List Term) (rest : Term) (i : Nat) (data : σ)
    (hzero : all_zero callback cells i data) :
    prolog_walk_from callback (Term.ofCells cells rest) i data
      = prolog_walk_from callback rest (i + cells.length) (final_data callback cells i data) := by
  induction cells generalizing i data with
  | nil => simp [Term.ofCells, final_data]
  | cons t ts ih =>
    obtain ⟨h0, hrest⟩ := hzero
    simp only [Term.ofCells, prolog_walk_from, h0, ne_eq, not_true_eq_false, if_false]
    rw [ih (i + 1) _ hrest]
    simp only [final_data, List.length_cons]
    rw [show i + 1 + ts.length = i + (ts.length + 1) by omega]

theorem indexed_append (xs ys : List Term) (i : Nat) :
    indexed (xs ++ ys) i = indexed xs i ++ indexed ys (i + xs.length) := by
  induction xs generalizing i with
  | nil => simp [indexed]
  | cons t ts ih =>
    have h := ih (i + 1)
    rw [show i + 1 + ts.length = i + (ts.length + 1) by omega] at h
    show (t, i) :: indexed (ts ++ ys) (i + 1)
      = (t, i) :: indexed ts (i + 1) ++ indexed ys (i + (ts.length + 1))
    rw [h]
    rfl

theorem indexed_length (xs : List Term) (i : Nat) : (indexed xs i).length = xs.length := by
  induction xs generalizing i with
  | nil => rfl
  | cons t ts ih => simp [indexed, ih]

theorem walk_not_cell {σ : Type} (callback : Term → Nat → σ → Int × σ) (tail : Term)
    (i : Nat) (data : σ) (htail : PL_get_list tail = none) :
    prolog_walk_from callback tail i data = (0, data) := by
  cases tail <;> simp_all [PL_get_list, prolog_walk_from]

/-- C15: for every term made of `n` list cells followed by a tail that is not a
list cell (the empty list or any other term), and every callback that returns
0 on each element, `prolog_walk_list` returns 0 after calling the callback
exactly `n` times: on the heads of the cells, in term order, with the indices
0, 1, ..., n-1. A tail that is not `[]` ends the walk like `[]` does. -/
theorem prolog_walk_list_visits_all {σ : Type} (callback : Term → Nat → σ → Int × σ)
    (cells : List Term) (tail : Term) (data : σ) (htail : PL_get_list tail = none)
    (hzero : all_zero callback cells 0 data) :
    prolog_walk_list (Term.ofCells cells tail) (traced callback) (data, [])
      = (0, (final_data callback cells 0 data, indexed cells 0))
    ∧ (indexed cells 0).length = cells.length
    ∧ prolog_walk_list (Term.ofCells cells tail) callback data
      = (0, final_data callback cells 0 data) := by
  refine ⟨?_, indexed_length cells 0, ?_⟩
  · rw [prolog_walk_list, walk_traced_cells callback cells tail 0 data [] hzero,
      walk_not_cell _ _ _ _ htail]
    simp
  · rw [prolog_walk_list, walk_cells callback cells tail 0 data hzero,
      walk_not_cell _ _ _ _ htail]

/-- Witness for C15: the cells `a`, `b` followed by the improper tail `c`, walked
with `collect_action`. -/
theorem prolog_walk_list_visits_all_witness :
    prolog_walk_list (Term.ofCells [atom "a", atom "b"] (atom "c"))
        (traced (collect_action sample_engine)) ([NULL, NULL, NULL], [])
      = (0, (final_data (collect_action sample_engine) [atom "a", atom "b"] 0
          [NULL, NULL, NULL], indexed [atom "a", atom "b"] 0))
    ∧ (indexed [atom "a", atom "b"] 0).length = [atom "a", atom "b"].length
    ∧ prolog_walk_list (Term.ofCells [atom "a", atom "b"] (atom "c"))
        (collect_action sample_engine) [NULL, NULL, NULL]
      = (0, final_data (collect_action sample_engine) [atom "a", atom "b"] 0
          [NULL, NULL, NULL]) :=
  prolog_walk_list_visits_all (collect_action sample_engine) [atom "a", atom "b"] (atom "c")
    [NULL, NULL, NULL] rfl ⟨rfl, rfl, trivial⟩

theorem ofCells_snoc (cells : List Term) (x rest : Term) :
    Term.ofCells (cells ++ [x]) rest = Term.ofCells cells (.cons x rest) := by
  induction cells with
  | nil => rfl
  | cons t ts ih => simp [Term.ofCells, ih]

/-- C14: when the callback returns 0 on the elements before index `k` and a
non-zero value on element `k`, `prolog_walk_list` returns that value, the data
is what the call on element `k` left, and the callback was called exactly on
the elements 0..k, once each and in order, whatever follows element `k`. -/
theorem prolog_walk_list_stops_at_error {σ : Type} (callback : Term → Nat → σ → Int × σ)
    (before : List Term) (x rest : Term) (data : σ)
    (hzero : all_zero callback before 0 data)
    (herr : (callback x before.length (final_data callback before 0 data)).1 ≠ 0) :
    prolog_walk_list (Term.ofCells (before ++ [x]) rest) (traced callback) (data, [])
      = ((callback x before.length (final_data callback before 0 data)).1,
         ((callback x before.length (final_data callback before 0 data)).2,
          indexed (before ++ [x]) 0))
    ∧ prolog_walk_list (Term.ofCells (before ++ [x]) rest) callback data
      = callback x before.length (final_data callback before 0 data) := by
  have hcells := ofCells_snoc before x rest
  constructor
  · rw [prolog_walk_list, hcells, walk_traced_cells callback before _ 0 data [] hzero]
    simp only [Nat.zero_add, List.nil_append, prolog_walk_from, traced, ne_eq, herr,
      not_false_eq_true, if_true, indexed_append, indexed]
  · rw [prolog_walk_list, hcells, walk_cells callback before _ 0 data hzero]
    simp only [Nat.zero_add, prolog_walk_from, ne_eq, herr, not_false_eq_true, if_true]

theorem store_some (buf : Buffer) (p : Nat) (cells : Buffer)
    (h : p + cells.length ≤ buf.length) :
    store buf p cells = some (buf.take p ++ cells ++ buf.drop (p + cells.length)) := by
  simp [store, h]

theorem size_t_of_nonneg (n : Int) (h0 : 0 ≤ n) (h1 : n ≤ 1023) : size_t n = n.toNat := by
  rw [size_t, Int.emod_eq_of_lt h0 (by omega)]

/-- The first `APPEND` of `parse_exception`, whatever the array held before. -/
theorem APPEND_start (buf : Buffer) (hlen : buf.length = 1024) (text : CString) :
    ∃ st', APPEND { buf := buf, ep := 0, left := 1023 } text = some st' ∧ st'.readable
      ∧ st'.left = 1023 - text.length := by
  have hsize : size_t 1023 = 1023 := by rfl
  have hcells : ((text.take 1022).map Byte.chr ++ [Byte.nul]).length ≤ 1023 := by
    simp only [List.length_append, List.length_map, List.length_take, List.length_singleton]
    omega
  have hstore := store_some buf 0 ((text.take 1022).map Byte.chr ++ [Byte.nul]) (by omega)
  refine ⟨{ buf := buf.take 0 ++ ((text.take 1022).map Byte.chr ++ [Byte.nul])
              ++ buf.drop (0 + ((text.take 1022).map Byte.chr ++ [Byte.nul]).length),
            ep := 0 + text.length, left := 1023 - text.length }, ?_, ?_, rfl⟩
  · simp only [APPEND, snprintf, hsize, Nat.reduceEqDiff, if_false, Nat.add_one_sub_one,
      hstore, Option.map_some', Nat.reduceSub]
  · refine ⟨?_, ?_, text.take 1022, buf.drop ((text.take 1022).length + 1), ?_, ?_, ?_⟩
    · simp only [List.take_zero, List.nil_append, List.length_append, List.length_map,
        List.length_take, List.length_singleton, List.length_drop, Nat.zero_add, hlen]
      omega
    · simp only [Nat.zero_add]
      omega
    · simp
    · simp only [List.length_take, Nat.zero_add]
      omega
    · intro hpos
      dsimp only at hpos
      simp only [List.length_take, Nat.zero_add]
      omega

/-- A later `APPEND` with `left` not negative stays inside the array. -/
theorem APPEND_next (st : Fmt) (text : CString) (hr : st.readable) (h0 : 0 ≤ st.left) :
    ∃ st', APPEND st text = some st' ∧ st'.readable
      ∧ st'.left = st.left - text.length := by
  obtain ⟨hlen, hep, s, rest, hbuf, hle, hpos⟩ := hr
  have h1 : st.left ≤ 1023 := by omega
  have hsize := size_t_of_nonneg st.left h0 h1
  by_cases hz : st.left = 0
  · refine ⟨{ buf := st.buf, ep := st.ep + text.length, left := st.left - text.length },
      ?_, ?_, rfl⟩
    · have hs0 : size_t st.left = 0 := by rw [hsize, hz]; rfl
      simp only [APPEND, snprintf, hs0, if_true, Option.map_some']
    · refine ⟨hlen, ?_, s, rest, hbuf, ?_, ?_⟩
      · simp only [Nat.cast_add]
        omega
      · simp only
        omega
      · intro h
        simp only at h
        omega
  · have hposl : 0 < st.left := by omega
    have hs := hpos hposl
    have hne : ¬ (st.left.toNat = 0) := by omega
    have hrest : rest.length = 1023 - s.length := by
      have := hlen
      rw [hbuf] at this
      simp only [List.length_append, List.length_map, List.length_cons] at this
      omega
    have hcl : ((text.take (st.left.toNat - 1)).map Byte.chr ++ [Byte.nul]).length
        = min (st.left.toNat - 1) text.length + 1 := by
      simp only [List.length_append, List.length_map, List.length_take, List.length_singleton]
    have hfits : st.ep + ((text.take (st.left.toNat - 1)).map Byte.chr ++ [Byte.nul]).length
        ≤ st.buf.length := by
      rw [hcl, hlen]
      omega
    have hstore := store_some st.buf st.ep _ hfits
    have htake : st.buf.take st.ep = s.map Byte.chr := by
      rw [hbuf, ← hs, List.take_append_eq_append_take]
      simp
    refine ⟨{ buf := st.buf.take st.ep
                ++ ((text.take (st.left.toNat - 1)).map Byte.chr ++ [Byte.nul])
                ++ st.buf.drop (st.ep
                  + ((text.take (st.left.toNat - 1)).map Byte.chr ++ [Byte.nul]).length),
              ep := st.ep + text.length, left := st.left - text.length }, ?_, ?_, rfl⟩
    · simp only [APPEND, snprintf, hsize, hne, if_false, hstore, Option.map_some']
    · refine ⟨?_, ?_, s ++ text.take (st.left.toNat - 1),
        st.buf.drop (st.ep
          + ((text.take (st.left.toNat - 1)).map Byte.chr ++ [Byte.nul]).length), ?_, ?_, ?_⟩
      · simp only [List.length_append, List.length_take, List.length_drop, hcl, hlen]
        omega
      · simp only [Nat.cast_add]
        omega
      · simp only [htake, List.map_append, List.append_assoc, List.singleton_append]
      · simp only [List.length_append, List.length_take]
        omega
      · intro h
        simp only at h
        simp only [List.length_append, List.length_take]
        omega

theorem Fmt.readable_cstring (st : Fmt) (hr : st.readable) : ∃ s, cstring st.buf = some s := by
  obtain ⟨-, -, s, rest, hbuf, -, -⟩ := hr
  exact ⟨s, by rw [hbuf]; exact cstring_text s rest⟩

theorem PL_get_name_arity_compound (t : Term) (h : PL_is_compound t = true) :
    ∃ name arity, PL_get_name_arity t = some (name, arity) := by
  cases t <;> simp_all [PL_is_compound, PL_get_name_arity]

theorem APPEND_last (st : Fmt) (text : CString) (hr : st.readable) (h0 : 0 ≤ st.left) :
    ∃ s, (APPEND st text).bind (fun st => cstring st.buf) = some s := by
  obtain ⟨st', h, hr', -⟩ := APPEND_next st text hr h0
  obtain ⟨s, hs⟩ := Fmt.readable_cstring st' hr'
  exact ⟨s, by rw [h]; exact hs⟩

/-- When the texts fit, `parse_exception` returns a string. -/
theorem parse_exception_defined (e : Engine) (x : Term) (hfit : rendering_fits e x) :
    ∃ s, parse_exception e x = some s := by
  have h1023 : ((1024 : Int) - 1) = 1023 := rfl
  have hwrite : ∀ t, PL_get_chars e t .CVT_WRITE = some (e.write t) := fun _ => rfl
  have hlen : (List.replicate 1024 Byte.indet).length = 1024 := List.length_replicate _ _
  unfold parse_exception
  simp only [h1023, hwrite]
  by_cases hc : PL_is_compound ((PL_get_arg 1 x).getD (.var 0)) = true
  · obtain ⟨name, arity, hna⟩ := PL_get_name_arity_compound _ hc
    obtain ⟨hname, hkind⟩ := hfit hc name arity hna
    obtain ⟨st1, h1, hr1, hl1⟩ := APPEND_start _ hlen name
    simp only [hc, if_true, hna, h1, Option.bind_eq_bind, Option.some_bind]
    by_cases har : arity = 2
    · obtain ⟨st2, h2, hr2, hl2⟩ := APPEND_next st1
        (": ".toList ++ e.write ((PL_get_arg 1 ((PL_get_arg 1 x).getD (.var 0))).getD (.var 0)))
        hr1 (by omega)
      have hl : ": ".toList.length = 2 := rfl
      have h0 : 0 ≤ st2.left := by
        have := hkind har
        rw [hl2, hl1, List.length_append, hl]
        omega
      simp only [har, ne_eq, not_true_eq_false, if_false, h2, Option.some_bind]
      split
      · exact APPEND_last st2 _ hr2 h0
      · split
        · exact APPEND_last st2 _ hr2 h0
        · exact APPEND_last st2 _ hr2 h0
    · simp only [har, ne_eq, not_false_eq_true, if_true]
      exact APPEND_last st1 _ hr1 (by omega)
  · obtain ⟨st1, h1, hr1, -⟩ := APPEND_start _ hlen "unknown prolog exception".toList
    obtain ⟨s, hs⟩ := Fmt.readable_cstring st1 hr1
    simp only [hc, Bool.false_eq_true, if_false, h1, Option.bind_eq_bind, Option.some_bind]
    exact ⟨s, hs⟩

theorem collect_exception_error (e : Engine) (formal context : Term) (retval : Word) :
    collect_exception e (some (.compound "error".toList [formal, context])) retval
      = (parse_exception e (.compound "error".toList [formal, context])).map
          fun s => (0, Word.env [.int RESULT_EXCEPTION, .str s, NULL]) := by
  simp only [collect_exception, PL_is_compound, PL_get_name_arity, List.length_cons,
    List.length_nil, Bool.not_true, and_self, if_true]
  rfl

theorem collect_exception_other (e : Engine) (x : Term) (retval : Word)
    (hcompound : PL_is_compound x = true)
    (hnot : PL_get_name_arity x ≠ some ("error".toList, 2)) :
    collect_exception e (some x) retval
      = some (0, .env [.int RESULT_EXCEPTION, .str "unknown prolog exception".toList, NULL]) := by
  obtain ⟨name, arity, hna⟩ := PL_get_name_arity_compound x hcompound
  have hcond : ¬ (arity = 2 ∧ name = "error".toList) := by
    rintro ⟨rfl, rfl⟩
    exact hnot hna
  simp only [collect_exception, hcompound, Bool.not_true, Bool.false_eq_true, if_false, hna,
    hcond, Option.map_some']

theorem parse_exception_fallback (e : Engine) (formal context : Term)
    (hformal : PL_is_compound formal = false) :
    parse_exception e (.compound "error".toList [formal, context])
      = some "unknown prolog exception".toList := by
  obtain ⟨st1, h1, -, hc1⟩ := APPEND_holds _ [] "unknown prolog exception".toList
    Fmt.holds_start (by decide)
  have hf : PL_get_arg 1 (.compound "error".toList [formal, context]) = some formal := rfl
  unfold parse_exception
  simp only [hf, Option.getD_some, hformal, Bool.false_eq_true, if_false, h1,
    Option.bind_eq_bind, Option.some_bind]
  exact hc1

theorem parse_exception_unknown_details (e : Engine) (formal context : Term)
    (name : CString) (arity : Nat) (hcompound : PL_is_compound formal = true)
    (hname : PL_get_name_arity formal = some (name, arity)) (harity : arity ≠ 2)
    (hfit : (name ++ " (unknown details)".toList).length ≤ 1022) :
    parse_exception e (.compound "error".toList [formal, context])
      = some (name ++ " (unknown details)".toList) := by
  obtain ⟨st1, h1, hh1, -⟩ := APPEND_holds _ [] name Fmt.holds_start
    (by rw [List.length_append] at hfit; simp only [List.nil_append]; omega)
  obtain ⟨st2, h2, -, hc2⟩ := APPEND_holds st1 ([] ++ name) " (unknown details)".toList hh1
    (by simpa using hfit)
  have hf : PL_get_arg 1 (.compound "error".toList [formal, context]) = some formal := rfl
  unfold parse_exception
  simp only [hf, Option.getD_some, hcompound, if_true, hname, h1, Option.bind_eq_bind,
    Option.some_bind, ne_eq, harity, not_false_eq_true, h2]
  simpa using hc2

/-- C13 as amended: a raised compound term that is not `error/2`, and a term
`error(Formal, Context)` whose `Formal` is not compound, are both rendered as
`unknown prolog exception`; a term `error(Formal, Context)` whose `Formal` is a
compound of arity other than 2 is rendered as the name of `Formal` followed by
` (unknown details)` (when that text is at most 1022 characters long). -/
theorem exception_decoder_fallback (e : Engine) (other formal context formal2 context2 : Term)
    (name : CString) (arity : Nat) (retval : Word)
    (hother : PL_is_compound other = true)
    (hnot : PL_get_name_arity other ≠ some ("error".toList, 2))
    (hformal : PL_is_compound formal = false)
    (hcompound : PL_is_compound formal2 = true)
    (hname : PL_get_name_arity formal2 = some (name, arity)) (harity : arity ≠ 2)
    (hfit : (name ++ " (unknown details)".toList).length ≤ 1022) :
    collect_exception e (some other) retval
      = some (0, .env [.int RESULT_EXCEPTION, .str "unknown prolog exception".toList, NULL])
    ∧ collect_exception e (some (.compound "error".toList [formal, context])) retval
      = some (0, .env [.int RESULT_EXCEPTION, .str "unknown prolog exception".toList, NULL])
    ∧ collect_exception e (some (.compound "error".toList [formal2, context2])) retval
      = some (0, .env [.int RESULT_EXCEPTION,
          .str (name ++ " (unknown details)".toList), NULL]) := by
  refine ⟨collect_exception_other e other retval hother hnot, ?_, ?_⟩
  · rw [collect_exception_error, parse_exception_fallback e formal context hformal]
    rfl
  · rw [collect_exception_error,
      parse_exception_unknown_details e formal2 context2 name arity hcompound hname harity hfit]
    rfl

set_option maxRecDepth 100000 in
/-- Witness for C13: `foo(bar)`, `error(foo, _)` and `error(foo(bar), _)`. -/
theorem exception_decoder_fallback_witness :
    collect_exception sample_engine (some (.compound "foo".toList [atom "bar"])) NULL
      = some (0, .env [.int RESULT_EXCEPTION, .str "unknown prolog exception".toList, NULL])
    ∧ collect_exception sample_engine
        (some (.compound "error".toList [atom "foo", .var 1])) NULL
      = some (0, .env [.int RESULT_EXCEPTION, .str "unknown prolog exception".toList, NULL])
    ∧ collect_exception sample_engine
        (some (.compound "error".toList [.compound "foo".toList [atom "bar"], .var 1])) NULL
      = some (0, .env [.int RESULT_EXCEPTION,
          .str ("foo".toList ++ " (unknown details)".toList), NULL]) :=
  exception_decoder_fallback sample_engine (.compound "foo".toList [atom "bar"])
    (atom "foo") (.var 1) (.compound "foo".toList [atom "bar"]) (.var 1) "foo".toList 1 NULL
    rfl (by decide) rfl rfl rfl (by decide) (by decide)

set_option maxRecDepth 100000 in
/-- Counterexample to C13 as stated: for `error(foo(bar), _)`, whose formal part
is a compound of arity 1, the diagnostic string is `foo (unknown details)` and
not `unknown prolog exception`. -/
theorem exception_decoder_names_formal :
    collect_exception sample_engine
        (some (.compound "error".toList [.compound "foo".toList [atom "bar"], .var 1])) NULL
      = some (0, .env [.int RESULT_EXCEPTION, .str "foo (unknown details)".toList, NULL])
    ∧ "foo (unknown details)".toList ≠ "unknown prolog exception".toList := by
  refine ⟨by rfl, by decide⟩

/-- C12 as amended: for every raised term that is compound (and, when it is an
`error/2` term, has a formal part whose texts fit the array of
`parse_exception`), `collect_exception` returns 0 and stores an envelope tagged
`RESULT_EXCEPTION` that holds a diagnostic string; for a raised term that is
not compound it returns `EINVAL` and leaves the result slot as it was. -/
theorem collect_exception_total_on_compound (e : Engine) (x a : Term) (retval : Word)
    (hcompound : PL_is_compound x = true)
    (hfit : PL_get_name_arity x = some ("error".toList, 2) → rendering_fits e x)
    (hatomic : PL_is_compound a = false) :
    (∃ s, collect_exception e (some x) retval
        = some (0, .env [.int RESULT_EXCEPTION, .str s, NULL]))
    ∧ collect_exception e (some a) retval = some (EINVAL, retval) := by
  constructor
  · by_cases herr : PL_get_name_arity x = some ("error".toList, 2)
    · obtain ⟨s, hs⟩ := parse_exception_defined e x (hfit herr)
      refine ⟨s, ?_⟩
      simp only [collect_exception, hcompound, Bool.not_true, Bool.false_eq_true, if_false,
        herr, and_self, if_true, hs, Option.map_some']
    · exact ⟨_, collect_exception_other e x retval hcompound herr⟩
  · simp [collect_exception, hatomic]

/-- Counterexample to C12 as stated: the raised atom `foo` (as in `throw(foo)`)
makes `collect_exception`, and `collect_result` with it, return `EINVAL`
without any envelope. -/
theorem collect_exception_rejects_atom :
    collect_exception sample_engine (some (atom "foo")) (.str "old".toList)
      = some (EINVAL, .str "old".toList)
    ∧ collect_result sample_engine (some (atom "foo")) (.var 0) (.str "old".toList)
      = some (EINVAL, .str "old".toList) := by
  refine ⟨by rfl, by rfl⟩

theorem type_error_term_fits : rendering_fits sample_engine type_error_term := by
  intro _ name arity h
  have hf : (PL_get_arg 1 type_error_term).getD (.var 0)
      = .compound "type_error".toList [atom "integer", atom "foo"] := rfl
  rw [hf] at h ⊢
  have hna : PL_get_name_arity (.compound "type_error".toList [atom "integer", atom "foo"])
      = some ("type_error".toList, 2) := rfl
  rw [hna] at h
  simp only [Option.some.injEq, Prod.mk.injEq] at h
  obtain ⟨rfl, rfl⟩ := h
  exact ⟨by decide, fun _ => by decide⟩

/-- Witness for C12: the compound term `error(type_error(integer, foo), ...)`
and the atom `foo`. -/
theorem collect_exception_total_on_compound_witness :
    (∃ s, collect_exception sample_engine (some type_error_term) NULL
        = some (0, .env [.int RESULT_EXCEPTION, .str s, NULL]))
    ∧ collect_exception sample_engine (some (atom "foo")) NULL = some (EINVAL, NULL) :=
  collect_exception_total_on_compound sample_engine type_error_term (atom "foo") NULL rfl
    (fun _ => type_error_term_fits) rfl

/-- Witness for C14: the list `[a, _, b]` walked with `collect_action`, which
rejects the unbound variable at index 1. -/
theorem prolog_walk_list_stops_at_error_witness :
    prolog_walk_list (Term.ofCells ([atom "a"] ++ [.var 0]) (Term.ofList [atom "b"]))
        (traced (collect_action sample_engine)) ([NULL, NULL, NULL, NULL], [])
      = ((collect_action sample_engine (.var 0) [atom "a"].length
            (final_data (collect_action sample_engine) [atom "a"] 0
              [NULL, NULL, NULL, NULL])).1,
         ((collect_action sample_engine (.var 0) [atom "a"].length
            (final_data (collect_action sample_engine) [atom "a"] 0
              [NULL, NULL, NULL, NULL])).2,
          indexed ([atom "a"] ++ [.var 0]) 0))
    ∧ prolog_walk_list (Term.ofCells ([atom "a"] ++ [.var 0]) (Term.ofList [atom "b"]))
        (collect_action sample_engine) [NULL, NULL, NULL, NULL]
      = collect_action sample_engine (.var 0) [atom "a"].length
          (final_data (collect_action sample_engine) [atom "a"] 0 [NULL, NULL, NULL, NULL]) :=
  prolog_walk_list_stops_at_error (collect_action sample_engine) [atom "a"] (.var 0)
    (Term.ofList [atom "b"]) [NULL, NULL, NULL, NULL] ⟨rfl, trivial⟩ (by decide)

theorem PL_get_chars_pair (e : Engine) (f v rest : Term)
    (hv : PL_term_type v = PL_TERM ∨ PL_term_type v = PL_VARIABLE) :
    PL_get_chars e (.cons f (.cons v rest)) .CVT_ALL = none := by
  have hcodes : codes_text (.cons v rest) = none := by
    cases v <;> simp_all [PL_term_type, codes_text]
  have hchars : chars_text (.cons v rest) = none := by
    cases v <;> simp_all [PL_term_type, chars_text]
  have h1 : codes_text (.cons f (.cons v rest)) = none := by
    cases f <;> simp [codes_text, hcodes]
  have h2 : chars_text (.cons f (.cons v rest)) = none := by
    cases f with
    | atom name =>
      cases name with
      | nil => simp [chars_text]
      | cons c cs =>
        cases cs with
        | nil => simp [chars_text, hchars]
        | cons c2 cs2 => simp [chars_text]
    | _ => simp [chars_text]
  simp [PL_get_chars, h1, h2]

theorem collect_object_nested_value (e : Engine) (f v : Term) (i : Nat) (object : List Word)
    (hv : PL_term_type v = PL_TERM ∨ PL_term_type v = PL_VARIABLE) :
    collect_object e (Term.ofList [f, v]) i object = (EINVAL, object) := by
  have hpair := PL_get_chars_pair e f v Term.nil hv
  by_cases hi : i = 0
  · subst hi
    simp only [collect_object, if_true, Term.ofList, hpair]
  · simp only [collect_object, hi, if_false, Term.ofList, PL_get_list, PL_get_head]
    cases hf : PL_get_chars e f .CVT_ALL with
    | none => rfl
    | some field =>
      rcases hv with h | h <;> simp only [h]

theorem collect_action_nested_value (e : Engine) (f v : Term) (i : Nat) (action : List Word)
    (hv : PL_term_type v = PL_TERM ∨ PL_term_type v = PL_VARIABLE) :
    collect_action e (Term.ofList [f, v]) i action = (EINVAL, action) := by
  simp only [collect_action, Term.ofList, PL_get_chars_pair e f v Term.nil hv]

/-- A walk over a proper list fails when one element makes the callback fail
whenever it is called on it. -/
theorem walk_fails {σ : Type} (callback : Term → Nat → σ → Int × σ) (items : List Term)
    (x : Term) (hx : x ∈ items) (hbad : ∀ i data, (callback x i data).1 ≠ 0) (i : Nat)
    (data : σ) : (prolog_walk_from callback (Term.ofList items) i data).1 ≠ 0 := by
  induction items generalizing i data with
  | nil => simp at hx
  | cons t ts ih =>
    simp only [Term.ofList, prolog_walk_from]
    by_cases hz : (callback t i data).1 = 0
    · simp only [hz, ne_eq, not_true_eq_false, if_false]
      rcases List.mem_cons.mp hx with h | h
      · subst h
        exact absurd hz (hbad i data)
      · exact ih h _ _
    · simp only [ne_eq, hz, not_false_eq_true, if_true]

theorem collect_objects_fails (e : Engine) (items : List Term) (x : Term) (hx : x ∈ items)
    (hbad : ∀ i data, (collect_object e x i data).1 ≠ 0) (i : Nat) (objects : List Word) :
    (collect_objects e (Term.ofList items) i objects).1 ≠ 0
    ∧ (collect_objects e (Term.ofList items) i objects).2 = objects := by
  have hlen : 0 < items.length := List.length_pos_of_mem hx
  have h1 : ¬ ((items.length : Int) < 0) := by omega
  have h2 : (0 : Int) < (items.length : Int) := by omega
  have hw := walk_fails (collect_object e) items x hx hbad 0
    (ALLOC_ARRAY (3 * items.length + 1))
  simp only [collect_objects, prolog_list_length_ofList, h1, h2, if_false, if_true, gt_iff_lt,
    Int.toNat_ofNat, prolog_walk_list, ne_eq, hw, not_false_eq_true, if_true, and_self]

theorem collect_actions_fails (e : Engine) (items : List Term) (x : Term) (hx : x ∈ items)
    (hbad : ∀ i data, (collect_action e x i data).1 ≠ 0) (i : Nat) (actions : List Word) :
    (collect_actions e (Term.ofList items) i actions).1 ≠ 0 := by
  have hlen : 0 < items.length := List.length_pos_of_mem hx
  have h1 : ¬ ((items.length : Int) < 0) := by omega
  have h2 : (0 : Int) < (items.length : Int) := by omega
  have hw := walk_fails (collect_action e) items x hx hbad 0 (ALLOC_ARRAY (items.length + 1))
  simp only [collect_actions, prolog_list_length_ofList, h1, h2, if_false, if_true, gt_iff_lt,
    Int.toNat_ofNat, prolog_walk_list, ne_eq, hw, not_false_eq_true, if_true]

/-- C16 as amended: for every object row that contains a pair `[F, V]` whose
value `V` is a list cell (a non-empty list), another compound term or an
unbound variable, `collect_object` returns `EINVAL` for that pair, the row is
not collected, and `collect_result` on a list that holds the row returns ` EIO`
and leaves the result slot as it was. -/
theorem nested_field_value_rejected (e : Engine) (f v : Term) (items rows : List Term)
    (i : Nat) (object objects : List Word) (retval : Word)
    (hv : PL_term_type v = PL_TERM ∨ PL_term_type v = PL_VARIABLE)
    (hitem : Term.ofList [f, v] ∈ items) (hrow : Term.ofList items ∈ rows) :
    collect_object e (Term.ofList [f, v]) i object = (EINVAL, object)
    ∧ (collect_objects e (Term.ofList items) i objects).1 ≠ 0
    ∧ (collect_objects e (Term.ofList items) i objects).2 = objects
    ∧ collect_result e none (Term.ofList rows) retval = some ( EIO, retval) := by
  have hobj : ∀ i data, (collect_object e (Term.ofList [f, v]) i data).1 ≠ 0 := by
    intro i data
    rw [collect_object_nested_value e f v i data hv]
    simp [EINVAL]
  have hact : ∀ i data, (collect_action e (Term.ofList [f, v]) i data).1 ≠ 0 := by
    intro i data
    rw [collect_action_nested_value e f v i data hv]
    simp [EINVAL]
  have hrowo := fun i data => (collect_objects_fails e items _ hitem hobj i data).1
  have hrowa := fun i data => collect_actions_fails e items _ hitem hact i data
  refine ⟨collect_object_nested_value e f v i object hv,
    (collect_objects_fails e items _ hitem hobj i objects).1,
    (collect_objects_fails e items _ hitem hobj i objects).2, ?_⟩
  obtain ⟨r0, rs, hrs⟩ : ∃ r0 rs, rows = r0 :: rs := by
    cases rows with
    | nil => simp at hrow
    | cons a b => exact ⟨a, b, rfl⟩
  have hty : PL_term_type (Term.ofList rows) = PL_TERM := by rw [hrs]; rfl
  have hl : PL_is_list (Term.ofList rows) = true := by rw [hrs]; rfl
  have hn : ¬ ((rows.length : Int) < 0) := by omega
  have hwo := walk_fails (collect_objects e) rows _ hrow hrowo 0
    (ALLOC_ARRAY (rows.length + 1))
  have hwa := walk_fails (collect_actions e) rows _ hrow hrowa 0
    (ALLOC_ARRAY (rows.length + 1))
  simp only [collect_result, Option.isSome_none, Bool.false_eq_true, if_false, hty, hl,
    Bool.not_true, collect_list, prolog_list_length_ofList, hn, Int.toNat_ofNat,
    prolog_walk_list, ne_eq, hwo, hwa, not_false_eq_true, if_true, ite_self]

/-- Witness for C16: the object list `[[name, [f, [x]]]]`, whose field value is
the list `[x]`. -/
theorem nested_field_value_rejected_witness :
    collect_object sample_engine (Term.ofList [atom "f", Term.ofList [atom "x"]]) 1
        [NULL, NULL, NULL, NULL, NULL, NULL, NULL]
      = (EINVAL, [NULL, NULL, NULL, NULL, NULL, NULL, NULL])
    ∧ (collect_objects sample_engine
        (Term.ofList [atom "name", Term.ofList [atom "f", Term.ofList [atom "x"]]]) 0
        [NULL, NULL]).1 ≠ 0
    ∧ (collect_objects sample_engine
        (Term.ofList [atom "name", Term.ofList [atom "f", Term.ofList [atom "x"]]]) 0
        [NULL, NULL]).2 = [NULL, NULL]
    ∧ collect_result sample_engine none
        (Term.ofList [Term.ofList [atom "name", Term.ofList [atom "f", Term.ofList [atom "x"]]]])
        NULL = some ( EIO, NULL) :=
  nested_field_value_rejected sample_engine (atom "f") (Term.ofList [atom "x"])
    [atom "name", Term.ofList [atom "f", Term.ofList [atom "x"]]]
    [Term.ofList [atom "name", Term.ofList [atom "f", Term.ofList [atom "x"]]]] 1
    [NULL, NULL, NULL, NULL, NULL, NULL, NULL] [NULL, NULL] NULL (Or.inl rfl)
    (List.mem_cons_of_mem _ (List.mem_cons_self _ _)) (List.mem_cons_self _ _)

/-- Counterexample to C16 as stated: the value `[]` is a list, yet the pair
`[f, []]` is collected as the field `f` of type string with value `[]`, and the
objects envelope is returned with return value 0. -/
theorem empty_list_field_value_accepted :
    PL_is_list Term.nil = true
    ∧ collect_result sample_engine none
        (Term.ofList [Term.ofList [atom "name", Term.ofList [atom "f", Term.nil]]]) NULL
      = some (0, .env [.int RESULT_OBJECTS,
          .arr [.str "name".toList, tag 's', .str "name".toList,
                .str "f".toList, tag 's', .str "[]".toList, NULL], NULL]) := by
  refine ⟨by rfl, by rfl⟩

theorem getD_take (l : List Word) (m j : Nat) (d : Word) (h : j < m) :
    (l.take m).getD j d = l.getD j d := by
  induction l generalizing m j with
  | nil => simp
  | cons x xs ih =>
    cases m with
    | zero => omega
    | succ m =>
      cases j with
      | zero => simp
      | succ j => simpa using ih m j (by omega)

/-- The argument loop reads the first `2 * (i + count)` slots only. -/
theorem put_args_take (args : List Word) (count i : Nat) :
    put_args (args.take (2 * (i + count))) count i = put_args args count i := by
  induction count generalizing i with
  | zero => simp [put_args]
  | succ n ih =>
    have hm : 2 * (i + (n + 1)) = 2 * (i + 1 + n) := by omega
    have h0 := getD_take args (2 * (i + (n + 1))) (2 * i) NULL (by omega)
    have h1 := getD_take args (2 * (i + (n + 1))) (2 * i + 1) NULL (by omega)
    have hrec := ih (i + 1)
    rw [← hm] at hrec
    simp only [put_args, h0, h1, hrec]

/-- With `narg > arity - 1`, `prolog_acall` reads the first `2 * (arity - 1)`
slots of `args` only: it returns the same value and the same result as the call
made with those slots and `narg = arity - 1`, and what it does is the same too
but for the warning it prints first. -/
theorem prolog_acall_take (e : Engine) (trace_enabled : Bool)
    (p : prolog_predicate_t) (retval : Word) (args : List Word) (narg : Int)
    (hextra : narg > p.arity - 1) :
    put_args args (p.arity - 1).toNat 0
      = put_args (args.take (2 * (p.arity - 1).toNat)) (p.arity - 1).toNat 0
    ∧ (prolog_acall e trace_enabled p retval args narg).map Call.outcome
      = (prolog_acall e trace_enabled p retval (args.take (2 * (p.arity - 1).toNat))
          (p.arity - 1)).map Call.outcome
    ∧ (prolog_acall e trace_enabled p retval args narg).map (fun c => c.log)
      = (prolog_acall e trace_enabled p retval (args.take (2 * (p.arity - 1).toNat))
          (p.arity - 1)).map (fun c => Event.PROLOG_WARNING "prolog_acall" :: c.log) := by
  have hput := put_args_take args (p.arity - 1).toNat 0
  rw [Nat.zero_add] at hput
  have h1 : ¬ narg < p.arity - 1 := by omega
  have h2 : ¬ p.arity - 1 < p.arity - 1 := by omega
  have h3 : ¬ p.arity - 1 > p.arity - 1 := by omega
  refine ⟨hput.symm, ?_, ?_⟩
  · unfold prolog_acall
    simp only [h1, h2, if_false, hput]
    by_cases hv : (put_args args (p.arity - 1).toNat 0).2.2 = true
    · simp only [hv, Bool.not_true, Bool.false_eq_true, if_false, Option.map_map]
      rfl
    · simp only [hv, Bool.not_false, if_true, Option.map_some', Call.outcome]
  · unfold prolog_acall
    simp only [h1, h2, h3, hextra, if_false, if_true, hput]
    by_cases hv : (put_args args (p.arity - 1).toNat 0).2.2 = true
    · simp only [hv, Bool.not_true, Bool.false_eq_true, if_false, Option.map_map]
      rfl
    · simp only [hv, Bool.not_false, if_true, Option.map_some']
      rfl

/-- C25 as amended: for every list whose first row has exactly one element,
`is_action_list` returns `FALSE` (there is no second element to look at), so
the list is decoded as an Object List: `[[a]]` becomes the objects envelope
with the single object named `a`. -/
theorem single_element_row_is_object_list :
    (∀ x tail : Term, is_action_list (.cons (.cons x Term.nil) tail) = false)
    ∧ collect_result sample_engine none (Term.ofList [Term.ofList [atom "a"]]) NULL
      = some (0, .env [.int RESULT_OBJECTS,
          .arr [.str "name".toList, tag 's', .str "a".toList, NULL], NULL]) := by
  refine ⟨fun _ _ => rfl, by rfl⟩

/-- Counterexample to C25 as stated: on `[[a]]`, whose first row has exactly one
element, `is_action_list` answers `FALSE`, not Action List. -/
theorem single_element_row_not_action_list :
    is_action_list (Term.ofList [Term.ofList [atom "a"]]) = false := by
  rfl

theorem collect_list_error_keeps_slot (e : Engine) (t : Term) (retval w : Word) (c : Int)
    (h : collect_list e t retval = (c, w)) (hc : c ≠ 0) : w = retval := by
  unfold collect_list at h
  simp only at h
  split at h
  · simp only [Prod.mk.injEq] at h; exact h.2.symm
  · split at h
    · split at h
      · simp only [Prod.mk.injEq] at h; exact h.2.symm
      · simp only [Prod.mk.injEq] at h; exact absurd h.1.symm hc
    · split at h
      · simp only [Prod.mk.injEq] at h; exact h.2.symm
      · simp only [Prod.mk.injEq] at h; exact absurd h.1.symm hc

theorem collect_exception_error_keeps_slot (e : Engine) (x : Option Term) (retval w : Word)
    (c : Int) (h : collect_exception e x retval = some (c, w)) (hc : c ≠ 0) : w = retval := by
  unfold collect_exception at h
  split at h
  · simp only [Option.some.injEq, Prod.mk.injEq] at h; exact absurd h.1.symm hc
  · split at h
    · simp only [Option.some.injEq, Prod.mk.injEq] at h; exact h.2.symm
    · split at h
      · simp only [Option.some.injEq, Prod.mk.injEq] at h; exact h.2.symm
      · obtain ⟨s, -, hs⟩ := Option.map_eq_some'.mp h
        simp only [Prod.mk.injEq] at hs
        exact absurd hs.1.symm hc

/-- A non-zero return value of `collect_result` comes with the caller's result
slot as it was. -/
theorem collect_result_error_keeps_slot (e : Engine) (x : Option Term) (t : Term)
    (retval w : Word) (c : Int) (h : collect_result e x t retval = some (c, w))
    (hc : c ≠ 0) : w = retval := by
  unfold collect_result at h
  split at h
  · exact collect_exception_error_keeps_slot e x retval w c h hc
  · split at h
    · split at h <;> simp only [Option.some.injEq, Prod.mk.injEq] at h
      · exact absurd h.1.symm hc
      · exact h.2.symm
    · split at h <;> simp only [Option.some.injEq, Prod.mk.injEq] at h
      · exact absurd h.1.symm hc
      · exact h.2.symm
    · split at h
      · simp only [Option.some.injEq] at h
        exact collect_list_error_keeps_slot e t retval w c h hc
      · split at h <;> simp only [Option.some.injEq, Prod.mk.injEq] at h
        · exact h.2.symm
        · exact absurd h.1.symm hc
    · split at h <;> simp only [Option.some.injEq, Prod.mk.injEq] at h
      · exact h.2.symm
      · exact absurd h.1.symm hc
    · simp only [Option.some.injEq, Prod.mk.injEq] at h
      exact absurd h.1.symm hc
    · split at h
      · simp only [Option.some.injEq, Prod.mk.injEq] at h; exact h.2.symm
      · simp only [Option.some.injEq] at h
        exact collect_list_error_keeps_slot e t retval w c h hc

theorem next_solution_error (e : Engine) (predicate : Nat) (args : List Term)
    (retval : Word) (t : Term) (c : Int) (w : Word)
    (hsolve : e.solve predicate args = .solved t)
    (herr : collect_result e none t retval = some (c, w)) (hc : c ≠ 0) :
    next_solution e predicate args retval = some (FALSE, retval) := by
  have hw := collect_result_error_keeps_slot e none t retval w c herr hc
  simp only [next_solution, hsolve, herr, Option.map_some', ne_eq, hc, not_false_eq_true,
    if_true, hw]

/-- C22: when the query has a solution but `collect_result` returns a non-zero
value on the returned term, the result slot handed back is the caller's slot
as it was, and `prolog_call`, `prolog_vcall` and `prolog_acall` return
`FALSE`. -/
theorem invoke_fails_on_collect_error (e : Engine) (p : prolog_predicate_t)
    (retval w : Word) (ap : List CString) (args : List Word) (narg : Int)
    (trace_enabled : Bool) (t1 t2 : Term) (c1 c2 : Int) (w2 : Word)
    (hsolve1 : e.solve p.predicate ((va_args p.arity ap).map Term.atom) = .solved t1)
    (herr1 : collect_result e none t1 retval = some (c1, w)) (hc1 : c1 ≠ 0)
    (hnarg : ¬ narg < p.arity - 1)
    (hvalid : (put_args args (p.arity - 1).toNat 0).2.2 = true)
    (hsolve2 : e.solve p.predicate (put_args args (p.arity - 1).toNat 0).2.1 = .solved t2)
    (herr2 : collect_result e none t2 retval = some (c2, w2)) (hc2 : c2 ≠ 0) :
    w = retval
    ∧ (prolog_call e p retval ap).map Call.outcome = some (FALSE, retval)
    ∧ (prolog_vcall e p retval ap).map Call.outcome = some (FALSE, retval)
    ∧ (prolog_acall e trace_enabled p retval args narg).map Call.outcome
      = some (FALSE, retval) := by
  have h1 := next_solution_error e _ _ retval t1 c1 w hsolve1 herr1 hc1
  have h2 := next_solution_error e _ _ retval t2 c2 w2 hsolve2 herr2 hc2
  refine ⟨collect_result_error_keeps_slot e none t1 retval w c1 herr1 hc1, ?_, ?_, ?_⟩
  · simp only [prolog_call, h1, Option.map_some', Call.outcome]
  · simp only [prolog_vcall, h1, Option.map_some', Call.outcome]
  · unfold prolog_acall
    simp only [if_neg hnarg, hvalid, h2, Bool.not_true, if_false, Option.map_some',
      Call.outcome, Bool.false_eq_true]

set_option maxRecDepth 100000 in
/-- Witness for C22: the query of `set_routes/1` answers `[[a, b], [c, _]]`,
whose second row makes the action collector fail. -/
theorem invoke_fails_on_collect_error_witness :
    Word.str "old".toList = .str "old".toList
    ∧ (prolog_call (solving_engine actions_with_variable) set_routes (.str "old".toList)
        []).map Call.outcome = some (FALSE, .str "old".toList)
    ∧ (prolog_vcall (solving_engine actions_with_variable) set_routes (.str "old".toList)
        []).map Call.outcome = some (FALSE, .str "old".toList)
    ∧ (prolog_acall (solving_engine actions_with_variable) false set_routes
        (.str "old".toList) [] 0).map Call.outcome = some (FALSE, .str "old".toList) :=
  invoke_fails_on_collect_error (solving_engine actions_with_variable) set_routes
    (.str "old".toList) (.str "old".toList) [] [] 0 false actions_with_variable
    actions_with_variable EIO EIO (.str "old".toList) rfl (by rfl) (by decide) (by decide)
    rfl rfl (by rfl) (by decide)

theorem count_items_strings (ss : List CString) (more : List Word) :
    count_items (ss.map Word.str ++ NULL :: more) = some ss.length := by
  induction ss with
  | nil => rfl
  | cons s ss ih =>
    show (if Word.isNull (.str s) = true then some 0
      else (count_items (ss.map Word.str ++ NULL :: more)).map (fun n => n + 1))
      = some (ss.length + 1)
    rw [ih]
    rfl

theorem ofCells_nil (cells : List Term) : Term.ofCells cells Term.nil = Term.ofList cells := by
  induction cells with
  | nil => rfl
  | cons t ts ih => simp [Term.ofCells, Term.ofList, ih]

theorem list_new_loop_take (ss : List CString) (rest : List Word) (k : Nat) (list : Term)
    (hk : k ≤ ss.length) :
    list_new_loop (some (ss.map Word.str ++ rest)) k list
      = some (Term.ofCells ((ss.take k).map Term.atom) list) := by
  induction k generalizing list with
  | zero => simp [list_new_loop, Term.ofCells]
  | succ k ih =>
    have hlt : k < ss.length := by omega
    have hget : (ss.map Word.str ++ rest).get? k = some (.str (ss.get ⟨k, hlt⟩)) := by
      rw [List.get?_eq_getElem?, List.getElem?_append_left (by simpa using hlt)]
      simp [List.getElem?_eq_getElem hlt]
    simp only [list_new_loop, Option.some_bind, hget]
    rw [ih _ (by omega), ← ofCells_snoc]
    congr 2
    rw [List.take_succ, List.map_append]
    simp [List.getElem?_eq_getElem hlt]

/-- C30: for an array that starts with the strings `ss`, `prolog_list_new` with
`n` the number of strings, or with a negative `n` when a `NULL` follows the
strings, returns the list of the atoms named by `ss`; that list has length
`ss.length`, and walking it with `collect_action` over a fresh array of
`ss.length + 1` slots returns 0 and leaves copies of the strings of `ss`, in
the same order, followed by `NULL`. -/
theorem prolog_list_new_round_trip (e : Engine) (ss : List CString) (rest : List Word)
    (n : Int) (result : Option Term)
    (hn : n = ss.length ∨ (n < 0 ∧ ∃ more, rest = NULL :: more)) :
    (prolog_list_new (some (ss.map Word.str ++ rest)) n result).map Prod.fst
      = some (Term.ofList (ss.map Term.atom))
    ∧ prolog_list_length (Term.ofList (ss.map Term.atom)) = ss.length
    ∧ prolog_walk_list (Term.ofList (ss.map Term.atom)) (collect_action e)
        (ALLOC_ARRAY (ss.length + 1))
      = (0, ss.map Word.str ++ [NULL]) := by
  have hloop := list_new_loop_take ss rest ss.length Term.nil (le_refl _)
  rw [List.take_length, ofCells_nil] at hloop
  refine ⟨?_, ?_, ?_⟩
  · rcases hn with hn | ⟨hn, more, rfl⟩
    · have hneg : ¬ n < 0 := by omega
      have hnat : n.toNat = ss.length := by omega
      simp only [prolog_list_new, if_neg hneg, Option.some_bind, hnat, hloop, Option.map_some']
    · simp only [prolog_list_new, if_pos hn, count_items_strings, Option.some_bind, hloop,
        Option.map_some']
  · simpa using prolog_list_length_ofList (ss.map Term.atom)
  · have hcb : ∀ h ∈ ss.map Term.atom, ∀ i arr,
        collect_action e h i arr = (0, arr.set i ((fun t => Word.str t.text) h)) := by
      intro h hh i arr
      obtain ⟨s, -, rfl⟩ := List.mem_map.mp hh
      exact collect_action_text e (.atom s) rfl i arr
    have := walk_fills (fun t => Word.str t.text) (collect_action e) (ss.map Term.atom) hcb [] 1
    simp only [List.length_nil, List.nil_append, List.length_map, List.map_map] at this
    simp only [prolog_walk_list, ALLOC_ARRAY, this]
    rfl

set_option maxRecDepth 100000 in
/-- Witness for C30: the array of `play`, `ring` and `NULL`, with `n = -1`. -/
theorem prolog_list_new_round_trip_witness :
    (prolog_list_new (some ([Word.str "play".toList, Word.str "ring".toList] ++ [NULL]))
        (-1) none).map Prod.fst
      = some (Term.ofList [Term.atom "play".toList, Term.atom "ring".toList])
    ∧ prolog_list_length (Term.ofList [Term.atom "play".toList, Term.atom "ring".toList]) = 2
    ∧ prolog_walk_list (Term.ofList [Term.atom "play".toList, Term.atom "ring".toList])
        (collect_action sample_engine) (ALLOC_ARRAY (2 + 1))
      = (0, [Word.str "play".toList, Word.str "ring".toList] ++ [NULL]) :=
  prolog_list_new_round_trip sample_engine ["play".toList, "ring".toList] [NULL] (-1) none
    (Or.inr ⟨by decide, [], rfl⟩)

theorem take_set_of_le (l : List Word) (a : Word) (m n : Nat) (h : m ≤ n) :
    (l.set n a).take m = l.take m := by
  rw [List.set_take]
  exact List.set_eq_of_length_le (by rw [List.length_take]; omega)

theorem collect_object_keeps_name (e : Engine) (item : Term) (i : Nat) (object : List Word)
    (hi : 1 ≤ i) : (collect_object e item i object).2.take 3 = object.take 3 := by
  have hi0 : i ≠ 0 := by omega
  have h0 : 3 ≤ 3 * i := by omega
  have h1 : 3 ≤ 3 * i + 1 := by omega
  have h2 : 3 ≤ 3 * i + 2 := by omega
  simp only [collect_object, if_neg hi0]
  repeat' split
  all_goals first
    | rfl
    | (show List.take 3 (List.set (List.set (List.set object (3 * i) _) (3 * i + 1) _)
          (3 * i + 2) _) = _
       rw [take_set_of_le _ _ _ _ h2, take_set_of_le _ _ _ _ h1, take_set_of_le _ _ _ _ h0])

theorem walk_object_keeps_name (e : Engine) :
    ∀ (t : Term) (i : Nat) (object : List Word), 1 ≤ i →
      (prolog_walk_from (collect_object e) t i object).2.take 3 = object.take 3
  | .cons h t, i, object, hi => by
    simp only [prolog_walk_from]
    split
    · exact collect_object_keeps_name e h i object hi
    · rw [walk_object_keeps_name e t (i + 1) _ (by omega)]
      exact collect_object_keeps_name e h i object hi
  | .var _, _, _, _ => by simp [prolog_walk_from]
  | .int _, _, _, _ => by simp [prolog_walk_from]
  | .float _, _, _, _ => by simp [prolog_walk_from]
  | .atom _, _, _, _ => by simp [prolog_walk_from]
  | .str _, _, _, _ => by simp [prolog_walk_from]
  | .compound _ _, _, _, _ => by simp [prolog_walk_from]

theorem prolog_list_length_ge : ∀ (t : Term), -1 ≤ prolog_list_length t
  | .cons _ t => by
    have := prolog_list_length_ge t
    simp only [prolog_list_length]
    split <;> omega
  | .atom _ => by
    simp only [prolog_list_length]
    split <;> omega
  | .var _ => by simp [prolog_list_length]
  | .int _ => by simp [prolog_list_length]
  | .float _ => by simp [prolog_list_length]
  | .str _ => by simp [prolog_list_length]
  | .compound _ _ => by simp [prolog_list_length]

theorem prolog_list_length_cons (h t : Term) :
    prolog_list_length (.cons h t) < 0 ∨ 0 < prolog_list_length (.cons h t) := by
  have := prolog_list_length_ge t
  simp only [prolog_list_length]
  split <;> omega

theorem name_triple_take (n : Nat) (hn : 1 ≤ n) (a b c : Word) :
    ((((ALLOC_ARRAY (3 * n + 1)).set 0 a).set 2 b).set 1 c).take 3 = [a, c, b] := by
  obtain ⟨m, rfl⟩ : ∃ m, n = m + 1 := ⟨n - 1, by omega⟩
  have : ALLOC_ARRAY (3 * (m + 1) + 1) = NULL :: NULL :: NULL :: List.replicate (3 * m + 1) NULL := by
    rw [ALLOC_ARRAY, show 3 * (m + 1) + 1 = (3 * m + 1) + 1 + 1 + 1 by omega]
    simp only [List.replicate_succ]
  rw [this]
  rfl

/-- C27: for every row with a first element, `collect_object` at index 0 either
finds no text in that element and returns `EINVAL` without touching the
object, and then `collect_objects` rejects the row with `EINVAL` and stores
nothing; or it finds a text and stores the triple `name`, the string tag and a
copy of the text in slots 0, 1 and 2, and then `collect_objects` either fails
on a later element of the row and stores nothing, or stores an object that
starts with that triple. -/
theorem object_starts_with_name (e : Engine) (h t : Term) (i : Nat)
    (object objects : List Word) :
    (PL_get_chars e h .CVT_ALL = none
      ∧ collect_object e h 0 object = (EINVAL, object)
      ∧ collect_objects e (.cons h t) i objects = (EINVAL, objects))
    ∨ (∃ field, PL_get_chars e h .CVT_ALL = some field
      ∧ collect_object e h 0 object
        = (0, ((object.set 0 (.str OBJECT_NAME)).set 2 (.str field)).set 1 (tag 's'))
      ∧ (((collect_objects e (.cons h t) i objects).1 ≠ 0
          ∧ (collect_objects e (.cons h t) i objects).2 = objects)
        ∨ ∃ rest, collect_objects e (.cons h t) i objects
          = (0, objects.set i
              (.arr (.str OBJECT_NAME :: tag 's' :: .str field :: rest))))) := by
  cases hc : PL_get_chars e h .CVT_ALL with
  | none =>
    left
    refine ⟨rfl, by simp [collect_object, hc], ?_⟩
    rcases prolog_list_length_cons h t with hl | hl
    · simp only [collect_objects, hl, if_true]
    · have hl2 : ¬ prolog_list_length (.cons h t) < 0 := by omega
      simp only [collect_objects, hl2, if_false, gt_iff_lt, hl, if_true, prolog_walk_list,
        prolog_walk_from, collect_object, hc]
      simp [EINVAL]
  | some field =>
    right
    refine ⟨field, rfl, by simp [collect_object, hc], ?_⟩
    rcases prolog_list_length_cons h t with hl | hl
    · left
      simp only [collect_objects, hl, if_true]
      simp [EINVAL]
    · have hl2 : ¬ prolog_list_length (.cons h t) < 0 := by omega
      have hn : 1 ≤ (prolog_list_length (.cons h t)).toNat := by omega
      have hkeep := walk_object_keeps_name e t 1
        ((((ALLOC_ARRAY (3 * (prolog_list_length (.cons h t)).toNat + 1)).set 0
          (.str OBJECT_NAME)).set 2 (.str field)).set 1 (tag 's')) (le_refl 1)
      rw [name_triple_take _ hn] at hkeep
      simp only [collect_objects, hl2, if_false, gt_iff_lt, hl, if_true, prolog_walk_list,
        prolog_walk_from, collect_object, hc, ne_eq, not_true_eq_false, zero_add]
      split
      · left
        rename_i herr
        exact ⟨herr, rfl⟩
      · right
        refine ⟨(prolog_walk_from (collect_object e) t 1
          ((((ALLOC_ARRAY (3 * (prolog_list_length (.cons h t)).toNat + 1)).set 0
            (.str OBJECT_NAME)).set 2 (.str field)).set 1 (tag 's'))).2.drop 3, ?_⟩
        have hsplit := List.take_append_drop 3 (prolog_walk_from (collect_object e) t 1
          ((((ALLOC_ARRAY (3 * (prolog_list_length (.cons h t)).toNat + 1)).set 0
            (.str OBJECT_NAME)).set 2 (.str field)).set 1 (tag 's'))).2
        rw [hkeep] at hsplit
        rw [← hsplit]
        rfl

set_option maxRecDepth 100000 in
/-- An instance of C27: the row `[[volume, 5]]`, whose first element is a
`[field, value]` pair, is rejected with `EINVAL`; the row `[mic, [volume, 5]]`
is collected as the object named `mic`. -/
theorem object_starts_with_name_example :
    collect_objects sample_engine
        (Term.ofList [Term.ofList [atom "volume", .int 5]]) 0 [NULL, NULL]
      = (EINVAL, [NULL, NULL])
    ∧ collect_objects sample_engine
        (Term.ofList [atom "mic", Term.ofList [atom "volume", .int 5]]) 0 [NULL, NULL]
      = (0, [.arr [.str OBJECT_NAME, tag 's', .str "mic".toList,
          .str "volume".toList, tag 'i', .int 5, NULL], NULL]) :=
  ⟨rfl, rfl⟩

set_option maxRecDepth 100000 in
/-- C21, the code against the claim: with the library initialised, a loader
query that has a solution, raises nothing and marks no error makes
`prolog_load_file` return `TRUE`, which is 1 and not zero; a loader query that
fails, that raises an exception, or during which an error was marked makes it
return `FALSE`, which is zero; and without initialisation it returns
`ENOMEDIUM`. The loop of the test program therefore stops with its
`failed to load` message at the first file that was loaded, and goes past
every file that was not. -/
theorem prolog_load_file_returns_TRUE_on_success
    (PL_predicate : CString → Int → Option CString → Nat) (path : CString) (t : Term)
    (marked : Nat) (files : List CString) :
    prolog_load_file (solving_engine t) true PL_predicate 0 path = some 1
    ∧ prolog_load_file sample_engine true PL_predicate 0 path = some 0
    ∧ prolog_load_file (raising_engine type_error_term) true PL_predicate 0 path = some 0
    ∧ prolog_load_file (solving_engine t) true PL_predicate (marked + 1) path = some 0
    ∧ prolog_load_file (solving_engine t) false PL_predicate marked path = some ENOMEDIUM
    ∧ test_load_files (solving_engine t) PL_predicate 0 (path :: files) = some (0, true)
    ∧ test_load_files sample_engine PL_predicate 0 files = some (files.length, false) := by
  refine ⟨rfl, rfl, rfl, ?_, rfl, rfl, ?_⟩
  · simp [prolog_load_file, load_file, solving_engine, FALSE]
  · induction files with
    | nil => rfl
    | cons f fs ih =>
      simp only [test_load_files, ih]
      rfl

/-- C28, the code against the claim: for every name and every atom `A`,
`collect_exported` accepts the descriptor `Name/A`, whose second argument is
not an integer: it returns 0 and stores the name with arity 2 and the handle
of `Name/2`, because the value `PL_get_integer` returns is never tested. With
the integer arity 3 the two forms are stored as claimed, and an atom is
rejected with `EINVAL`. -/
theorem collect_exported_accepts_any_arity (e : Engine)
    (PL_predicate : CString → Int → Option CString → Nat) (module name a : CString) :
    collect_exported e PL_predicate (descriptor name (.atom a)) 0
        [prolog_predicate_slot.zero]
      = (0, [{ module := none, name := some name, arity := 2,
               predicate := PL_predicate name 2 none }])
    ∧ collect_exported e PL_predicate (qualified module name (.atom a)) 0
        [prolog_predicate_slot.zero]
      = (0, [{ module := some module, name := some name, arity := 2,
               predicate := PL_predicate name 2 (some module) }])
    ∧ collect_exported e PL_predicate (descriptor name (.int 3)) 0
        [prolog_predicate_slot.zero]
      = (0, [{ module := none, name := some name, arity := 3,
               predicate := PL_predicate name 3 none }])
    ∧ collect_exported e PL_predicate (qualified module name (.int 3)) 0
        [prolog_predicate_slot.zero]
      = (0, [{ module := some module, name := some name, arity := 3,
               predicate := PL_predicate name 3 (some module) }])
    ∧ collect_exported e PL_predicate (.atom name) 0 [prolog_predicate_slot.zero]
      = (EINVAL, [prolog_predicate_slot.zero]) := by
  have hint : PL_get_integer (.int 3) = some 3 := by decide
  refine ⟨?_, ?_, ?_, ?_, ?_⟩
  · simp [collect_exported, descriptor, PL_get_name_arity, PL_get_arg, PL_get_chars,
      PL_get_integer, prolog_predicate_slot.zero]
  · simp [collect_exported, qualified, descriptor, PL_get_name_arity, PL_get_arg, PL_get_chars,
      PL_get_integer, prolog_predicate_slot.zero]
  · simp [collect_exported, descriptor, PL_get_name_arity, PL_get_arg, PL_get_chars,
      hint, prolog_predicate_slot.zero]
  · simp [collect_exported, qualified, descriptor, PL_get_name_arity, PL_get_arg, PL_get_chars,
      hint, prolog_predicate_slot.zero]
  · simp only [collect_exported, PL_get_name_arity, PL_get_arg]
    split
    · rfl
    · split
      · rfl
      · simp

set_option maxRecDepth 100000 in
/-- C26, the code against the claim: when the rules predicate fails, when the
rule list is empty or not a list, and when the undefined list is not a list,
`prolog_rules` returns after it opened its foreign frame without a call of
`PL_discard_foreign_frame`, so the frame is still open when control is back at
the caller. On the path through `fail:` (here a rule that is no descriptor)
and on the successful path the frame is discarded once. -/
theorem prolog_rules_early_return_keeps_frame (e : Engine)
    (PL_predicate : CString → Int → Option CString → Nat) :
    (prolog_rules e true PL_predicate (fun _ => none) true true).status = ENOENT
    ∧ (prolog_rules e true PL_predicate (fun _ => none) true true).log
      = [.PL_open_foreign_frame, .PL_new_term_refs 2]
    ∧ FrameState.run .outside (prolog_rules e true PL_predicate (fun _ => none) true true).log
      = some .frame
    ∧ (prolog_rules e true PL_predicate (fun _ => some (Term.nil, Term.nil)) true true).status
      = ENOENT
    ∧ FrameState.run .outside
        (prolog_rules e true PL_predicate (fun _ => some (Term.nil, Term.nil)) true true).log
      = some .frame
    ∧ (prolog_rules e true PL_predicate (fun _ => some (atom "foo", Term.nil)) true true).status
      = ENOENT
    ∧ FrameState.run .outside
        (prolog_rules e true PL_predicate (fun _ => some (atom "foo", Term.nil)) true true).log
      = some .frame
    ∧ (prolog_rules e true PL_predicate
        (fun _ => some (Term.ofList [descriptor "foo".toList (.int 1)], atom "foo"))
        true true).status = EINVAL
    ∧ FrameState.run .outside
        (prolog_rules e true PL_predicate
          (fun _ => some (Term.ofList [descriptor "foo".toList (.int 1)], atom "foo"))
          true true).log
      = some .frame
    ∧ (prolog_rules e true PL_predicate
        (fun _ => some (Term.ofList [atom "foo"], Term.nil)) true true).status = EINVAL
    ∧ FrameState.run .outside
        (prolog_rules e true PL_predicate
          (fun _ => some (Term.ofList [atom "foo"], Term.nil)) true true).log
      = some .discarded
    ∧ (prolog_rules e true PL_predicate
        (fun _ => some (Term.ofList [descriptor "foo".toList (.int 1)], Term.nil))
        true true).status = 0
    ∧ (prolog_rules e true PL_predicate
        (fun _ => some (Term.ofList [descriptor "foo".toList (.int 1)], Term.nil))
        true true).rules
      = some [{ module := none, name := some "foo".toList, arity := 1,
                predicate := PL_predicate "foo".toList 1 none },
              prolog_predicate_slot.zero]
    ∧ FrameState.run .outside
        (prolog_rules e true PL_predicate
          (fun _ => some (Term.ofList [descriptor "foo".toList (.int 1)], Term.nil))
          true true).log
      = some .discarded := by
  refine ⟨rfl, rfl, rfl, rfl, rfl, rfl, rfl, rfl, rfl, rfl, rfl, rfl, rfl, rfl⟩

theorem until_null_append (ws more : List Word) (h : ∀ w ∈ ws, w.isNull = false) :
    until_null (ws ++ NULL :: more) = some ws := by
  induction ws with
  | nil => rfl
  | cons w ws ih =>
    have hw : w.isNull = false := h w (List.mem_cons_self _ _)
    have hws := ih (fun x hx => h x (List.mem_cons_of_mem _ hx))
    show (if w.isNull = true then some []
      else (until_null (ws ++ NULL :: more)).map (fun r => w :: r)) = some (w :: ws)
    rw [hw, hws]
    rfl

theorem flatMap_singleton {α β : Type} (f : α → β) (l : List α) :
    l.flatMap (fun t => [f t]) = l.map f := by
  induction l with
  | nil => rfl
  | cons a b ih => simp [List.flatMap_cons, ih]

theorem mapM_some {α β : Type} (f : α → Option β) (g : α → β) (l : List α)
    (h : ∀ x ∈ l, f x = some (g x)) : l.mapM f = some (l.map g) := by
  induction l with
  | nil => rfl
  | cons a l ih =>
    rw [List.mapM_cons, h a (List.mem_cons_self _ _),
      ih (fun x hx => h x (List.mem_cons_of_mem _ hx))]
    rfl

/-- Walking a proper list with a callback that stores one word per element in
slot `i` and records the blocks it allocates. -/
theorem walk_fills_alloc {α : Type} (embed : α → Term) (f : α → Word) (g : α → List Word)
    (callback : Term → Nat → Heaped → Int × Heaped) (items : List α)
    (hcb : ∀ h ∈ items, ∀ i (d : Heaped),
      callback (embed h) i d = (0, (d.1.set i (f h), d.2 ++ g h)))
    (filled heap : List Word) (c : Nat) :
    prolog_walk_from callback (Term.ofList (items.map embed)) filled.length
        (filled ++ List.replicate (items.length + c) NULL, heap)
      = (0, (filled ++ items.map f ++ List.replicate c NULL, heap ++ items.flatMap g)) := by
  induction items generalizing filled heap with
  | nil => simp [Term.ofList, Term.nil, prolog_walk_from]
  | cons h t ih =>
    have hh := hcb h (List.mem_cons_self h t)
    have ht : ∀ x ∈ t, ∀ i (d : Heaped),
        callback (embed x) i d = (0, (d.1.set i (f x), d.2 ++ g x)) :=
      fun x hx => hcb x (List.mem_cons_of_mem h hx)
    have hrep : List.replicate (t.length + 1 + c) NULL
        = NULL :: List.replicate (t.length + c) NULL := by
      rw [show t.length + 1 + c = (t.length + c) + 1 by omega, List.replicate_succ]
    simp only [List.map_cons, Term.ofList, prolog_walk_from, List.length_cons, hh, hrep,
      set_at_length]
    have := ih ht (filled ++ [f h]) (heap ++ g h)
    simp only [List.length_append, List.length_singleton, List.append_assoc,
      List.singleton_append] at this
    simpa using this

theorem collect_action_alloc_text (e : Engine) (t : Term) (ht : t.is_text = true) (i : Nat)
    (d : Heaped) :
    collect_action_alloc e t i d = (0, (d.1.set i (.str t.text), d.2 ++ [.str t.text])) := by
  cases t <;> simp_all [Term.is_text, collect_action_alloc, PL_get_chars, Term.text]

theorem collect_actions_alloc_row (e : Engine) (r : List Term) (hne : r ≠ [])
    (htext : ∀ t ∈ r, t.is_text = true) (i : Nat) (d : Heaped) :
    collect_actions_alloc e (Term.ofList r) i d
      = (0, (d.1.set i (.arr (r.map (fun t => Word.str t.text) ++ [NULL])),
          d.2 ++ (.arr (r.map (fun t => Word.str t.text) ++ [NULL])
            :: r.map (fun t => Word.str t.text)))) := by
  have hlen : 0 < r.length := List.length_pos.mpr hne
  have hwalk := walk_fills_alloc id (fun t => Word.str t.text) (fun t => [Word.str t.text])
    (collect_action_alloc e) r
    (fun h hh i d => collect_action_alloc_text e h (htext h hh) i d) [] [] 1
  simp only [List.map_id, List.length_nil, List.nil_append] at hwalk
  have h1 : ¬ ((r.length : Int) < 0) := by omega
  have h2 : (0 : Int) < (r.length : Int) := by omega
  have hflat : r.flatMap (fun t => [Word.str t.text]) = r.map (fun t => Word.str t.text) :=
    flatMap_singleton (fun t => Word.str t.text) r
  simp only [collect_actions_alloc, prolog_list_length_ofList, h1, h2, if_false, if_true,
    gt_iff_lt, Int.toNat_ofNat, prolog_walk_list, ALLOC_ARRAY, hwalk, hflat]
  simp

theorem collect_list_alloc_rows (e : Engine) (rows : List (List Term)) (retval : Word)
    (hrows : ∀ r ∈ rows, r ≠ [] ∧ ∀ t ∈ r, t.is_text = true)
    (hact : is_action_list (Term.ofList (rows.map Term.ofList)) = true) :
    (collect_list_alloc e (Term.ofList (rows.map Term.ofList)) retval).status = 0
    ∧ (collect_list_alloc e (Term.ofList (rows.map Term.ofList)) retval).retval
      = .env (actions_block rows)
    ∧ (collect_list_alloc e (Term.ofList (rows.map Term.ofList)) retval).allocated
      = .arr (actions_block rows)
        :: rows.flatMap (fun r => action_row r :: r.map (fun t => Word.str t.text))
    ∧ (collect_list_alloc e (Term.ofList (rows.map Term.ofList)) retval).freed = some [] := by
  have hwalk := walk_fills_alloc Term.ofList action_row
    (fun (r : List Term) => action_row r :: r.map (fun (t : Term) => Word.str t.text))
    (collect_actions_alloc e) rows
    (fun r hr i d => collect_actions_alloc_row e r (hrows r hr).1 (hrows r hr).2 i d) [] [] 1
  simp only [List.length_nil, List.nil_append] at hwalk
  have h1 : ¬ ((rows.length : Int) < 0) := by omega
  simp only [collect_list_alloc, prolog_list_length_ofList, List.length_map, h1, hact,
    prolog_walk_list, ALLOC_ARRAY, Int.toNat_ofNat, hwalk, if_false, if_true, ne_eq,
    not_true_eq_false, actions_block]
  simp

theorem collect_result_rows (e : Engine) (rows : List (List Term)) (retval : Word)
    (hrows : ∀ r ∈ rows, r ≠ [] ∧ ∀ t ∈ r, t.is_text = true)
    (hact : is_action_list (Term.ofList (rows.map Term.ofList)) = true) :
    collect_result e none (Term.ofList (rows.map Term.ofList)) retval
      = some (0, .env (actions_block rows)) := by
  have hne : rows.map Term.ofList ≠ [] := is_action_list_ofList_ne_nil _ hact
  obtain ⟨r0, rs, hrs⟩ : ∃ r0 rs, rows = r0 :: rs := by
    cases rows with
    | nil => simp at hne
    | cons a b => exact ⟨a, b, rfl⟩
  have hcb : ∀ h ∈ rows.map Term.ofList, ∀ i arr, collect_actions e h i arr
      = (0, arr.set i ((fun item => Word.arr (((prolog_walk_list item (collect_action e)
          (ALLOC_ARRAY ((prolog_list_length item).toNat + 1))).2))) h)) := by
    intro h hh i arr
    obtain ⟨r, hr, rfl⟩ := List.mem_map.mp hh
    have := collect_actions_row e r (hrows r hr).1 (hrows r hr).2 i arr
    rw [this]
    have hw := walk_fills (fun t => Word.str t.text) (collect_action e) r
      (fun h hh i arr => collect_action_text e h ((hrows r hr).2 h hh) i arr) [] 1
    simp only [List.length_nil, List.nil_append] at hw
    simp [prolog_walk_list, prolog_list_length_ofList, ALLOC_ARRAY, hw]
  have hwalk := walk_fills
    (fun item => Word.arr (((prolog_walk_list item (collect_action e)
      (ALLOC_ARRAY ((prolog_list_length item).toNat + 1))).2)))
    (collect_actions e) (rows.map Term.ofList) hcb [] 1
  simp only [List.length_nil, List.nil_append, List.length_map] at hwalk
  have hmap : (rows.map Term.ofList).map (fun item => Word.arr (((prolog_walk_list item
      (collect_action e) (ALLOC_ARRAY ((prolog_list_length item).toNat + 1))).2)))
      = rows.map action_row := by
    rw [List.map_map]
    apply List.map_congr_left
    intro r hr
    have hw := walk_fills (fun t => Word.str t.text) (collect_action e) r
      (fun h hh i arr => collect_action_text e h ((hrows r hr).2 h hh) i arr) [] 1
    simp only [List.length_nil, List.nil_append] at hw
    simp [prolog_walk_list, prolog_list_length_ofList, ALLOC_ARRAY, hw, action_row]
  rw [hmap] at hwalk
  have hty : PL_term_type (Term.ofList (rows.map Term.ofList)) = PL_TERM := by
    rw [hrs]; rfl
  have hlist : PL_is_list (Term.ofList (rows.map Term.ofList)) = true := by
    rw [hrs]; rfl
  have h1 : ¬ ((rows.length : Int) < 0) := by omega
  simp only [collect_result, collect_list, Option.isSome_none, hty, hlist,
    prolog_list_length_ofList, List.length_map, h1, hact, prolog_walk_list, ALLOC_ARRAY,
    Int.toNat_ofNat, hwalk, actions_block]
  simp

theorem prolog_free_actions_rows (rows : List (List Term)) :
    prolog_free_actions (.env (actions_block rows))
      = some (rows.flatMap (fun r => r.map (fun t => Event.free (.str t.text))
          ++ [Event.free (action_row r)]) ++ [.free (.arr (actions_block rows))]) := by
  have hrowsnull : ∀ w ∈ rows.map action_row, w.isNull = false := by
    intro w hw
    obtain ⟨r, -, rfl⟩ := List.mem_map.mp hw
    rfl
  have hslots := until_null_append (rows.map action_row) [] hrowsnull
  have hrow : ∀ w ∈ rows.map action_row,
      (match w with
        | .arr cells => (until_null cells).map fun ps => ps.map Event.free ++ [Event.free w]
        | _ => none)
      = some ((fun w => match w with
        | .arr cells => (cells.dropLast).map Event.free ++ [Event.free w]
        | _ => []) w) := by
    intro w hw
    obtain ⟨r, -, rfl⟩ := List.mem_map.mp hw
    have hcells : ∀ c ∈ r.map (fun t => Word.str t.text), c.isNull = false := by
      intro c hc
      obtain ⟨t, -, rfl⟩ := List.mem_map.mp hc
      rfl
    simp only [action_row, until_null_append _ [] hcells, Option.map_some',
      List.dropLast_concat]
  have hM := mapM_some _ _ (rows.map action_row) hrow
  simp only [prolog_free_actions, actions_block, Word.toInt?, ne_eq, not_true_eq_false,
    if_false, hslots]
  simp only [Option.bind_eq_bind, Option.some_bind]
  rw [hM]
  simp only [Option.pure_def, Option.some_bind, List.map_map, ← List.flatMap_def]
  congr 2
  apply List.flatMap_congr
  intro r _
  simp [action_row, List.dropLast_concat]

/-- C24: for every list classified as an Action List whose rows are non-empty
lists of atoms and strings, the decoder allocates the envelope, one array per
row and one string per parameter, and stores the envelope; releasing that
envelope, with `prolog_free_actions` or through `prolog_free_results`, makes
only calls of `free`, and the blocks freed are the blocks allocated, each as
often as it was allocated. -/
theorem release_frees_every_allocation (e : Engine) (rows : List (List Term))
    (retval : Word)
    (hrows : ∀ r ∈ rows, r ≠ [] ∧ ∀ t ∈ r, t.is_text = true)
    (hact : is_action_list (Term.ofList (rows.map Term.ofList)) = true) :
    collect_result e none (Term.ofList (rows.map Term.ofList)) retval
      = some (0, .env (actions_block rows))
    ∧ (collect_list_alloc e (Term.ofList (rows.map Term.ofList)) retval).status = 0
    ∧ (collect_list_alloc e (Term.ofList (rows.map Term.ofList)) retval).retval
      = .env (actions_block rows)
    ∧ (collect_list_alloc e (Term.ofList (rows.map Term.ofList)) retval).allocated
      = .arr (actions_block rows)
        :: rows.flatMap (fun r => action_row r :: r.map (fun t => Word.str t.text))
    ∧ (collect_list_alloc e (Term.ofList (rows.map Term.ofList)) retval).freed = some []
    ∧ prolog_free_results (.env (actions_block rows))
      = prolog_free_actions (.env (actions_block rows))
    ∧ ∃ freed, prolog_free_actions (.env (actions_block rows)) = some freed
      ∧ List.Perm freed
        ((collect_list_alloc e (Term.ofList (rows.map Term.ofList)) retval).allocated.map
          Event.free) := by
  obtain ⟨h1, h2, h3, h4⟩ := collect_list_alloc_rows e rows retval hrows hact
  refine ⟨collect_result_rows e rows retval hrows hact, h1, h2, h3, h4, ?_,
    _, prolog_free_actions_rows rows, ?_⟩
  · simp [prolog_free_results, actions_block, Word.toInt?]
  · rw [h3, List.map_cons, List.map_flatMap]
    refine (List.perm_append_singleton _ _).trans (List.Perm.cons _ ?_)
    apply List.Perm.flatMap_left
    intro r _
    simp only [List.map_cons, List.map_map]
    exact List.perm_append_singleton _ _

set_option maxRecDepth 100000 in
/-- Witness for C24: the action list `[[a, b], [c, d]]`, decoded into seven
blocks that the release frees one by one. -/
theorem release_frees_every_allocation_witness :
    prolog_free_actions (.env (actions_block [[atom "a", atom "b"], [atom "c", atom "d"]]))
      = some [.free (.str "a".toList), .free (.str "b".toList),
          .free (.arr [.str "a".toList, .str "b".toList, NULL]),
          .free (.str "c".toList), .free (.str "d".toList),
          .free (.arr [.str "c".toList, .str "d".toList, NULL]),
          .free (.arr [.int RESULT_ACTIONS, .arr [.str "a".toList, .str "b".toList, NULL],
            .arr [.str "c".toList, .str "d".toList, NULL], NULL])]
    ∧ (collect_list_alloc sample_engine
        (Term.ofList ([[atom "a", atom "b"], [atom "c", atom "d"]].map Term.ofList))
        NULL).allocated
      = [.arr [.int RESULT_ACTIONS, .arr [.str "a".toList, .str "b".toList, NULL],
            .arr [.str "c".toList, .str "d".toList, NULL], NULL],
          .arr [.str "a".toList, .str "b".toList, NULL],
          .str "a".toList, .str "b".toList,
          .arr [.str "c".toList, .str "d".toList, NULL],
          .str "c".toList, .str "d".toList] :=
  ⟨rfl, (release_frees_every_allocation sample_engine
    [[atom "a", atom "b"], [atom "c", atom "d"]] NULL
    (by simp [atom, Term.is_text]) (by rfl)).2.2.2.1⟩

theorem cstring_take_append (buf : Buffer) (s : CString) (n : Nat) (more : Buffer)
    (h : cstring buf = some s) (hn : s.length < n) : cstring (buf.take n ++ more) = some s := by
  induction buf generalizing s n with
  | nil => simp [cstring] at h
  | cons b rest ih =>
    obtain ⟨m, rfl⟩ : ∃ m, n = m + 1 := ⟨n - 1, by omega⟩
    cases b with
    | indet => simp [cstring] at h
    | nul =>
      simp only [cstring, Option.some.injEq] at h
      subst h
      rfl
    | chr c =>
      simp only [cstring, Option.map_eq_some'] at h
      obtain ⟨s1, hs1, rfl⟩ := h
      show (cstring (rest.take m ++ more)).map (fun s => c :: s) = some (c :: s1)
      rw [ih s1 m hs1 (by simpa using hn)]
      rfl

theorem store_nul (buf : Buffer) (n : Nat) (h : n < buf.length) :
    store buf n [.nul] = some (buf.take n ++ Byte.nul :: buf.drop (n + 1)) := by
  have : n + 1 ≤ buf.length := h
  simp [store, this]

theorem store_nul_none (buf : Buffer) (n : Nat) (h : buf.length ≤ n) :
    store buf n [.nul] = none := by
  have : ¬ n + 1 ≤ buf.length := by omega
  simp [store, this]

theorem drop_take_append (buf more : Buffer) (n : Nat) (h : n ≤ buf.length) :
    (buf.take n ++ more).drop n = more := by
  have hl : (buf.take n).length = n := by rw [List.length_take]; omega
  have h2 : (buf.take n ++ more).drop (buf.take n).length = more := by simp
  rwa [hl] at h2
  
theorem applied_append (l1 l2 : List Event) : applied (l1 ++ l2) = applied l1 ++ applied l2 := by
  simp [applied, List.filterMap_append]

/-- The empty action: nothing is split, and no application is announced. -/
theorem predicate_trace_set_empty (st : Tracing) (pred : CString) (buf : Buffer) (cmd : Nat)
    (h : cstring (buf.drop cmd) = some []) :
    ∃ st1 printed, predicate_trace_set st pred buf cmd = some (st1, buf, printed)
      ∧ applied printed = [] := by
  have e1 : (([] : CString) = "off".toList) = False := by decide
  have e2 : (([] : CString) = "suppress".toList) = False := by decide
  have e3 : (([] : CString) = "on".toList) = False := by decide
  have e4 : (([] : CString) = "transitive".toList) = False := by decide
  have e5 : (([] : CString) = "clear".toList) = False := by decide
  have e6 : (([] : CString) = "defaults".toList) = False := by decide
  unfold predicate_trace_set
  cases hf : st.trace_flags with
  | none => exact ⟨st, [], rfl, rfl⟩
  | some flags =>
    simp only [h, Option.some_bind, e1, e2, e3, e4, e5, e6, or_self, not_false_eq_true,
      and_true, if_false, List.takeWhile_nil, if_true]
    by_cases hp : pred = "*".toList
    · rw [if_pos hp]
      exact ⟨_, _, rfl, rfl⟩
    · rw [if_neg hp]
      exact ⟨_, _, rfl, rfl⟩
theorem trace_actions_step (steps : Nat) (st : Tracing) (command : Buffer) (n : Nat)
    (log : List Event) (predicate : CString) (hlt : n < command.length)
    (hpred : cstring command = some predicate) (hn : predicate.length < n) :
    ∃ st1 printed, applied printed = []
      ∧ trace_actions (steps + 1) st command (some n) (some n) log
        = trace_actions steps st1 (command.take n ++ Byte.nul :: command.drop (n + 1))
            (some (n + 1)) (some (n + 1))
            (log ++ [.printf "action %s for predicate %s\n" [.str [], .str predicate]]
              ++ printed) := by
  have hempty : cstring ((command.take n ++ Byte.nul :: command.drop (n + 1)).drop n)
      = some [] := by
    rw [drop_take_append _ _ _ (by omega)]
    rfl
  have hkeep := cstring_take_append command predicate n (Byte.nul :: command.drop (n + 1))
    hpred hn
  obtain ⟨st1, printed, hset, happ⟩ := predicate_trace_set_empty st predicate
    (command.take n ++ Byte.nul :: command.drop (n + 1)) n hempty
  refine ⟨st1, printed, happ, ?_⟩
  simp only [trace_actions, store_nul _ _ hlt, Option.map_some', hempty, hkeep, hset]

theorem trace_actions_runs_off (k : Nat) :
    ∀ (steps : Nat) (st : Tracing) (command : Buffer) (n : Nat) (log : List Event)
      (predicate : CString),
      k < steps → command.length = n + k → cstring command = some predicate →
      predicate.length < n →
      (trace_actions steps st command (some n) (some n) log).1 = .undefined
      ∧ applied (trace_actions steps st command (some n) (some n) log).2.2.2
        = applied log ++ List.replicate k (predicate, []) := by
  induction k with
  | zero =>
    intro steps st command n log predicate hsteps hlen _ _
    obtain ⟨s, rfl⟩ : ∃ s, steps = s + 1 := ⟨steps - 1, by omega⟩
    simp [trace_actions, store_nul_none command n (by omega)]
  | succ k ih =>
    intro steps st command n log predicate hsteps hlen hpred hn
    obtain ⟨s, rfl⟩ : ∃ s, steps = s + 1 := ⟨steps - 1, by omega⟩
    obtain ⟨st1, printed, happ, hstep⟩ :=
      trace_actions_step s st command n log predicate (by omega) hpred hn
    have hlen1 : (command.take n ++ Byte.nul :: command.drop (n + 1)).length = n + 1 + k := by
      simp only [List.length_append, List.length_take, List.length_cons, List.length_drop]
      omega
    have hkeep := cstring_take_append command predicate n (Byte.nul :: command.drop (n + 1))
      hpred hn
    obtain ⟨h1, h2⟩ := ih s st1 _ (n + 1)
      (log ++ [.printf "action %s for predicate %s\n" [.str [], .str predicate]] ++ printed)
      predicate (by omega) hlen1 hkeep (by omega)
    rw [hstep]
    refine ⟨h1, ?_⟩
    rw [h2, applied_append, applied_append, happ, List.replicate_succ]
    simp [applied]

/-- Once `next` is not a null pointer the loop over the actions does not come
to its end, whatever the number of steps. -/
theorem trace_actions_never_ends (steps : Nat) :
    ∀ (st : Tracing) (command : Buffer) (a n : Nat) (log : List Event) (v : Int),
      (trace_actions steps st command (some a) (some n) log).1 ≠ .returned v := by
  induction steps with
  | zero =>
    intro st command a n log v
    simp [trace_actions]
  | succ s ih =>
    intro st command a n log v
    cases hs : store command n [.nul] with
    | none => simp [trace_actions, hs]
    | some b =>
      simp only [trace_actions, hs, Option.map_some']
      split
      · split
        · simp
        · exact ih _ _ _ _ _ v
      · simp
set_option maxRecDepth 1000000 in
theorem trace_commands_foo (steps : Nat) (st : Tracing) :
    trace_commands (steps + 1) st (List.replicate (MAX_SIZE + 1) Byte.indet)
        "foo on,off".toList []
      = match trace_actions steps st command_foo (some 4) (some 6) [] with
        | (.returned _, st, command, log) => trace_commands steps st command [] log
        | (ending, st, _, log) => { ending := ending, tracing := st, log := log } := by
  rfl

set_option maxRecDepth 1000000 in
theorem trace_actions_foo (steps : Nat) :
    trace_actions (steps + 1) predicate_trace_init command_foo (some 4) (some 6) []
      = trace_actions steps
          { predicate_trace_init with trace_flags := some [("foo".toList,
              { trace := PRED_TRACE_SHALLOW, call := PRED_PORT_DETAILED,
                redo := PRED_PORT_DETAILED, proven := PRED_PORT_SHORT,
                failed := PRED_PORT_SHORT })] }
          command_foo_on (some 7) (some 7)
          [.printf "action %s for predicate %s\n" [.str "on".toList, .str "foo".toList]] := by
  rfl

theorem trace_commands_undefined (steps : Nat) (p : List Char)
    (r : Ending × Tracing × Buffer × List Event) (h : r.1 = .undefined) :
    (match r with
      | (.returned _, st, command, log) => trace_commands steps st command p log
      | (ending, st, _, log) => { ending := ending, tracing := st, log := log })
    = { ending := .undefined, tracing := r.2.1, log := r.2.2.2 } := by
  obtain ⟨e, st, c, l⟩ := r
  dsimp only at h
  subst h
  rfl

theorem trace_commands_not_returned (steps : Nat) (p : List Char)
    (r : Ending × Tracing × Buffer × List Event) (h : ∀ v, r.1 ≠ .returned v) (v : Int) :
    (match r with
      | (.returned _, st, command, log) => trace_commands steps st command p log
      | (ending, st, _, log) => { ending := ending, tracing := st, log := log }).ending
    ≠ .returned v := by
  obtain ⟨e, st, c, l⟩ := r
  cases e with
  | returned w => exact absurd rfl (h w)
  | undefined =>
    intro h
    cases h
  | unfinished =>
    intro h
    cases h

set_option maxRecDepth 1000000 in
theorem foo_on_off_runs (steps : Nat) (h : 1018 < steps) :
    (prolog_trace_set (steps + 2) predicate_trace_init (some "foo on,off".toList)).ending
      = .undefined
    ∧ applied (prolog_trace_set (steps + 2) predicate_trace_init
        (some "foo on,off".toList)).log
      = ("foo".toList, "on".toList) :: List.replicate 1018 ("foo".toList, []) := by
  have hlen : command_foo_on.length = 7 + 1018 := by rfl
  have hpred : cstring command_foo_on = some "foo".toList := by rfl
  obtain ⟨h2, h3⟩ := trace_actions_runs_off 1018 steps
    { predicate_trace_init with trace_flags := some [("foo".toList,
        { trace := PRED_TRACE_SHALLOW, call := PRED_PORT_DETAILED,
          redo := PRED_PORT_DETAILED, proven := PRED_PORT_SHORT,
          failed := PRED_PORT_SHORT })] }
    command_foo_on 7
    [.printf "action %s for predicate %s\n" [.str "on".toList, .str "foo".toList]]
    "foo".toList h hlen hpred (by decide)
  rw [← trace_actions_foo steps] at h2 h3
  have h0 : prolog_trace_set (steps + 2) predicate_trace_init (some "foo on,off".toList)
      = _ := trace_commands_foo (steps + 1) predicate_trace_init
  rw [h0, trace_commands_undefined _ _ _ h2]
  exact ⟨rfl, h3⟩

theorem foo_on_off_never_returns (steps : Nat) (v : Int) :
    (prolog_trace_set steps predicate_trace_init (some "foo on,off".toList)).ending
      ≠ .returned v := by
  cases steps with
  | zero =>
    intro h
    cases h
  | succ s =>
    have h0 : prolog_trace_set (s + 1) predicate_trace_init (some "foo on,off".toList)
        = _ := trace_commands_foo s predicate_trace_init
    rw [h0]
    exact trace_commands_not_returned _ _ _
      (trace_actions_never_ends s predicate_trace_init command_foo 4 6 []) v

set_option maxRecDepth 1000000 in
/-- C29, the code against the claim: on the command `foo on,off` the loop over
the actions applies `predicate_trace_set` to `on` and then, because `next` is
never searched again, to the empty text at every following byte of `command`:
1018 times, up to the end of the array, where the next zero byte is stored
outside the array. For no number of steps does the function return. On
`foo on`, with one action, it returns 0 after one application. -/
theorem prolog_trace_set_second_action (steps : Nat) :
    (∀ v, (prolog_trace_set steps predicate_trace_init (some "foo on,off".toList)).ending
      ≠ .returned v)
    ∧ (prolog_trace_set (steps + 1021) predicate_trace_init
        (some "foo on,off".toList)).ending = .undefined
    ∧ applied (prolog_trace_set (steps + 1021) predicate_trace_init
        (some "foo on,off".toList)).log
      = ("foo".toList, "on".toList) :: List.replicate 1018 ("foo".toList, [])
    ∧ (prolog_trace_set 3 predicate_trace_init (some "foo on".toList)).ending = .returned 0
    ∧ applied (prolog_trace_set 3 predicate_trace_init (some "foo on".toList)).log
      = [("foo".toList, "on".toList)] :=
  ⟨foo_on_off_never_returns steps, (foo_on_off_runs (steps + 1019) (by omega)).1,
    (foo_on_off_runs (steps + 1019) (by omega)).2, by rfl, by rfl⟩

theorem getD_append_slots (pre : List Word) (a b : Word) (rest : List Word) :
    (pre ++ a :: b :: rest).getD pre.length NULL = a
    ∧ (pre ++ a :: b :: rest).getD (pre.length + 1) NULL = b := by
  induction pre with
  | nil => exact ⟨rfl, rfl⟩
  | cons x xs ih => simpa using ih

/-- The argument loop on typed arguments laid out from slot `2 * i` on: it puts
each of them into its term reference, in order, and finds every type valid. -/
theorem put_args_typed (typed : List Typed) (extra pre : List Word) (i : Nat)
    (hpre : pre.length = 2 * i) :
    put_args (pre ++ typed.flatMap Typed.slots ++ extra) typed.length i
      = ((typed.enumFrom i).map (fun a => a.2.put a.1), typed.map Typed.term, true) := by
  induction typed generalizing pre i with
  | nil => simp [put_args]
  | cons t ts ih =>
    have hnext := ih (pre ++ t.slots) (i + 1) (by cases t <;> simp [Typed.slots, hpre] <;> omega)
    have hlist : pre ++ (t :: ts).flatMap Typed.slots ++ extra
        = pre ++ t.slots ++ ts.flatMap Typed.slots ++ extra := by
      simp [List.flatMap_cons, List.append_assoc]
    rw [hlist]
    cases t with
    | string chars =>
      have hg := getD_append_slots pre (tag 's') (.str chars)
        (ts.flatMap Typed.slots ++ extra)
      rw [hpre] at hg
      have hshape : pre ++ (Typed.string chars).slots ++ ts.flatMap Typed.slots ++ extra
          = pre ++ tag 's' :: .str chars :: (ts.flatMap Typed.slots ++ extra) := by
        simp [Typed.slots, List.append_assoc]
      rw [hshape] at hnext ⊢
      simp only [List.length_cons, put_args, hg.1, hg.2, hnext, List.enumFrom_cons,
        List.map_cons, Typed.put, Typed.term]
      rfl
    | integer n =>
      have hg := getD_append_slots pre (tag 'i') (.int n)
        (ts.flatMap Typed.slots ++ extra)
      rw [hpre] at hg
      have hshape : pre ++ (Typed.integer n).slots ++ ts.flatMap Typed.slots ++ extra
          = pre ++ tag 'i' :: .int n :: (ts.flatMap Typed.slots ++ extra) := by
        simp [Typed.slots, List.append_assoc]
      rw [hshape] at hnext ⊢
      simp only [List.length_cons, put_args, hg.1, hg.2, hnext, List.enumFrom_cons,
        List.map_cons, Typed.put, Typed.term]
      rfl
    | double d =>
      have hg := getD_append_slots pre (tag 'd') (.dbl d)
        (ts.flatMap Typed.slots ++ extra)
      rw [hpre] at hg
      have hshape : pre ++ (Typed.double d).slots ++ ts.flatMap Typed.slots ++ extra
          = pre ++ tag 'd' :: .dbl d :: (ts.flatMap Typed.slots ++ extra) := by
        simp [Typed.slots, List.append_assoc]
      rw [hshape] at hnext ⊢
      simp only [List.length_cons, put_args, hg.1, hg.2, hnext, List.enumFrom_cons,
        List.map_cons, Typed.put, Typed.term]
      rfl

theorem length_flatMap_slots (typed : List Typed) :
    (typed.flatMap Typed.slots).length = 2 * typed.length := by
  induction typed with
  | nil => rfl
  | cons t ts ih =>
    cases t <;> simp [List.flatMap_cons, Typed.slots, ih] <;> omega

/-- C19: with `narg > arity - 1`, `prolog_acall` on `arity - 1` typed arguments
followed by any further slots puts exactly those typed arguments into the
engine terms, each as the term of its type and in its order, opens the query
on these terms and no others, and returns what the engine answers on them.
For every content of `args`, typed or not, the return value and the result are
those of the call made with the first `2 * (arity - 1)` slots only and
`narg = arity - 1`, and the calls made are the same but for the warning printed
first. -/
theorem prolog_acall_ignores_extra (e : Engine) (trace_enabled : Bool)
    (p : prolog_predicate_t) (retval : Word) (args : List Word) (typed : List Typed)
    (extra : List Word) (narg : Int)
    (hextra : narg > p.arity - 1) (htyped : typed.length = (p.arity - 1).toNat) :
    put_args (typed.flatMap Typed.slots ++ extra) (p.arity - 1).toNat 0
      = (typed.enum.map (fun a => a.2.put a.1), typed.map Typed.term, true)
    ∧ prolog_acall e trace_enabled p retval (typed.flatMap Typed.slots ++ extra) narg
      = (next_solution e p.predicate (typed.map Typed.term) retval).map (fun r =>
          { success := r.1, retval := r.2,
            log := [.PROLOG_WARNING "prolog_acall"]
              ++ [.PL_open_foreign_frame, .PL_new_term_refs p.arity]
              ++ typed.enum.map (fun a => a.2.put a.1)
              ++ (if trace_enabled then [.prolog_tracing true] else [])
              ++ [.PL_open_query p.predicate (typed.map Typed.term), .PL_next_solution,
                  .PL_close_query]
              ++ ((if trace_enabled then [.prolog_tracing false] else [])
                ++ [.PL_discard_foreign_frame]) })
    ∧ (typed.flatMap Typed.slots ++ extra).take (2 * (p.arity - 1).toNat)
      = typed.flatMap Typed.slots
    ∧ put_args args (p.arity - 1).toNat 0
      = put_args (args.take (2 * (p.arity - 1).toNat)) (p.arity - 1).toNat 0
    ∧ (prolog_acall e trace_enabled p retval args narg).map Call.outcome
      = (prolog_acall e trace_enabled p retval (args.take (2 * (p.arity - 1).toNat))
          (p.arity - 1)).map Call.outcome
    ∧ (prolog_acall e trace_enabled p retval args narg).map (fun c => c.log)
      = (prolog_acall e trace_enabled p retval (args.take (2 * (p.arity - 1).toNat))
          (p.arity - 1)).map (fun c => Event.PROLOG_WARNING "prolog_acall" :: c.log) := by
  have hput : put_args (typed.flatMap Typed.slots ++ extra) (p.arity - 1).toNat 0
      = (typed.enum.map (fun a => a.2.put a.1), typed.map Typed.term, true) := by
    have := put_args_typed typed extra [] 0 rfl
    rw [← htyped]
    simpa [List.enum] using this
  have h1 : ¬ narg < p.arity - 1 := by omega
  refine ⟨hput, ?_, ?_, prolog_acall_take e trace_enabled p retval args narg hextra⟩
  · unfold prolog_acall
    simp only [if_neg h1, if_pos hextra, hput, Bool.not_true, Bool.false_eq_true, if_false]
  · rw [← htyped, ← length_flatMap_slots typed, List.take_left]

set_option maxRecDepth 100000 in
/-- Witness for C19: the predicate `set_routes/2` takes one input argument; it
is called with the string `a` followed by an integer and a string it has no
place for. The atom `a` alone is put and the query is opened on it. -/
theorem prolog_acall_ignores_extra_witness :
    put_args [tag 's', .str "a".toList, tag 'i', .int 5, tag 's', .str "b".toList] 1 0
      = ([.PL_put_atom_chars 0 "a".toList], [.atom "a".toList], true)
    ∧ prolog_acall (solving_engine audio_actions) false set_routes2 NULL
        [tag 's', .str "a".toList, tag 'i', .int 5, tag 's', .str "b".toList] 3
      = some { success := TRUE, retval := .env audio_envelope,
               log := [.PROLOG_WARNING "prolog_acall", .PL_open_foreign_frame,
                 .PL_new_term_refs 2, .PL_put_atom_chars 0 "a".toList,
                 .PL_open_query 8 [.atom "a".toList], .PL_next_solution,
                 .PL_close_query, .PL_discard_foreign_frame] }
    ∧ (prolog_acall (solving_engine audio_actions) false set_routes2 NULL
        [tag 's', .str "a".toList, tag 'i', .int 5, tag 's', .str "b".toList] 3).map
          Call.outcome
      = (prolog_acall (solving_engine audio_actions) false set_routes2 NULL
          [tag 's', .str "a".toList] 1).map Call.outcome :=
  ⟨(prolog_acall_ignores_extra (solving_engine audio_actions) false set_routes2 NULL
      [tag 's', .str "a".toList, tag 'i', .int 5, tag 's', .str "b".toList]
      [.string "a".toList] [tag 'i', .int 5, tag 's', .str "b".toList] 3
      (by decide) (by decide)).1,
   (prolog_acall_ignores_extra (solving_engine audio_actions) false set_routes2 NULL
      [tag 's', .str "a".toList, tag 'i', .int 5, tag 's', .str "b".toList]
      [.string "a".toList] [tag 'i', .int 5, tag 's', .str "b".toList] 3
      (by decide) (by decide)).2.1,
   (prolog_acall_ignores_extra (solving_engine audio_actions) false set_routes2 NULL
      [tag 's', .str "a".toList, tag 'i', .int 5, tag 's', .str "b".toList]
      [.string "a".toList] [tag 'i', .int 5, tag 's', .str "b".toList] 3
      (by decide) (by decide)).2.2.2.2.1⟩

end Prolog
